import Mathlib

/-!
# neon: static nonlinear solver core

Shallow embedding of `src/assembler/solid/femStaticMatrix.cpp`,
`src/constitutive/InternalVariables.hpp` and `src/mesh/node_ordering_adapter.cpp`.

Conventions of the embedding.

* `double` values are integers: the properties below are statements of exact
  arithmetic (sums, products, zeros).
* A dense Eigen vector is its index function `Nat → Int`; an index beyond the
  vector's size is undefined behaviour in the source and is not modelled.
* An Eigen sparse matrix is the list of its stored coordinates together with
  the values held there; reading a coordinate that is not stored gives zero.
  Compressed and uncompressed storage are not told apart, and a coordinate
  beyond the dimensions (an assertion in the library) is not modelled.
* The mesh is the collaborator interface the assembler reads: per submesh an
  element count and the three per-element accessors.
* Code that can throw returns `Option` or `Except`: `none` is the exception of
  a checked access `at`, `Except.error` the `runtime_error` of a failed lookup.
* The `while` loop of the Newton-Raphson driver takes fuel, one unit for each
  evaluation of its condition, and returns `none` when the fuel runs out; that
  it returns with enough fuel is proved, not assumed.
-/

namespace Neon

/-! ## Dense vectors -/

/-- Dense global vector of the solver (`neon::Vector`), as its index function. -/
abbrev Vector := Nat → Int

/-- Embeds `Vector::Zero(n)` and `v.setZero()`: every entry is zero. -/
def Vector.Zero : Vector := fun _ => 0

/-- Embeds `v(i) = x`: store into one entry. -/
def Vector.assign (v : Vector) (i : Nat) (x : Int) : Vector :=
  fun k => if k = i then x else v k

/-! ## Sparse matrices -/

/-- Eigen sparse matrix: dimensions, the stored coordinates (the sparsity
pattern) and the values. `value` is read only at stored coordinates. -/
structure SparseMatrix where
  rows : Nat
  cols : Nat
  pattern : List (Nat × Nat)
  value : Nat → Nat → Int

namespace SparseMatrix

/-- Embeds `K.coeff(i, j)`: the stored value, zero where nothing is stored. -/
def coeff (K : SparseMatrix) (i j : Nat) : Int :=
  if (i, j) ∈ K.pattern then K.value i j else 0

/-- Embeds `K.resize(n, m)`: new dimensions, no stored coordinate. -/
def resize (_K : SparseMatrix) (n m : Nat) : SparseMatrix :=
  { rows := n, cols := m, pattern := [], value := fun _ _ => 0 }

/-- Embeds `K.setFromTriplets(first, last)`: the stored coordinates are those of the
triplets, a coordinate named several times being stored once with the sum of
its values. -/
def setFromTriplets (K : SparseMatrix) (ts : List ((Nat × Nat) × Int)) : SparseMatrix :=
  { K with
    pattern := (ts.map Prod.fst).dedup
    value := fun i j => ((ts.filter fun t => t.1 = (i, j)).map Prod.snd).sum }

/-- Embeds `K.coeffs() = 0.0`: every stored value becomes zero, the pattern stays. -/
def coeffs_zero (K : SparseMatrix) : SparseMatrix :=
  { K with value := fun _ _ => 0 }

/-- The side effect of `K.coeffRef(i, j)`: a coordinate that is not stored is
inserted with the value zero; a stored one is left as it is. -/
def coeffRef (K : SparseMatrix) (i j : Nat) : SparseMatrix :=
  if (i, j) ∈ K.pattern then K
  else { K with
         pattern := K.pattern ++ [(i, j)]
         value := fun a b => if a = i ∧ b = j then 0 else K.value a b }

/-- Store through a reference to the value at `(i, j)`. -/
def write (K : SparseMatrix) (i j : Nat) (v : Int) : SparseMatrix :=
  { K with value := fun a b => if a = i ∧ b = j then v else K.value a b }

/-- Embeds `K.coeffRef(i, j) += v`. -/
def coeffRef_add (K : SparseMatrix) (i j : Nat) (v : Int) : SparseMatrix :=
  (K.coeffRef i j).write i j ((K.coeffRef i j).coeff i j + v)

/-- Embeds `K.coeffRef(i, j) = v`. -/
def coeffRef_assign (K : SparseMatrix) (i j : Nat) (v : Int) : SparseMatrix :=
  (K.coeffRef i j).write i j v

/-- Coordinate of the entry with the given outer and inner index: the outer
index is the row of a row-major matrix and the column of a column-major one. -/
def coord (IsRowMajor : Bool) (outer inner : Nat) : Nat × Nat :=
  if IsRowMajor then (outer, inner) else (inner, outer)

/-- Inner indices met by `InnerIterator it(K, outer)`: those of the stored
entries of the outer vector, in storage order. -/
def innerIndices (IsRowMajor : Bool) (K : SparseMatrix) (outer : Nat) : List Nat :=
  (K.pattern.filter fun c =>
      (if IsRowMajor then c.1 else c.2) = outer).map
    fun c => if IsRowMajor then c.2 else c.1

end SparseMatrix

/-! ## Mesh collaborator -/

/-- Result of `internal_force(element)`: the DOF list and the local force
vector. The loop of `compute_internal_force` indexes the DOF list by every
index of the force vector, so the force vector is no longer than the list. -/
structure ElementForce where
  dofs : List Nat
  fe_int : List Int
  size_le : fe_int.length ≤ dofs.length

/-- One Dirichlet boundary: the prescribed DOFs and the prescribed value. -/
structure Dirichlet where
  dof_view : List Nat
  value_view : Int

/-- Submesh interface read by the assembler: the element count `elements()`
and the three per-element accessors the source calls. The class itself is not
among the sources, so its values are arbitrary here. -/
structure femSubmesh where
  elements : Nat
  local_dof_list : Nat → List Nat
  tangent_stiffness : Nat → List Nat × (Nat → Nat → Int)
  internal_force : Nat → ElementForce

/-- Mesh interface read by the assembler: `active_dofs()`, `meshes()` and
`dirichlet_boundary_map()`, the map being listed in its iteration order. The
class itself is not among the sources, so its values are arbitrary here. -/
structure femMesh where
  active_dofs : Nat
  meshes : List femSubmesh
  dirichlet_boundary_map : List (String × List Dirichlet)

/-- Modelled from the spec: the class `Doublet` is not among the sources. It is
the coordinate pair `compute_sparsity_pattern` hands to `setFromTriplets`;
read as a triplet it carries the value zero, the pattern being independent of
numeric values. -/
structure Doublet where
  row : Nat
  col : Nat

/-- Triplet view of a doublet. -/
def Doublet.triplet (t : Doublet) : (Nat × Nat) × Int := ((t.row, t.col), 0)

/-! ## femStaticMatrix -/

/-- Members of `femStaticMatrix` written by the operations below; `load_factor`
is what `adaptive_load.load_factor()` returns. -/
structure femStaticMatrix where
  Kt : SparseMatrix
  fint : Vector
  d : Vector
  is_sparsity_computed : Bool
  load_factor : Int

/-- Doublets pushed by the loops of `compute_sparsity_pattern`. -/
def sparsity_doublets (fem_mesh : femMesh) : List Doublet :=
  fem_mesh.meshes.flatMap fun submesh =>
    (List.range submesh.elements).flatMap fun element =>
      (submesh.local_dof_list element).flatMap fun p =>
        (submesh.local_dof_list element).map fun q => { row := p, col := q }

/-- Embeds `femStaticMatrix::compute_sparsity_pattern`. -/
def compute_sparsity_pattern (fem_mesh : femMesh) (s : femStaticMatrix) : femStaticMatrix :=
  { s with
    Kt := (s.Kt.resize fem_mesh.active_dofs fem_mesh.active_dofs).setFromTriplets
            ((sparsity_doublets fem_mesh).map Doublet.triplet)
    is_sparsity_computed := true }

/-- Scatter of one element block: the two index loops of `assemble_stiffness`,
`b` outside and `a` inside. -/
def scatter_stiffness (dofs : List Nat) (ke : Nat → Nat → Int) (K : SparseMatrix) :
    SparseMatrix :=
  (List.finRange dofs.length).foldl
    (fun K b => (List.finRange dofs.length).foldl
      (fun K a => K.coeffRef_add (dofs.get a) (dofs.get b) (ke a b)) K) K

/-- The element loops of `assemble_stiffness`. -/
def assemble_elements (fem_mesh : femMesh) (K : SparseMatrix) : SparseMatrix :=
  fem_mesh.meshes.foldl
    (fun K submesh => (List.range submesh.elements).foldl
      (fun K element =>
        scatter_stiffness (submesh.tangent_stiffness element).1
          (submesh.tangent_stiffness element).2 K) K) K

/-- Embeds `femStaticMatrix::assemble_stiffness`. -/
def assemble_stiffness (fem_mesh : femMesh) (s : femStaticMatrix) : femStaticMatrix :=
  let s1 := if s.is_sparsity_computed then s else compute_sparsity_pattern fem_mesh s
  { s1 with Kt := assemble_elements fem_mesh s1.Kt.coeffs_zero }

/-- Scatter of one element force: the index loop of `compute_internal_force`. -/
def scatter_force (r : ElementForce) (f : Vector) : Vector :=
  (List.finRange r.fe_int.length).foldl
    (fun f a =>
      f.assign (r.dofs.get (Fin.castLE r.size_le a))
        (f (r.dofs.get (Fin.castLE r.size_le a)) + r.fe_int.get a)) f

/-- Embeds `femStaticMatrix::compute_internal_force`. -/
def compute_internal_force (fem_mesh : femMesh) (s : femStaticMatrix) : femStaticMatrix :=
  { s with
    fint := fem_mesh.meshes.foldl
      (fun f submesh => (List.range submesh.elements).foldl
        (fun f element => scatter_force (submesh.internal_force element) f) f)
      Vector.Zero }

/-- Body of the loop over `fixed_dof` in `enforce_dirichlet_conditions`, on the
triple (Kt, x, b). -/
def enforce_fixed_dof (IsRowMajor : Bool) (st : SparseMatrix × Vector × Vector)
    (fixed_dof : Nat) : SparseMatrix × Vector × Vector :=
  let K1 := st.1.coeffRef fixed_dof fixed_dof
  let diagonal_entry := K1.coeff fixed_dof fixed_dof
  let b1 := st.2.2.assign fixed_dof 0
  let x1 := st.2.1.assign fixed_dof 0
  let non_zero_visitor := SparseMatrix.innerIndices IsRowMajor K1 fixed_dof
  let K2 := non_zero_visitor.foldl
    (fun K inner =>
      K.write (SparseMatrix.coord IsRowMajor fixed_dof inner).1
        (SparseMatrix.coord IsRowMajor fixed_dof inner).2 0) K1
  let K3 := non_zero_visitor.foldl
    (fun K non_zero =>
      K.coeffRef_assign (if IsRowMajor then non_zero else fixed_dof)
        (if IsRowMajor then fixed_dof else non_zero) 0) K2
  (K3.coeffRef_assign fixed_dof fixed_dof diagonal_entry, x1, b1)

/-- Embeds `femStaticMatrix::enforce_dirichlet_conditions`. The matrix parameter `A`
of the source is not used by its body, which works on the member `Kt`; `x` and
`b` are the two vector parameters. `IsRowMajor` is the storage order of the
`SparseMatrix` type. -/
def enforce_dirichlet_conditions (IsRowMajor : Bool) (fem_mesh : femMesh)
    (s : femStaticMatrix) (x b : Vector) : femStaticMatrix × Vector × Vector :=
  let r := fem_mesh.dirichlet_boundary_map.foldl
    (fun st entry => entry.2.foldl
      (fun st dirichlet_boundary =>
        dirichlet_boundary.dof_view.foldl (enforce_fixed_dof IsRowMajor) st) st)
    (s.Kt, x, b)
  ({ s with Kt := r.1 }, r.2.1, r.2.2)

/-- Embeds `femStaticMatrix::apply_displacement_boundaries`. The argument is not read
by the body, which scales by `adaptive_load.load_factor()`. -/
def apply_displacement_boundaries (fem_mesh : femMesh) (_load_factor : Int)
    (s : femStaticMatrix) : femStaticMatrix :=
  { s with
    d := fem_mesh.dirichlet_boundary_map.foldl
      (fun d entry => entry.2.foldl
        (fun d dirichlet_boundary =>
          dirichlet_boundary.dof_view.foldl
            (fun d dof => d.assign dof (s.load_factor * dirichlet_boundary.value_view)) d) d)
      s.d }

/-! ## InternalVariables -/

/-- Kinds of `InternalVariables::Matrix`. -/
inductive InternalVariables.Matrix where
  | MaterialTangent
  deriving DecidableEq, Repr

/-- Kinds of `InternalVariables::Tensor`. -/
inductive InternalVariables.Tensor where
  | DisplacementGradient
  | CauchyStress
  | CauchyStrain
  | CauchyStressPlastic
  | CauchyStrainPlastic
  | Kirchhoff
  | PiolaKirchhoff1
  | PiolaKirchhoff2
  | RateOfDeformation
  | RateOfDeformationPlastic
  | DeformationGradient
  | DeformationGradientPlastic
  | GreenStrain
  deriving DecidableEq, Repr

/-- Kinds of `InternalVariables::Scalar`. -/
inductive InternalVariables.Scalar where
  | VonMisesStress
  | EffectivePlasticStrain
  | DetJ0
  | DetJ
  deriving DecidableEq, Repr

/-- Members of `InternalVariables`. An `unordered_map` is its lookup function,
`none` for a key that is not in the map. `T` is the value type `neon::Tensor`
and `M` the value type `neon::Matrix`, neither among the sources. -/
structure InternalVariables (T M : Type) where
  tensors : InternalVariables.Tensor → Option (List T)
  tensors_old : InternalVariables.Tensor → Option (List T)
  scalars : InternalVariables.Scalar → Option (List Int)
  scalars_old : InternalVariables.Scalar → Option (List Int)
  matrices : InternalVariables.Matrix → Option (List M)
  size : Nat

namespace InternalVariables

variable {T M : Type}

/-- Embeds `InternalVariables::commit`. -/
def commit (v : InternalVariables T M) : InternalVariables T M :=
  { v with tensors_old := v.tensors, scalars_old := v.scalars }

/-- Embeds `InternalVariables::revert`. -/
def revert (v : InternalVariables T M) : InternalVariables T M :=
  { v with tensors := v.tensors_old, scalars := v.scalars_old }

end InternalVariables

/-! ## Sums the assembly is compared with -/

/-- Contribution of one element block to the global coordinate `(i, j)`: the
sum of `ke(a, b)` over the local index pairs with `dofs[a] = i` and
`dofs[b] = j`. -/
def block_sum (dofs : List Nat) (ke : Nat → Nat → Int) (i j : Nat) : Int :=
  ((List.finRange dofs.length).map fun b =>
    ((List.finRange dofs.length).map fun a =>
      if dofs.get a = i ∧ dofs.get b = j then ke a b else 0).sum).sum

/-- Sum over all elements of all submeshes of their block contributions to
`(i, j)`. -/
def stiffness_sum (fem_mesh : femMesh) (i j : Nat) : Int :=
  (fem_mesh.meshes.map fun submesh =>
    ((List.range submesh.elements).map fun element =>
      block_sum (submesh.tangent_stiffness element).1
        (submesh.tangent_stiffness element).2 i j).sum).sum

/-- Contribution of one element force to the global index `i`: the sum of
`fe_int(a)` over the local indices with `dofs[a] = i`. -/
def element_force_sum (r : ElementForce) (i : Nat) : Int :=
  ((List.finRange r.fe_int.length).map fun a =>
    if r.dofs.get (Fin.castLE r.size_le a) = i then r.fe_int.get a else 0).sum

/-- Sum over all elements of all submeshes of their force contributions to
`i`. -/
def force_sum (fem_mesh : femMesh) (i : Nat) : Int :=
  (fem_mesh.meshes.map fun submesh =>
    ((List.range submesh.elements).map fun element =>
      element_force_sum (submesh.internal_force element) i).sum).sum

/-! ## Predicates and lists the statements use -/

namespace SparseMatrix

/-- The coordinate `(a, b)` is stored and lies in the outer vector `f`. -/
def inOuter (IsRowMajor : Bool) (K : SparseMatrix) (f a b : Nat) : Prop :=
  (a, b) ∈ K.pattern ∧ (if IsRowMajor then a else b) = f

instance (IsRowMajor : Bool) (K : SparseMatrix) (f a b : Nat) :
    Decidable (inOuter IsRowMajor K f a b) := by
  unfold inOuter
  infer_instance

end SparseMatrix

/-- The prescribed DOFs in the order the loops of `enforce_dirichlet_conditions`
and `apply_displacement_boundaries` meet them. -/
def prescribed_dofs (fem_mesh : femMesh) : List Nat :=
  fem_mesh.dirichlet_boundary_map.flatMap fun entry =>
    entry.2.flatMap fun dirichlet_boundary => dirichlet_boundary.dof_view

/-- The pairs (prescribed DOF, prescribed value of its boundary) in the order
the loops of `apply_displacement_boundaries` meet them. -/
def prescribed_pairs (fem_mesh : femMesh) : List (Nat × Int) :=
  fem_mesh.dirichlet_boundary_map.flatMap fun entry =>
    entry.2.flatMap fun dirichlet_boundary =>
      dirichlet_boundary.dof_view.map fun dof => (dof, dirichlet_boundary.value_view)

/-- The pattern stores a coordinate together with its transposed one. -/
def PatternSymmetric (K : SparseMatrix) : Prop :=
  ∀ a b, (a, b) ∈ K.pattern → (b, a) ∈ K.pattern

/-- For the DOFs of `P` the enforcement has nothing left to do on `K`: the
diagonal coordinate is stored, and every off-diagonal stored entry of the outer
vector is zero and has its transposed coordinate stored with the value zero. -/
def Settled (R : Bool) (P : Nat → Prop) (K : SparseMatrix) : Prop :=
  ∀ f, P f → (f, f) ∈ K.pattern ∧
    ∀ a b, a ≠ b → SparseMatrix.inOuter R K f a b →
      K.coeff a b = 0 ∧ K.coeff b a = 0 ∧ (b, a) ∈ K.pattern

/-! ## A small mesh for concrete checks -/

/-- Two elements on three DOFs: element 0 on the DOFs 0 and 1, element 1 on the
DOFs 1 and 2, so that the DOF 1 is shared. -/
def demo_submesh : femSubmesh :=
  { elements := 2
    local_dof_list := fun element => if element = 0 then [0, 1] else [1, 2]
    tangent_stiffness := fun element =>
      (if element = 0 then [0, 1] else [1, 2], fun a b => 10 * element + 2 * a + b + 1)
    internal_force := fun element =>
      { dofs := if element = 0 then [0, 1] else [1, 2]
        fe_int := [3, 4]
        size_le := by split <;> simp } }

/-- The two elements with one boundary fixing the DOF 0 at zero and one
prescribing the value 5 at the DOF 2. -/
def demo_mesh : femMesh :=
  { active_dofs := 3
    meshes := [demo_submesh]
    dirichlet_boundary_map :=
      [("fixed", [{ dof_view := [0], value_view := 0 }]),
       ("pulled", [{ dof_view := [2], value_view := 5 }])] }

/-- A solver before its first assembly, with the load factor 2 and a
displacement vector holding 7 everywhere. -/
def demo_solver : femStaticMatrix :=
  { Kt := { rows := 0, cols := 0, pattern := [], value := fun _ _ => 0 }
    fint := Vector.Zero
    d := fun _ => 7
    is_sparsity_computed := false
    load_factor := 2 }

/-! ## Access to the internal variables -/

namespace InternalVariables

variable {T M : Type}

/-- Embeds `operator()(Tensor)`, the access to the non-converged tensor
variables: the working values of the kind, `none` for a kind that is not in the
map (the source dereferences the end iterator there). -/
def call_Tensor (v : InternalVariables T M) (k : InternalVariables.Tensor) :
    Option (List T) := v.tensors k

/-- Embeds `operator()(Scalar)`, the access to the non-converged scalar
variables. -/
def call_Scalar (v : InternalVariables T M) (k : InternalVariables.Scalar) :
    Option (List Int) := v.scalars k

/-- Embeds `operator()(Matrix)`, the access to the non-converged matrix
variables. -/
def call_Matrix (v : InternalVariables T M) (k : InternalVariables.Matrix) :
    Option (List M) := v.matrices k

/-- Embeds `operator[](Tensor)`, the access to the converged tensor variables:
it reads `tensors_old`. -/
def index_Tensor (v : InternalVariables T M) (k : InternalVariables.Tensor) :
    Option (List T) := v.tensors_old k

/-- Embeds `operator[](Scalar)`, the access to the converged scalar variables:
it reads `scalars_old`. -/
def index_Scalar (v : InternalVariables T M) (k : InternalVariables.Scalar) :
    Option (List Int) := v.scalars_old k

/-- Embeds `operator[](Matrix)`, documented as the access to the converged
matrix variables: it reads `matrices`, the map `operator()(Matrix)` reads. -/
def index_Matrix (v : InternalVariables T M) (k : InternalVariables.Matrix) :
    Option (List M) := v.matrices k

/-- A write through the reference that `operator()(Tensor)` returns: the
working values of the kind become `g` of what they were. `none` for a kind that
is not in the map. -/
def mutate_Tensor (v : InternalVariables T M) (k : InternalVariables.Tensor)
    (g : List T → List T) : Option (InternalVariables T M) :=
  match v.tensors k with
  | some xs => some { v with tensors := fun k1 => if k1 = k then some (g xs) else v.tensors k1 }
  | none => none

/-- A write through the reference that `operator()(Scalar)` returns. -/
def mutate_Scalar (v : InternalVariables T M) (k : InternalVariables.Scalar)
    (g : List Int → List Int) : Option (InternalVariables T M) :=
  match v.scalars k with
  | some xs => some { v with scalars := fun k1 => if k1 = k then some (g xs) else v.scalars k1 }
  | none => none

/-- A write through the reference that `operator()(Matrix)` returns. -/
def mutate_Matrix (v : InternalVariables T M) (k : InternalVariables.Matrix)
    (g : List M → List M) : Option (InternalVariables T M) :=
  match v.matrices k with
  | some xs =>
    some { v with matrices := fun k1 => if k1 = k then some (g xs) else v.matrices k1 }
  | none => none

/-- One write through `operator()`, of a tensor, a scalar or a matrix kind. -/
inductive Mutation (T M : Type) where
  | tensor (k : InternalVariables.Tensor) (g : List T → List T)
  | scalar (k : InternalVariables.Scalar) (g : List Int → List Int)
  | matrix (k : InternalVariables.Matrix) (g : List M → List M)

/-- The store after one write through `operator()`. -/
def Mutation.apply (m : Mutation T M) (v : InternalVariables T M) :
    Option (InternalVariables T M) :=
  match m with
  | Mutation.tensor k g => v.mutate_Tensor k g
  | Mutation.scalar k g => v.mutate_Scalar k g
  | Mutation.matrix k g => v.mutate_Matrix k g

/-- The store after a sequence of writes through `operator()`. -/
def mutate_all (ms : List (Mutation T M)) (v : InternalVariables T M) :
    Option (InternalVariables T M) :=
  ms.foldlM (fun v m => m.apply v) v

end InternalVariables

/-- A store of one quadrature point, tensor and matrix values written as
integers: the Cauchy stress with working value 5 and converged value 4, the
von Mises stress with working value 1 and converged value 0, and the material
tangent 7. -/
def demo_store : InternalVariables Int Int :=
  { tensors := fun k => if k = InternalVariables.Tensor.CauchyStress then some [5] else none
    tensors_old := fun k =>
      if k = InternalVariables.Tensor.CauchyStress then some [4] else none
    scalars := fun k => if k = InternalVariables.Scalar.VonMisesStress then some [1] else none
    scalars_old := fun k =>
      if k = InternalVariables.Scalar.VonMisesStress then some [0] else none
    matrices := fun k => if k = InternalVariables.Matrix.MaterialTangent then some [7] else none
    size := 1 }

/-- Writes of the three kinds of the small store through `operator()`: the
Cauchy stress becomes 6, the von Mises stress 2 and the material tangent 8. -/
def demo_mutations : List (InternalVariables.Mutation Int Int) :=
  [InternalVariables.Mutation.tensor InternalVariables.Tensor.CauchyStress (fun _ => [6]),
   InternalVariables.Mutation.scalar InternalVariables.Scalar.VonMisesStress (fun _ => [2]),
   InternalVariables.Mutation.matrix InternalVariables.Matrix.MaterialTangent (fun _ => [8])]

/-! ## Node ordering adapter -/

/-- Element topologies: the enumerators of `element_topology` that
`node_ordering_adapter.cpp` names. The declaration of the enumeration is not
among the sources. -/
inductive element_topology where
  | line2
  | triangle3
  | quadrilateral4
  | tetrahedron4
  | hexahedron8
  | prism6
  | line3
  | triangle6
  | tetrahedron10
  | quadrilateral9
  | hexahedron27
  | prism18
  | quadrilateral8
  | prism15
  | hexahedron20
  deriving DecidableEq, Repr

/-- Nodal list of one element (`local_indices`). -/
abbrev local_indices := List Int

/-- The table `gmsh_converter`, in the order of its initialiser. -/
def gmsh_converter : List (Int × element_topology) :=
  [(1, element_topology.line2),
   (2, element_topology.triangle3),
   (3, element_topology.quadrilateral4),
   (4, element_topology.tetrahedron4),
   (5, element_topology.hexahedron8),
   (6, element_topology.prism6),
   (8, element_topology.line3),
   (9, element_topology.triangle6),
   (11, element_topology.tetrahedron10),
   (10, element_topology.quadrilateral9),
   (12, element_topology.hexahedron27),
   (13, element_topology.prism18),
   (16, element_topology.quadrilateral8),
   (18, element_topology.prism15),
   (17, element_topology.hexahedron20)]

/-- Embeds `gmsh_type_to_enum`: the topology found for the code, or the
`runtime_error` thrown when the table has no such code. -/
def gmsh_type_to_enum (element_code : Int) : Except String element_topology :=
  match gmsh_converter.find? (fun entry => entry.1 == element_code) with
  | some found => Except.ok found.2
  | none =>
    Except.error
      ("Element code " ++ toString element_code ++ " not implemented for gmsh element type")

/-- Embeds `std::swap(nodal_list.at(i), nodal_list.at(j))`: `none` stands for
the `out_of_range` that `at` throws for an index beyond the list. -/
def swap_at (nodal_list : local_indices) (i j : Nat) : Option local_indices :=
  match nodal_list[i]?, nodal_list[j]? with
  | some a, some b => some ((nodal_list.set i b).set j a)
  | _, _ => none

/-- The swaps of a loop body, applied in order to one nodal list. -/
def swap_all (swaps : List (Nat × Nat)) (nodal_list : local_indices) : Option local_indices :=
  swaps.foldlM (fun l swap => swap_at l swap.1 swap.2) nodal_list

/-- A loop `for (auto& nodal_list : nodal_connectivity)` with the given swaps
as its body. -/
def for_each_nodal_list (swaps : List (Nat × Nat)) (nodal_connectivity : List local_indices) :
    Option (List local_indices) :=
  nodal_connectivity.mapM (swap_all swaps)

/-- Swaps of the case `tetrahedron10` of `convert_from_gmsh`. -/
def tetrahedron10_swaps : List (Nat × Nat) := [(4, 7), (4, 5), (5, 8), (8, 9), (6, 9)]

/-- Swaps of the case `tetrahedron4` of `convert_from_gmsh`. -/
def tetrahedron4_swaps : List (Nat × Nat) := [(0, 3), (0, 2), (0, 1)]

/-- Swaps of the case `prism6` of `convert_from_gmsh`. -/
def prism6_swaps : List (Nat × Nat) := [(0, 1), (3, 4)]

/-- Swaps of the case `prism15` of `convert_from_gmsh`. -/
def prism15_swaps : List (Nat × Nat) :=
  [(0, 1), (3, 6), (7, 4), (5, 9), (8, 7), (10, 6), (11, 8), (11, 9)]

/-- Swaps of the case `hexahedron27` of `convert_from_gmsh`. -/
def hexahedron27_swaps : List (Nat × Nat) := [(21, 25), (25, 22), (24, 25), (23, 25)]

/-- Swaps of the case `hexahedron20` of `convert_from_gmsh`. -/
def hexahedron20_swaps : List (Nat × Nat) :=
  [(11, 9), (13, 10), (12, 17), (16, 12), (16, 13), (13, 15), (13, 19), (13, 18), (14, 18)]

/-- Embeds `convert_from_gmsh`: the connectivity after the call, `none` when an
`at` throws. The case `tetrahedron10` has no `break` and the case
`hexahedron27` is marked as falling through, so each runs the loop of the case
below it as well. -/
def convert_from_gmsh (nodal_connectivity : List local_indices) (topology : element_topology) :
    Option (List local_indices) :=
  match topology with
  | element_topology.tetrahedron10 =>
    (for_each_nodal_list tetrahedron10_swaps nodal_connectivity).bind
      (for_each_nodal_list tetrahedron4_swaps)
  | element_topology.tetrahedron4 => for_each_nodal_list tetrahedron4_swaps nodal_connectivity
  | element_topology.prism6 => for_each_nodal_list prism6_swaps nodal_connectivity
  | element_topology.prism15 => for_each_nodal_list prism15_swaps nodal_connectivity
  | element_topology.hexahedron27 =>
    (for_each_nodal_list hexahedron27_swaps nodal_connectivity).bind
      (for_each_nodal_list hexahedron20_swaps)
  | element_topology.hexahedron20 => for_each_nodal_list hexahedron20_swaps nodal_connectivity
  | _ => some nodal_connectivity

/-- The list whose position `k` holds the entry of `nodal_list` at the index
`table[k]`. -/
def reorder_by_table (table : List Nat) (nodal_list : local_indices) : local_indices :=
  table.filterMap fun i => nodal_list[i]?

/-- Input index of each output position for `hexahedron20`, as the claim lists
them. -/
def hexahedron20_table : List Nat :=
  [0, 1, 2, 3, 4, 5, 6, 7, 8, 11, 13, 9, 16, 18, 19, 17, 10, 12, 14, 15]

/-- Input index of each output position for `hexahedron27`, as the claim lists
them. -/
def hexahedron27_table : List Nat :=
  [0, 1, 2, 3, 4, 5, 6, 7, 8, 11, 13, 9, 16, 18, 19, 17, 10, 12, 14, 15,
   20, 25, 21, 24, 22, 23, 26]

/-- Node labels of the Gmsh diagram in the comment of the case `hexahedron20`,
read line by line from left to right. -/
def gmsh_hexahedron20_diagram : List Nat :=
  [3, 13, 2, 15, 14, 9, 11, 7, 19, 6, 0, 8, 1, 17, 18, 10, 12, 4, 16, 5]

/-- Node labels of the Hughes diagram in the comment of the case
`hexahedron20`, read in the same order: equal places of the two lists are the
same place of the drawing. -/
def hughes_hexahedron20_diagram : List Nat :=
  [3, 10, 2, 19, 18, 11, 9, 7, 14, 6, 0, 8, 1, 15, 13, 16, 17, 4, 12, 5]

/-- Node labels of the Gmsh diagram in the comment of the case `hexahedron27`,
read line by line from left to right. -/
def gmsh_hexahedron27_diagram : List Nat :=
  [3, 13, 2, 15, 24, 14, 9, 20, 11, 7, 19, 6, 22, 26, 23, 0, 8, 1, 17, 25, 18,
   10, 21, 12, 4, 16, 5]

/-- Node labels of the Hughes diagram in the comment of the case
`hexahedron27`, read in the same order. -/
def hughes_hexahedron27_diagram : List Nat :=
  [3, 10, 2, 19, 23, 18, 11, 20, 9, 7, 14, 6, 24, 26, 25, 0, 8, 1, 15, 21, 13,
   16, 22, 17, 4, 12, 5]

/-- Twenty node ids for the concrete checks: the entry at index `i` is
`100 + i`. -/
def demo_nodal_list20 : local_indices :=
  [100, 101, 102, 103, 104, 105, 106, 107, 108, 109,
   110, 111, 112, 113, 114, 115, 116, 117, 118, 119]

/-- Twenty-seven node ids for the concrete checks: the entry at index `i` is
`100 + i`. -/
def demo_nodal_list27 : local_indices :=
  [100, 101, 102, 103, 104, 105, 106, 107, 108, 109,
   110, 111, 112, 113, 114, 115, 116, 117, 118, 119,
   120, 121, 122, 123, 124, 125, 126]

/-- Input index of each position after the first loop of the case
`hexahedron27`, which moves the entries 21 to 25 only. -/
def hexahedron27_first_table : List Nat :=
  [0, 1, 2, 3, 4, 5, 6, 7, 8, 9, 10, 11, 12, 13, 14, 15, 16, 17, 18, 19,
   20, 25, 21, 24, 22, 23, 26]

/-- Input index of each position after the loop of the case `hexahedron20` run
on a list of 27 entries, which leaves the entries 20 to 26. -/
def hexahedron27_second_table : List Nat :=
  hexahedron20_table ++ [20, 21, 22, 23, 24, 25, 26]

/-! ## Newton-Raphson driver -/

/-- Calls made by `perform_equilibrium_iterations`, recorded in the order in
which they are made. -/
inductive Call where
  | compute_internal_force
  | assemble_stiffness
  | enforce_dirichlet_conditions
  | solve
  | update_internal_variables
  | write (step : Nat)
  | update_convergence_state (converged : Bool)
  | save_internal_variables (converged : Bool)
  deriving DecidableEq, Repr

/-- Whether the call is `fem_mesh.write`. -/
def Call.is_write : Call → Bool
  | Call.write _ => true
  | _ => false

/-- Collaborators of the driver, none of them among the sources, with any
behaviour: the mesh (`μ` is its state, of which `fem_mesh` is what the assembler
reads), the linear solver, the load controller (`α` is its state) and the two
tolerance tests `delta_d.norm() < displacement_tolerance` and
`residual.norm() < residual_tolerance`. `IsRowMajor` is the storage order of the
sparse matrix type. -/
structure Collaborators (μ α : Type) where
  fem_mesh : μ → femMesh
  update_internal_variables : μ → Vector → Int → μ
  write : μ → Nat → μ
  save_internal_variables : μ → Bool → μ
  solve : SparseMatrix → Vector → Vector → Vector
  increment : α → Int
  step : α → Nat
  load_factor : α → Int
  update_convergence_state : α → Bool → α
  displacement_below_tolerance : Vector → Bool
  residual_below_tolerance : Vector → Bool
  IsRowMajor : Bool

/-- State of `perform_equilibrium_iterations`: the solver members, the mesh, the
load controller, the locals `delta_d`, `residual` and `current_iteration`, and
the calls made so far. -/
structure NewtonState (μ α : Type) where
  solver : femStaticMatrix
  mesh : μ
  adaptive_load : α
  delta_d : Vector
  residual : Vector
  current_iteration : Nat
  calls : List Call

/-- The constant `max_iterations` of `perform_equilibrium_iterations`. -/
def max_iterations : Nat := 10

/-- Calls of one Newton iteration, in order. -/
def iteration_calls : List Call :=
  [Call.compute_internal_force, Call.assemble_stiffness, Call.enforce_dirichlet_conditions,
   Call.solve, Call.update_internal_variables]

/-- Body of the loop of `perform_equilibrium_iterations` up to the convergence
test: internal force, residual, stiffness, Dirichlet enforcement, linear solve,
`d += delta_d`, update of the internal variables. -/
def newton_iteration {μ α : Type} (c : Collaborators μ α) (st : NewtonState μ α) :
    NewtonState μ α :=
  let s1 := compute_internal_force (c.fem_mesh st.mesh) st.solver
  let s2 := assemble_stiffness (c.fem_mesh st.mesh) s1
  let r := enforce_dirichlet_conditions c.IsRowMajor (c.fem_mesh st.mesh) s2 st.delta_d s1.fint
  let delta_d := c.solve r.1.Kt r.2.1 (fun i => - r.2.2 i)
  let s3 : femStaticMatrix := { r.1 with d := fun i => r.1.d i + delta_d i }
  { solver := s3
    mesh := c.update_internal_variables st.mesh s3.d (c.increment st.adaptive_load)
    adaptive_load := st.adaptive_load
    delta_d := delta_d
    residual := r.2.2
    current_iteration := st.current_iteration
    calls := st.calls ++ iteration_calls }

/-- The convergence test at the end of the loop body. -/
def convergence_test {μ α : Type} (c : Collaborators μ α) (st : NewtonState μ α) : Bool :=
  c.displacement_below_tolerance st.delta_d && c.residual_below_tolerance st.residual

/-- The statement `current_iteration++`. -/
def next_iteration {μ α : Type} (st : NewtonState μ α) : NewtonState μ α :=
  { st with current_iteration := st.current_iteration + 1 }

/-- The loop `while (current_iteration < max_iterations)` of
`perform_equilibrium_iterations`. Each evaluation of the loop condition uses
one unit of `fuel`; `none` when the fuel runs out. -/
def newton_loop {μ α : Type} (c : Collaborators μ α) :
    Nat → NewtonState μ α → Option (NewtonState μ α)
  | 0, _ => none
  | fuel + 1, st =>
    if st.current_iteration < max_iterations then
      if convergence_test c (newton_iteration c st) then some (newton_iteration c st)
      else newton_loop c fuel (next_iteration (newton_iteration c st))
    else some st

/-- The statements of `perform_equilibrium_iterations` after the loop: the
results are written when `current_iteration != max_iterations`, and the same
test is handed to `update_convergence_state` and to `save_internal_variables`. -/
def end_of_step {μ α : Type} (c : Collaborators μ α) (st : NewtonState μ α) :
    NewtonState μ α :=
  let converged := st.current_iteration != max_iterations
  let mesh1 := if converged then c.write st.mesh (c.step st.adaptive_load) else st.mesh
  let adaptive_load := c.update_convergence_state st.adaptive_load converged
  { st with
    solver := { st.solver with load_factor := c.load_factor adaptive_load }
    mesh := c.save_internal_variables mesh1 converged
    adaptive_load := adaptive_load
    calls := st.calls ++ (if converged then [Call.write (c.step st.adaptive_load)] else []) ++
      [Call.update_convergence_state converged, Call.save_internal_variables converged] }

/-- State in which `perform_equilibrium_iterations` enters its loop. -/
def newton_start {μ α : Type} (solver : femStaticMatrix) (mesh : μ) (adaptive_load : α) :
    NewtonState μ α :=
  { solver := solver
    mesh := mesh
    adaptive_load := adaptive_load
    delta_d := Vector.Zero
    residual := Vector.Zero
    current_iteration := 0
    calls := [] }

/-- Embeds `femStaticMatrix::perform_equilibrium_iterations`. -/
def perform_equilibrium_iterations {μ α : Type} (c : Collaborators μ α) (fuel : Nat)
    (solver : femStaticMatrix) (mesh : μ) (adaptive_load : α) : Option (NewtonState μ α) :=
  (newton_loop c fuel (newton_start solver mesh adaptive_load)).map (end_of_step c)

/-- State at the entry of the Newton iteration number `k` (counted from zero)
when no convergence test before it succeeded. -/
def iteration_entry {μ α : Type} (c : Collaborators μ α) (st : NewtonState μ α) (k : Nat) :
    NewtonState μ α :=
  (fun st1 => next_iteration (newton_iteration c st1))^[k] st

/-- State at the convergence test of the Newton iteration number `k`. -/
def iteration_result {μ α : Type} (c : Collaborators μ α) (st : NewtonState μ α) (k : Nat) :
    NewtonState μ α :=
  newton_iteration c (iteration_entry c st k)

/-- A mesh for the concrete checks of the driver: one element on the DOFs 0 and
1 whose force on the DOF 1 is `2 - n` after `n` updates of the internal
variables, the DOF 0 being fixed. -/
def demo_newton_mesh (n : Nat) : femMesh :=
  { active_dofs := 2
    meshes :=
      [{ elements := 1
         local_dof_list := fun _ => [0, 1]
         tangent_stiffness := fun _ => ([0, 1], fun a b => if a = b then 2 else 1)
         internal_force := fun _ =>
           { dofs := [0, 1], fe_int := [5, 2 - (n : Int)], size_le := by simp } }]
    dirichlet_boundary_map := [("fixed", [{ dof_view := [0], value_view := 0 }])] }

/-- Collaborators for the concrete checks: the mesh state counts the updates of
the internal variables, the solver returns its right-hand side, the
displacement test always passes and the residual test passes when the residual
at the DOF 1 is zero. -/
def demo_collaborators : Collaborators Nat Nat :=
  { fem_mesh := demo_newton_mesh
    update_internal_variables := fun n _ _ => n + 1
    write := fun n _ => n
    save_internal_variables := fun n _ => n
    solve := fun _ _ rhs => rhs
    increment := fun _ => 1
    step := fun step => step
    load_factor := fun _ => 1
    update_convergence_state := fun step converged => if converged then step + 1 else step
    displacement_below_tolerance := fun _ => true
    residual_below_tolerance := fun residual => residual 1 == 0
    IsRowMajor := true }

/-! ## Meshes with their elements in another order -/

/-- The submesh `sm2` holds the elements of `sm1` in another order: the counts
agree and the element `e` of `sm2` is the element `σ e` of `sm1`, for a
permutation `σ` of the element numbers. -/
def SubmeshReordered (sm1 sm2 : femSubmesh) : Prop :=
  sm2.elements = sm1.elements ∧
    ∃ σ : Nat → Nat,
      ((List.range sm1.elements).map σ).Perm (List.range sm1.elements) ∧
      ∀ e < sm1.elements,
        sm2.local_dof_list e = sm1.local_dof_list (σ e) ∧
        sm2.tangent_stiffness e = sm1.tangent_stiffness (σ e) ∧
        sm2.internal_force e = sm1.internal_force (σ e)

/-- The mesh `m2` is the mesh `m1` with its submeshes in another order and the
elements of each submesh in another order. -/
def MeshReordered (m1 m2 : femMesh) : Prop :=
  m2.active_dofs = m1.active_dofs ∧
    ∃ l, List.Forall₂ SubmeshReordered m1.meshes l ∧ l.Perm m2.meshes

/-- The submesh of the small mesh with its two elements exchanged. -/
def demo_submesh_swapped : femSubmesh :=
  { elements := 2
    local_dof_list := fun element => demo_submesh.local_dof_list (1 - element)
    tangent_stiffness := fun element => demo_submesh.tangent_stiffness (1 - element)
    internal_force := fun element => demo_submesh.internal_force (1 - element) }

/-- The small mesh with its two elements exchanged. -/
def demo_mesh_swapped : femMesh :=
  { demo_mesh with meshes := [demo_submesh_swapped] }

/-! ## The incremental linear system -/

/-- Row `i` of the product `K * delta` of an `n` by `n` matrix with a vector. -/
def row_times (K : SparseMatrix) (n : Nat) (delta : Vector) (i : Nat) : Int :=
  ((List.range n).map fun j => K.coeff i j * delta j).sum

/-! ## Construction of the internal variables -/

namespace InternalVariables

variable {T M : Type}

/-- Embeds the constructor `InternalVariables(size)`: the five maps are empty. -/
def construct (size : Nat) : InternalVariables T M :=
  { tensors := fun _ => none
    tensors_old := fun _ => none
    scalars := fun _ => none
    scalars_old := fun _ => none
    matrices := fun _ => none
    size := size }

/-- Embeds `std::vector::resize(n, fill)`: the first `n` entries are kept and
the entries that are missing up to `n` are `fill`. -/
def resize {β : Type} (l : List β) (n : Nat) (fill : β) : List β :=
  l.take n ++ List.replicate (n - l.length) fill

/-- Embeds `map[name].resize(n, fill)`: `map[name]` is the entry of the kind,
inserted as an empty vector when the kind is not in the map. -/
def resize_entry {κ β : Type} [DecidableEq κ] (map : κ → Option (List β)) (name : κ) (n : Nat)
    (fill : β) : κ → Option (List β) :=
  fun k => if k = name then some (resize ((map name).getD []) n fill) else map k

/-- Embeds `has(Tensor)`. -/
def has_Tensor (v : InternalVariables T M) (name : InternalVariables.Tensor) : Bool :=
  (v.tensors name).isSome

/-- Embeds `has(Scalar)`. -/
def has_Scalar (v : InternalVariables T M) (name : InternalVariables.Scalar) : Bool :=
  (v.scalars name).isSome

/-- Embeds `has(Matrix)`. -/
def has_Matrix (v : InternalVariables T M) (name : InternalVariables.Matrix) : Bool :=
  (v.matrices name).isSome

/-- Embeds `add(Tensor name)`. `fresh` is the value of a default-constructed
`neon::Tensor`, with which `resize(size)` fills. -/
def add_Tensor (fresh : T) (v : InternalVariables T M) (name : InternalVariables.Tensor) :
    InternalVariables T M :=
  { v with
    tensors := resize_entry v.tensors name v.size fresh
    tensors_old := resize_entry v.tensors_old name v.size fresh }

/-- Embeds `add(Scalar name)`. -/
def add_Scalar (v : InternalVariables T M) (name : InternalVariables.Scalar) :
    InternalVariables T M :=
  { v with
    scalars := resize_entry v.scalars name v.size 0
    scalars_old := resize_entry v.scalars_old name v.size 0 }

/-- Embeds `add(Matrix name, int rowcol)`. `zero` is `neon::Matrix::Zero` of the
given size. -/
def add_Matrix (zero : Nat → M) (v : InternalVariables T M) (name : InternalVariables.Matrix)
    (rowcol : Nat) : InternalVariables T M :=
  { v with matrices := resize_entry v.matrices name v.size (zero rowcol) }

/-- A name of a variadic `add`: a tensor kind or a scalar kind. -/
inductive Name where
  | tensor (name : InternalVariables.Tensor)
  | scalar (name : InternalVariables.Scalar)
  deriving DecidableEq, Repr

/-- Embeds the variadic `add(name, names...)`: the first name is added, then
the others in order. -/
def add (fresh : T) (names : List Name) (v : InternalVariables T M) : InternalVariables T M :=
  names.foldl
    (fun v name =>
      match name with
      | Name.tensor k => add_Tensor fresh v k
      | Name.scalar k => add_Scalar v k)
    v

/-- Stores reachable from the construction with the given size by calls of
`add`, `commit`, `revert` and writes through `operator()`. -/
inductive Reachable (fresh : T) (zero : Nat → M) (size : Nat) : InternalVariables T M → Prop
  | construct : Reachable fresh zero size (construct size)
  | add_Tensor (v : InternalVariables T M) (name : InternalVariables.Tensor) :
      Reachable fresh zero size v → Reachable fresh zero size (add_Tensor fresh v name)
  | add_Scalar (v : InternalVariables T M) (name : InternalVariables.Scalar) :
      Reachable fresh zero size v → Reachable fresh zero size (add_Scalar v name)
  | add_Matrix (v : InternalVariables T M) (name : InternalVariables.Matrix) (rowcol : Nat) :
      Reachable fresh zero size v → Reachable fresh zero size (add_Matrix zero v name rowcol)
  | commit (v : InternalVariables T M) :
      Reachable fresh zero size v → Reachable fresh zero size v.commit
  | revert (v : InternalVariables T M) :
      Reachable fresh zero size v → Reachable fresh zero size v.revert
  | mutate (v v1 : InternalVariables T M) (m : Mutation T M) :
      Reachable fresh zero size v → m.apply v = some v1 → Reachable fresh zero size v1

end InternalVariables

/-- What a store built from the construction with size `n` by adding the names
of `P` holds: the kinds of `P`, each with `n` fresh entries in both
generations, and no other tensor or scalar kind. -/
def InternalVariables.Added {T M : Type} (fresh : T) (n : Nat)
    (P : InternalVariables.Name → Prop) (v : InternalVariables T M) : Prop :=
  v.size = n ∧
  (∀ k, (P (InternalVariables.Name.tensor k) →
      v.tensors k = some (List.replicate n fresh) ∧
        v.tensors_old k = some (List.replicate n fresh)) ∧
    (¬ P (InternalVariables.Name.tensor k) → v.tensors k = none ∧ v.tensors_old k = none)) ∧
  (∀ k, (P (InternalVariables.Name.scalar k) →
      v.scalars k = some (List.replicate n 0) ∧ v.scalars_old k = some (List.replicate n 0)) ∧
    (¬ P (InternalVariables.Name.scalar k) → v.scalars k = none ∧ v.scalars_old k = none))

/-- A store reached from the construction with size 2: two kinds are added, the
von Mises stress is written, and the store is committed. -/
def demo_built : InternalVariables Int Int :=
  (((InternalVariables.add (0 : Int)
      [InternalVariables.Name.tensor InternalVariables.Tensor.CauchyStress,
       InternalVariables.Name.scalar InternalVariables.Scalar.VonMisesStress]
      (InternalVariables.construct 2)).mutate_Scalar
        InternalVariables.Scalar.VonMisesStress (fun _ => [3, 4])).getD
    (InternalVariables.construct 2)).commit

/-! ## Node ordering by tables -/

/-- Swaps of the case `tetrahedron4` of `convert_to_vtk`. -/
def tetrahedron4_vtk_swaps : List (Nat × Nat) := [(0, 1)]

/-- Swaps of the case `tetrahedron10` of `convert_to_vtk`. -/
def tetrahedron10_vtk_swaps : List (Nat × Nat) := [(6, 8), (8, 9)]

/-- Swaps of the case `hexahedron27` of `convert_to_vtk`. -/
def hexahedron27_vtk_swaps : List (Nat × Nat) := [(21, 25), (20, 24)]

/-- Embeds `convert_to_vtk`: the connectivity returned, `none` when an `at`
throws. The case `hexahedron20` has no statement but its `break`. -/
def convert_to_vtk (nodal_connectivity : List local_indices) (topology : element_topology) :
    Option (List local_indices) :=
  match topology with
  | element_topology.tetrahedron4 =>
    for_each_nodal_list tetrahedron4_vtk_swaps nodal_connectivity
  | element_topology.tetrahedron10 =>
    for_each_nodal_list tetrahedron10_vtk_swaps nodal_connectivity
  | element_topology.hexahedron20 => some nodal_connectivity
  | element_topology.hexahedron27 =>
    for_each_nodal_list hexahedron27_vtk_swaps nodal_connectivity
  | _ => some nodal_connectivity

/-- A reorder table applied to a nodal list: the position `i` below the length
of the table receives the entry at the index `table[i]`, and the positions from
the length of the table on keep their entries. The empty table is the
identity. -/
def apply_table (table : List Nat) (nodal_list : local_indices) : local_indices :=
  reorder_by_table table nodal_list ++ nodal_list.drop table.length

/-- The reorder table of each topology for `convert_from_gmsh`, empty for a
topology without a case. -/
def from_gmsh_table : element_topology → List Nat
  | element_topology.tetrahedron4 => [1, 2, 3, 0]
  | element_topology.tetrahedron10 => [1, 2, 3, 0, 5, 8, 7, 4, 9, 6]
  | element_topology.prism6 => [1, 0, 2, 4, 3]
  | element_topology.prism15 => [1, 0, 2, 6, 7, 9, 10, 8, 11, 4, 3, 5]
  | element_topology.hexahedron27 =>
    [0, 1, 2, 3, 4, 5, 6, 7, 8, 11, 13, 9, 16, 18, 19, 17, 10, 12, 14, 15,
     20, 25, 21, 24, 22, 23]
  | element_topology.hexahedron20 =>
    [0, 1, 2, 3, 4, 5, 6, 7, 8, 11, 13, 9, 16, 18, 19, 17, 10, 12, 14, 15]
  | _ => []

/-- The reorder table of each topology for `convert_to_vtk`, empty for a
topology whose case makes no swap. -/
def to_vtk_table : element_topology → List Nat
  | element_topology.tetrahedron4 => [1, 0]
  | element_topology.tetrahedron10 => [0, 1, 2, 3, 4, 5, 8, 7, 9, 6]
  | element_topology.hexahedron27 =>
    [0, 1, 2, 3, 4, 5, 6, 7, 8, 9, 10, 11, 12, 13, 14, 15, 16, 17, 18, 19,
     24, 25, 22, 23, 20, 21]
  | _ => []

/-- The conversion written with a table: every nodal list is reordered by the
table. -/
def convert_by_table (table : List Nat) (nodal_connectivity : List local_indices) :
    List local_indices :=
  nodal_connectivity.map (apply_table table)

/-- One swap made on a table of indices. -/
def swap_table (table : List Nat) (i j : Nat) : List Nat :=
  (table.set i (table.getD j 0)).set j (table.getD i 0)

/-- The swaps of a loop body made in order on a table of indices. -/
def swap_table_all (swaps : List (Nat × Nat)) (table : List Nat) : List Nat :=
  swaps.foldl (fun t swap => swap_table t swap.1 swap.2) table

/-- Ten node ids for the concrete checks: the entry at index `i` is `100 + i`. -/
def demo_nodal_list10 : local_indices :=
  [100, 101, 102, 103, 104, 105, 106, 107, 108, 109]

/-! # Theorems -/

open SparseMatrix

/-! ## Loops that accumulate -/

/-- A loop whose body adds `c x` to an observed quantity adds, in all, the sum
of the `c x`. -/
theorem foldl_obs_add {σ α : Type} (obs : σ → Int) (step : σ → α → σ) (c : α → Int)
    (h : ∀ s x, obs (step s x) = obs s + c x) (xs : List α) (s : σ) :
    obs (xs.foldl step s) = obs s + (xs.map c).sum := by
  induction xs generalizing s with
  | nil => simp
  | cons x xs ih =>
    rw [List.foldl_cons, ih, h, List.map_cons, List.sum_cons]
    ring

namespace SparseMatrix

theorem mem_pattern_coeffRef (K : SparseMatrix) (i j a b : Nat) :
    (a, b) ∈ (K.coeffRef i j).pattern ↔ (a, b) ∈ K.pattern ∨ (a = i ∧ b = j) := by
  unfold coeffRef
  by_cases h : (i, j) ∈ K.pattern
  · rw [if_pos h]
    constructor
    · exact Or.inl
    · rintro (h1 | ⟨rfl, rfl⟩)
      · exact h1
      · exact h
  · rw [if_neg h]
    simp [Prod.ext_iff]

theorem coeff_coeffRef (K : SparseMatrix) (i j a b : Nat) :
    (K.coeffRef i j).coeff a b = K.coeff a b := by
  unfold coeffRef
  by_cases h : (i, j) ∈ K.pattern
  · rw [if_pos h]
  · rw [if_neg h]
    unfold coeff
    by_cases hab : a = i ∧ b = j
    · obtain ⟨rfl, rfl⟩ := hab
      simp [h]
    · have hne : (a, b) ≠ (i, j) := fun he => hab (by simpa [Prod.ext_iff] using he)
      simp [hab, hne]

theorem write_pattern (K : SparseMatrix) (i j : Nat) (v : Int) :
    (K.write i j v).pattern = K.pattern := rfl

theorem coeff_write (K : SparseMatrix) (i j : Nat) (v : Int) (a b : Nat) :
    (K.write i j v).coeff a b =
      if a = i ∧ b = j then (if (i, j) ∈ K.pattern then v else 0) else K.coeff a b := by
  unfold write coeff
  by_cases hab : a = i ∧ b = j
  · obtain ⟨rfl, rfl⟩ := hab
    simp
  · simp [hab]

theorem mem_pattern_coeffRef_self (K : SparseMatrix) (i j : Nat) :
    (i, j) ∈ (K.coeffRef i j).pattern :=
  (mem_pattern_coeffRef K i j i j).2 (Or.inr ⟨rfl, rfl⟩)

theorem coeff_coeffRef_assign (K : SparseMatrix) (i j : Nat) (v : Int) (a b : Nat) :
    (K.coeffRef_assign i j v).coeff a b = if a = i ∧ b = j then v else K.coeff a b := by
  unfold coeffRef_assign
  rw [coeff_write, if_pos (mem_pattern_coeffRef_self K i j), coeff_coeffRef]

theorem mem_pattern_coeffRef_assign (K : SparseMatrix) (i j : Nat) (v : Int) (a b : Nat) :
    (a, b) ∈ (K.coeffRef_assign i j v).pattern ↔ (a, b) ∈ K.pattern ∨ (a = i ∧ b = j) := by
  unfold coeffRef_assign
  rw [write_pattern, mem_pattern_coeffRef]

theorem coeff_coeffRef_add (K : SparseMatrix) (i j : Nat) (v : Int) (a b : Nat) :
    (K.coeffRef_add i j v).coeff a b = K.coeff a b + if a = i ∧ b = j then v else 0 := by
  unfold coeffRef_add
  rw [coeff_write, if_pos (mem_pattern_coeffRef_self K i j), coeff_coeffRef]
  by_cases hab : a = i ∧ b = j
  · obtain ⟨rfl, rfl⟩ := hab
    simp [coeff_coeffRef]
  · simp [hab, coeff_coeffRef]

theorem mem_pattern_coeffRef_add (K : SparseMatrix) (i j : Nat) (v : Int) (a b : Nat) :
    (a, b) ∈ (K.coeffRef_add i j v).pattern ↔ (a, b) ∈ K.pattern ∨ (a = i ∧ b = j) := by
  unfold coeffRef_add
  rw [write_pattern, mem_pattern_coeffRef]

theorem coeff_coeffs_zero (K : SparseMatrix) (a b : Nat) : K.coeffs_zero.coeff a b = 0 := by
  unfold coeffs_zero coeff
  simp

end SparseMatrix

theorem coeff_scatter_stiffness (dofs : List Nat) (ke : Nat → Nat → Int) (K : SparseMatrix)
    (i j : Nat) :
    (scatter_stiffness dofs ke K).coeff i j = K.coeff i j + block_sum dofs ke i j := by
  unfold scatter_stiffness block_sum
  refine foldl_obs_add (fun K => K.coeff i j) _ _ ?_ _ K
  intro K1 b
  refine foldl_obs_add (fun K => K.coeff i j) _ _ ?_ _ K1
  intro K2 a
  simp only [SparseMatrix.coeff_coeffRef_add]
  by_cases h : i = dofs.get a ∧ j = dofs.get b
  · obtain ⟨rfl, rfl⟩ := h
    simp
  · have h2 : ¬ (dofs.get a = i ∧ dofs.get b = j) := fun ⟨h1, h2⟩ => h ⟨h1.symm, h2.symm⟩
    rw [if_neg h, if_neg h2]

theorem coeff_assemble_elements (fem_mesh : femMesh) (K : SparseMatrix) (i j : Nat) :
    (assemble_elements fem_mesh K).coeff i j = K.coeff i j + stiffness_sum fem_mesh i j := by
  unfold assemble_elements stiffness_sum
  refine foldl_obs_add (fun K => K.coeff i j) _ _ ?_ _ K
  intro K1 submesh
  refine foldl_obs_add (fun K => K.coeff i j) _ _ ?_ _ K1
  intro K2 element
  exact coeff_scatter_stiffness _ _ K2 i j

theorem scatter_force_apply (r : ElementForce) (f : Vector) (i : Nat) :
    scatter_force r f i = f i + element_force_sum r i := by
  unfold scatter_force element_force_sum
  refine foldl_obs_add (fun f : Vector => f i) _ _ ?_ _ f
  intro f1 a
  unfold Vector.assign
  dsimp only
  by_cases h : i = r.dofs.get (Fin.castLE r.size_le a)
  · rw [if_pos h, if_pos h.symm, ← h]
  · have h2 : ¬ r.dofs.get (Fin.castLE r.size_le a) = i := fun h1 => h h1.symm
    rw [if_neg h, if_neg h2, add_zero]

/-! ## Claims -/

/-- C1: after `assemble_stiffness`, whatever the mesh and whatever `Kt` held
before, the entry `Kt(i, j)` is the sum over all elements and all local index
pairs `(a, b)` with `dofs[a] = i` and `dofs[b] = j` of `ke(a, b)`. -/
theorem C1_assemble_stiffness_is_sum (fem_mesh : femMesh) (s : femStaticMatrix) (i j : Nat) :
    (assemble_stiffness fem_mesh s).Kt.coeff i j = stiffness_sum fem_mesh i j := by
  unfold assemble_stiffness
  simp only
  rw [coeff_assemble_elements, SparseMatrix.coeff_coeffs_zero, zero_add]

/-- C2: after `compute_internal_force`, whatever the mesh and whatever `fint`
held before, the entry `fint[i]` is the sum over all elements and local indices
`a` with `dofs[a] = i` of `fe_int(a)`; it is zero when no element touches `i`. -/
theorem C2_compute_internal_force_is_sum (fem_mesh : femMesh) (s : femStaticMatrix) (i : Nat) :
    (compute_internal_force fem_mesh s).fint i = force_sum fem_mesh i ∧
    ((∀ submesh ∈ fem_mesh.meshes, ∀ element < submesh.elements,
        ∀ a : Fin (submesh.internal_force element).fe_int.length,
          (submesh.internal_force element).dofs.get
            (Fin.castLE (submesh.internal_force element).size_le a) ≠ i) →
      (compute_internal_force fem_mesh s).fint i = 0) := by
  have hsum : (compute_internal_force fem_mesh s).fint i = force_sum fem_mesh i := by
    unfold compute_internal_force force_sum
    simp only
    have h := foldl_obs_add (fun f : Vector => f i)
      (fun f (submesh : femSubmesh) => (List.range submesh.elements).foldl
        (fun f element => scatter_force (submesh.internal_force element) f) f)
      (fun submesh => ((List.range submesh.elements).map fun element =>
        element_force_sum (submesh.internal_force element) i).sum)
      (by
        intro f1 submesh
        refine foldl_obs_add (fun f : Vector => f i) _ _ ?_ _ f1
        intro f2 element
        exact scatter_force_apply _ f2 i)
      fem_mesh.meshes Vector.Zero
    simpa [Vector.Zero] using h
  refine ⟨hsum, ?_⟩
  intro hno
  rw [hsum]
  unfold force_sum
  apply List.sum_eq_zero
  intro x hx
  obtain ⟨submesh, hsm, rfl⟩ := List.mem_map.1 hx
  apply List.sum_eq_zero
  intro y hy
  obtain ⟨element, he, rfl⟩ := List.mem_map.1 hy
  unfold element_force_sum
  apply List.sum_eq_zero
  intro z hz
  obtain ⟨a, _, rfl⟩ := List.mem_map.1 hz
  rw [if_neg (hno submesh hsm element (List.mem_range.1 he) a)]

/-! ## The sparsity pattern -/

/-- A loop whose body keeps a property keeps it. -/
theorem foldl_keeps {σ α : Type} (P : σ → Prop) (step : σ → α → σ) (xs : List α)
    (h : ∀ s, P s → ∀ x ∈ xs, P (step s x)) (s : σ) (hs : P s) : P (xs.foldl step s) := by
  induction xs generalizing s with
  | nil => exact hs
  | cons x xs ih =>
    rw [List.foldl_cons]
    exact ih (fun s1 h1 y hy => h s1 h1 y (List.mem_cons_of_mem _ hy)) _
      (h s hs x (List.mem_cons_self _ _))

theorem mem_sparsity_doublets (fem_mesh : femMesh) (p q : Nat) :
    ({ row := p, col := q } : Doublet) ∈ sparsity_doublets fem_mesh ↔
      ∃ submesh ∈ fem_mesh.meshes, ∃ element < submesh.elements,
        p ∈ submesh.local_dof_list element ∧ q ∈ submesh.local_dof_list element := by
  unfold sparsity_doublets
  simp only [List.mem_flatMap, List.mem_map, List.mem_range, Doublet.mk.injEq]
  constructor
  · rintro ⟨submesh, hsm, element, he, p1, hp, q1, hq, rfl, rfl⟩
    exact ⟨submesh, hsm, element, he, hp, hq⟩
  · rintro ⟨submesh, hsm, element, he, hp, hq⟩
    exact ⟨submesh, hsm, element, he, p, hp, q, hq, rfl, rfl⟩

theorem mem_pattern_compute_sparsity_pattern (fem_mesh : femMesh) (s : femStaticMatrix)
    (p q : Nat) :
    (p, q) ∈ (compute_sparsity_pattern fem_mesh s).Kt.pattern ↔
      ∃ submesh ∈ fem_mesh.meshes, ∃ element < submesh.elements,
        p ∈ submesh.local_dof_list element ∧ q ∈ submesh.local_dof_list element := by
  rw [← mem_sparsity_doublets]
  unfold compute_sparsity_pattern SparseMatrix.setFromTriplets
  simp only [List.mem_dedup, List.mem_map]
  constructor
  · rintro ⟨t, ⟨dd, hdd, rfl⟩, ht⟩
    cases dd with
    | mk r c =>
      simp only [Doublet.triplet, Prod.mk.injEq] at ht
      obtain ⟨rfl, rfl⟩ := ht
      exact hdd
  · intro h
    exact ⟨((p, q), 0), ⟨_, h, rfl⟩, rfl⟩

theorem scatter_stiffness_pattern (dofs : List Nat) (ke : Nat → Nat → Int) (K : SparseMatrix)
    (h : ∀ a b : Fin dofs.length, (dofs.get a, dofs.get b) ∈ K.pattern) :
    (scatter_stiffness dofs ke K).pattern = K.pattern := by
  unfold scatter_stiffness
  refine foldl_keeps (fun K1 : SparseMatrix => K1.pattern = K.pattern) _ _ ?_ K rfl
  intro K1 h1 b _
  refine foldl_keeps (fun K2 : SparseMatrix => K2.pattern = K.pattern) _ _ ?_ K1 h1
  intro K2 h2 a _
  show (K2.coeffRef_add _ _ _).pattern = K.pattern
  unfold SparseMatrix.coeffRef_add SparseMatrix.coeffRef
  rw [SparseMatrix.write_pattern, if_pos (h2 ▸ h a b)]
  exact h2

theorem assemble_elements_pattern (fem_mesh : femMesh) (K : SparseMatrix)
    (h : ∀ submesh ∈ fem_mesh.meshes, ∀ element < submesh.elements,
      ∀ a b : Fin (submesh.tangent_stiffness element).1.length,
        ((submesh.tangent_stiffness element).1.get a,
          (submesh.tangent_stiffness element).1.get b) ∈ K.pattern) :
    (assemble_elements fem_mesh K).pattern = K.pattern := by
  unfold assemble_elements
  refine foldl_keeps (fun K1 : SparseMatrix => K1.pattern = K.pattern) _ _ ?_ K rfl
  intro K1 h1 submesh hsm
  refine foldl_keeps (fun K2 : SparseMatrix => K2.pattern = K.pattern) _ _ ?_ K1 h1
  intro K2 h2 element he
  show (scatter_stiffness _ _ K2).pattern = K.pattern
  rw [scatter_stiffness_pattern _ _ K2
    (fun a b => h2 ▸ h submesh hsm element (List.mem_range.1 he) a b)]
  exact h2

theorem written_mem_compute_sparsity_pattern (fem_mesh : femMesh) (s : femStaticMatrix)
    (hsame : ∀ submesh ∈ fem_mesh.meshes, ∀ element < submesh.elements,
      (submesh.tangent_stiffness element).1 = submesh.local_dof_list element) :
    ∀ submesh ∈ fem_mesh.meshes, ∀ element < submesh.elements,
      ∀ a b : Fin (submesh.tangent_stiffness element).1.length,
        ((submesh.tangent_stiffness element).1.get a,
          (submesh.tangent_stiffness element).1.get b) ∈
            (compute_sparsity_pattern fem_mesh s).Kt.pattern := by
  intro submesh hsm element he a b
  rw [mem_pattern_compute_sparsity_pattern]
  refine ⟨submesh, hsm, element, he, ?_, ?_⟩
  · rw [← hsame submesh hsm element he]
    exact List.get_mem _ _ _
  · rw [← hsame submesh hsm element he]
    exact List.get_mem _ _ _

theorem assemble_stiffness_of_computed (fem_mesh : femMesh) (s : femStaticMatrix)
    (hc : s.is_sparsity_computed = true)
    (h : ∀ submesh ∈ fem_mesh.meshes, ∀ element < submesh.elements,
      ∀ a b : Fin (submesh.tangent_stiffness element).1.length,
        ((submesh.tangent_stiffness element).1.get a,
          (submesh.tangent_stiffness element).1.get b) ∈ s.Kt.pattern) :
    (assemble_stiffness fem_mesh s).Kt.pattern = s.Kt.pattern ∧
      (assemble_stiffness fem_mesh s).is_sparsity_computed = true := by
  unfold assemble_stiffness
  simp only [hc, if_true]
  exact ⟨assemble_elements_pattern fem_mesh s.Kt.coeffs_zero h, trivial⟩

theorem assemble_stiffness_of_not_computed (fem_mesh : femMesh) (s : femStaticMatrix)
    (hc : s.is_sparsity_computed = false) :
    assemble_stiffness fem_mesh s =
      assemble_stiffness fem_mesh (compute_sparsity_pattern fem_mesh s) := by
  unfold assemble_stiffness
  simp [hc, compute_sparsity_pattern]

/-- C3: a coordinate `(p, q)` is in the pattern built by
`compute_sparsity_pattern` exactly when some element of some submesh has both
`p` and `q` in its local DOF list, whatever the solver held before; the pattern
stores no coordinate twice. -/
theorem C3_sparsity_pattern_is_union (fem_mesh : femMesh) (s : femStaticMatrix) :
    (∀ p q, (p, q) ∈ (compute_sparsity_pattern fem_mesh s).Kt.pattern ↔
      ∃ submesh ∈ fem_mesh.meshes, ∃ element < submesh.elements,
        p ∈ submesh.local_dof_list element ∧ q ∈ submesh.local_dof_list element) ∧
    (compute_sparsity_pattern fem_mesh s).Kt.pattern.Nodup :=
  ⟨mem_pattern_compute_sparsity_pattern fem_mesh s, List.nodup_dedup _⟩

/-- C4: when `tangent_stiffness(element)` returns the DOF list of
`local_dof_list(element)`, every coordinate written by `assemble_stiffness` is
in the pattern of `compute_sparsity_pattern`; starting from a solver whose
pattern is not yet computed, after any number of assemblies the list of stored
coordinates of `Kt` is the one the first assembly computed, and the flag stays
set so that the pattern is not computed again. -/
theorem C4_pattern_fixed_by_assembly (fem_mesh : femMesh) (s : femStaticMatrix)
    (hsame : ∀ submesh ∈ fem_mesh.meshes, ∀ element < submesh.elements,
      (submesh.tangent_stiffness element).1 = submesh.local_dof_list element)
    (hfirst : s.is_sparsity_computed = false) :
    (∀ submesh ∈ fem_mesh.meshes, ∀ element < submesh.elements,
      ∀ a b : Fin (submesh.tangent_stiffness element).1.length,
        ((submesh.tangent_stiffness element).1.get a,
          (submesh.tangent_stiffness element).1.get b) ∈
            (compute_sparsity_pattern fem_mesh s).Kt.pattern) ∧
    ∀ n : Nat,
      ((assemble_stiffness fem_mesh)^[n + 1] s).Kt.pattern =
          (compute_sparsity_pattern fem_mesh s).Kt.pattern ∧
        ((assemble_stiffness fem_mesh)^[n + 1] s).is_sparsity_computed = true := by
  have hw := written_mem_compute_sparsity_pattern fem_mesh s hsame
  refine ⟨hw, ?_⟩
  intro n
  induction n with
  | zero =>
    rw [Function.iterate_one, assemble_stiffness_of_not_computed fem_mesh s hfirst]
    exact assemble_stiffness_of_computed fem_mesh _ rfl hw
  | succ n ih =>
    rw [Function.iterate_succ_apply']
    obtain ⟨hp, hc⟩ := ih
    have h2 := assemble_stiffness_of_computed fem_mesh _ hc (by rw [hp]; exact hw)
    exact ⟨h2.1.trans hp, h2.2⟩

/-! ## One prescribed DOF of the Dirichlet enforcement -/

namespace SparseMatrix

theorem mem_map_coord_innerIndices (R : Bool) (K : SparseMatrix) (f a b : Nat) :
    (a, b) ∈ (innerIndices R K f).map (coord R f) ↔ inOuter R K f a b := by
  unfold innerIndices inOuter coord
  cases R
  · simp only [Bool.false_eq_true, if_false, List.mem_map, List.mem_filter,
      decide_eq_true_eq, Prod.mk.injEq]
    constructor
    · rintro ⟨j, ⟨⟨c1, c2⟩, ⟨hc, rfl⟩, rfl⟩, rfl, rfl⟩
      exact ⟨hc, rfl⟩
    · rintro ⟨h, rfl⟩
      exact ⟨a, ⟨(a, b), ⟨h, rfl⟩, rfl⟩, rfl, rfl⟩
  · simp only [if_true, List.mem_map, List.mem_filter, decide_eq_true_eq, Prod.mk.injEq]
    constructor
    · rintro ⟨j, ⟨⟨c1, c2⟩, ⟨hc, rfl⟩, rfl⟩, rfl, rfl⟩
      exact ⟨hc, rfl⟩
    · rintro ⟨h, rfl⟩
      exact ⟨b, ⟨(a, b), ⟨h, rfl⟩, rfl⟩, rfl, rfl⟩

theorem mem_map_transposed_innerIndices (R : Bool) (K : SparseMatrix) (f a b : Nat) :
    (a, b) ∈ (innerIndices R K f).map
        (fun non_zero => (if R then non_zero else f, if R then f else non_zero)) ↔
      inOuter R K f b a := by
  unfold innerIndices inOuter
  cases R
  · simp only [Bool.false_eq_true, if_false, List.mem_map, List.mem_filter,
      decide_eq_true_eq, Prod.mk.injEq]
    constructor
    · rintro ⟨j, ⟨⟨c1, c2⟩, ⟨hc, rfl⟩, rfl⟩, rfl, rfl⟩
      exact ⟨hc, rfl⟩
    · rintro ⟨h, rfl⟩
      exact ⟨b, ⟨(b, a), ⟨h, rfl⟩, rfl⟩, rfl, rfl⟩
  · simp only [if_true, List.mem_map, List.mem_filter, decide_eq_true_eq, Prod.mk.injEq]
    constructor
    · rintro ⟨j, ⟨⟨c1, c2⟩, ⟨hc, rfl⟩, rfl⟩, rfl, rfl⟩
      exact ⟨hc, rfl⟩
    · rintro ⟨h, rfl⟩
      exact ⟨a, ⟨(b, a), ⟨h, rfl⟩, rfl⟩, rfl, rfl⟩

/-- A loop whose body zeroes the coordinate `c x` zeroes the coordinates of the
list and leaves the other values. -/
theorem coeff_foldl_zero {γ : Type} (step : SparseMatrix → γ → SparseMatrix)
    (c : γ → Nat × Nat)
    (h : ∀ K x a b, (step K x).coeff a b = if (a, b) = c x then 0 else K.coeff a b)
    (xs : List γ) (K : SparseMatrix) (a b : Nat) :
    (xs.foldl step K).coeff a b = if (a, b) ∈ xs.map c then 0 else K.coeff a b := by
  induction xs generalizing K with
  | nil => simp
  | cons x xs ih =>
    rw [List.foldl_cons, ih, h]
    by_cases h1 : (a, b) ∈ xs.map c
    · simp [h1]
    · by_cases h2 : (a, b) = c x
      · simp [h2]
      · rw [if_neg h1, if_neg h2, if_neg]
        simp only [List.map_cons, List.mem_cons, not_or]
        exact ⟨h2, h1⟩

/-- A loop whose body may insert the coordinate `c x` stores, besides what was
stored, the coordinates of the list. -/
theorem mem_pattern_foldl_insert {γ : Type} (step : SparseMatrix → γ → SparseMatrix)
    (c : γ → Nat × Nat)
    (h : ∀ K x a b, (a, b) ∈ (step K x).pattern ↔ (a, b) ∈ K.pattern ∨ (a, b) = c x)
    (xs : List γ) (K : SparseMatrix) (a b : Nat) :
    (a, b) ∈ (xs.foldl step K).pattern ↔ (a, b) ∈ K.pattern ∨ (a, b) ∈ xs.map c := by
  induction xs generalizing K with
  | nil => simp
  | cons x xs ih =>
    rw [List.foldl_cons, ih, h]
    simp only [List.map_cons, List.mem_cons]
    tauto

theorem inOuter_coeffRef (R : Bool) (K : SparseMatrix) (f a b : Nat) :
    inOuter R (K.coeffRef f f) f a b ↔ inOuter R K f a b ∨ (a = f ∧ b = f) := by
  unfold inOuter
  rw [mem_pattern_coeffRef]
  constructor
  · rintro ⟨h | h, h2⟩
    · exact Or.inl ⟨h, h2⟩
    · exact Or.inr h
  · rintro (⟨h, h2⟩ | ⟨rfl, rfl⟩)
    · exact ⟨Or.inl h, h2⟩
    · exact ⟨Or.inr ⟨rfl, rfl⟩, by simp⟩

end SparseMatrix

/-- Values of `Kt` after the body of the loop over `fixed_dof`: the diagonal
entry keeps its value; a stored entry of the outer vector of `fixed_dof`, and
the transposed coordinate of such an entry, is zero; every other value is
kept. -/
theorem coeff_enforce_fixed_dof (R : Bool) (st : SparseMatrix × Vector × Vector)
    (f a b : Nat) :
    (enforce_fixed_dof R st f).1.coeff a b =
      if a = b then st.1.coeff a b
      else if inOuter R st.1 f a b ∨ inOuter R st.1 f b a then 0
      else st.1.coeff a b := by
  unfold enforce_fixed_dof
  simp only
  rw [coeff_coeffRef_assign]
  by_cases hff : a = f ∧ b = f
  · obtain ⟨rfl, rfl⟩ := hff
    simp [coeff_coeffRef]
  rw [if_neg hff]
  rw [coeff_foldl_zero _
    (fun non_zero => (if R then non_zero else f, if R then f else non_zero))
    (fun K x a b => by rw [coeff_coeffRef_assign]; simp [Prod.ext_iff])]
  rw [coeff_foldl_zero _ (coord R f)
    (fun K x a b => by rw [coeff_write]; simp [Prod.ext_iff])]
  simp only [mem_map_coord_innerIndices, mem_map_transposed_innerIndices, inOuter_coeffRef,
    coeff_coeffRef]
  have hff2 : ¬ (b = f ∧ a = f) := fun h => hff ⟨h.2, h.1⟩
  by_cases hab : a = b
  · subst hab
    have h1 : ¬ inOuter R st.1 f a a := by
      rintro ⟨_, h2⟩
      cases R <;> simp at h2 <;> exact hff ⟨h2, h2⟩
    have h3 : ¬ a = f := fun h => hff ⟨h, h⟩
    simp [h1, h3]
  · simp only [hff, hff2, or_false, if_neg hab]
    by_cases h1 : inOuter R st.1 f a b
    · simp [h1]
    · by_cases h2 : inOuter R st.1 f b a
      · simp [h2]
      · simp [h1, h2]

/-- Stored coordinates of `Kt` after the body of the loop over `fixed_dof`:
what was stored, the diagonal coordinate, and the transposed coordinates of the
stored entries of the outer vector. -/
theorem mem_pattern_enforce_fixed_dof (R : Bool) (st : SparseMatrix × Vector × Vector)
    (f a b : Nat) :
    (a, b) ∈ (enforce_fixed_dof R st f).1.pattern ↔
      (a, b) ∈ st.1.pattern ∨ (a = f ∧ b = f) ∨ inOuter R st.1 f b a := by
  unfold enforce_fixed_dof
  simp only
  rw [mem_pattern_coeffRef_assign]
  rw [mem_pattern_foldl_insert _
    (fun non_zero => (if R then non_zero else f, if R then f else non_zero))
    (fun K x a b => by rw [mem_pattern_coeffRef_assign]; simp [Prod.ext_iff])]
  rw [mem_map_transposed_innerIndices, inOuter_coeffRef]
  have hp : ∀ (xs : List Nat) (K : SparseMatrix),
      (xs.foldl (fun K inner => K.write (coord R f inner).1 (coord R f inner).2 0) K).pattern
        = K.pattern := by
    intro xs
    induction xs with
    | nil => intro K; rfl
    | cons x xs ih => intro K; rw [List.foldl_cons, ih, write_pattern]
  rw [hp, mem_pattern_coeffRef]
  tauto

theorem enforce_fixed_dof_x (R : Bool) (st : SparseMatrix × Vector × Vector) (f i : Nat) :
    (enforce_fixed_dof R st f).2.1 i = if i = f then 0 else st.2.1 i := rfl

theorem enforce_fixed_dof_b (R : Bool) (st : SparseMatrix × Vector × Vector) (f i : Nat) :
    (enforce_fixed_dof R st f).2.2 i = if i = f then 0 else st.2.2 i := rfl

/-! ## The whole Dirichlet enforcement -/

theorem foldl_flatMap_eq {σ α β : Type} (f : σ → β → σ) (g : α → List β) (xs : List α)
    (s : σ) : (xs.flatMap g).foldl f s = xs.foldl (fun s x => (g x).foldl f s) s := by
  induction xs generalizing s with
  | nil => rfl
  | cons x xs ih => rw [List.flatMap_cons, List.foldl_append, ih, List.foldl_cons]

theorem mem_prescribed_dofs (fem_mesh : femMesh) (f : Nat) :
    f ∈ prescribed_dofs fem_mesh ↔
      ∃ entry ∈ fem_mesh.dirichlet_boundary_map, ∃ dirichlet_boundary ∈ entry.2,
        f ∈ dirichlet_boundary.dof_view := by
  unfold prescribed_dofs
  simp only [List.mem_flatMap]

/-- The three nested loops of the enforcement are one loop over the prescribed
DOFs. -/
theorem enforce_dirichlet_conditions_eq (R : Bool) (fem_mesh : femMesh) (s : femStaticMatrix)
    (x b : Vector) :
    enforce_dirichlet_conditions R fem_mesh s x b =
      ({ s with Kt := ((prescribed_dofs fem_mesh).foldl (enforce_fixed_dof R) (s.Kt, x, b)).1 },
        ((prescribed_dofs fem_mesh).foldl (enforce_fixed_dof R) (s.Kt, x, b)).2.1,
        ((prescribed_dofs fem_mesh).foldl (enforce_fixed_dof R) (s.Kt, x, b)).2.2) := by
  unfold enforce_dirichlet_conditions prescribed_dofs
  simp only [foldl_flatMap_eq]

theorem coeff_diag_foldl_enforce (R : Bool) (F : List Nat) (st : SparseMatrix × Vector × Vector)
    (a : Nat) : (F.foldl (enforce_fixed_dof R) st).1.coeff a a = st.1.coeff a a := by
  refine foldl_keeps (fun st1 : SparseMatrix × Vector × Vector =>
    st1.1.coeff a a = st.1.coeff a a) _ F ?_ st rfl
  intro st1 h1 f _
  show (enforce_fixed_dof R st1 f).1.coeff a a = _
  rw [coeff_enforce_fixed_dof, if_pos rfl, h1]

theorem foldl_enforce_x (R : Bool) (F : List Nat) (st : SparseMatrix × Vector × Vector)
    (i : Nat) : (F.foldl (enforce_fixed_dof R) st).2.1 i = if i ∈ F then 0 else st.2.1 i := by
  induction F generalizing st with
  | nil => simp
  | cons f F ih =>
    rw [List.foldl_cons, ih, enforce_fixed_dof_x]
    by_cases h1 : i ∈ F
    · simp [h1]
    · by_cases h2 : i = f
      · simp [h2]
      · simp [h1, h2]

theorem foldl_enforce_b (R : Bool) (F : List Nat) (st : SparseMatrix × Vector × Vector)
    (i : Nat) : (F.foldl (enforce_fixed_dof R) st).2.2 i = if i ∈ F then 0 else st.2.2 i := by
  induction F generalizing st with
  | nil => simp
  | cons f F ih =>
    rw [List.foldl_cons, ih, enforce_fixed_dof_b]
    by_cases h1 : i ∈ F
    · simp [h1]
    · by_cases h2 : i = f
      · simp [h2]
      · simp [h1, h2]

/-! ### Symmetric patterns -/

theorem enforce_fixed_dof_symmetric (R : Bool) (st : SparseMatrix × Vector × Vector) (f : Nat)
    (h : PatternSymmetric st.1) : PatternSymmetric (enforce_fixed_dof R st f).1 := by
  intro a b hab
  rw [mem_pattern_enforce_fixed_dof] at hab ⊢
  rcases hab with h1 | ⟨rfl, rfl⟩ | h3
  · exact Or.inl (h a b h1)
  · exact Or.inr (Or.inl ⟨rfl, rfl⟩)
  · exact Or.inl h3.1

theorem coeff_enforce_fixed_dof_symmetric (R : Bool) (st : SparseMatrix × Vector × Vector)
    (f a b : Nat) (h : PatternSymmetric st.1) :
    (enforce_fixed_dof R st f).1.coeff a b =
      if a ≠ b ∧ (a = f ∨ b = f) then 0 else st.1.coeff a b := by
  rw [coeff_enforce_fixed_dof]
  by_cases hab : a = b
  · simp [hab]
  · rw [if_neg hab]
    by_cases hz : inOuter R st.1 f a b ∨ inOuter R st.1 f b a
    · rw [if_pos hz, if_pos]
      refine ⟨hab, ?_⟩
      rcases hz with ⟨_, h2⟩ | ⟨_, h2⟩ <;> cases R <;> simp at h2 <;> simp [h2]
    · rw [if_neg hz]
      by_cases hf : a = f ∨ b = f
      · rw [if_pos ⟨hab, hf⟩]
        unfold coeff
        rw [if_neg]
        intro hmem
        apply hz
        unfold inOuter
        have hmem2 := h a b hmem
        rcases hf with rfl | rfl <;> cases R <;> simp [hmem, hmem2]
      · rw [if_neg (fun hh => hf hh.2)]

theorem foldl_enforce_symmetric (R : Bool) (F : List Nat) (st : SparseMatrix × Vector × Vector)
    (h : PatternSymmetric st.1) : PatternSymmetric (F.foldl (enforce_fixed_dof R) st).1 :=
  foldl_keeps (fun st1 : SparseMatrix × Vector × Vector => PatternSymmetric st1.1) _ F
    (fun st1 h1 f _ => enforce_fixed_dof_symmetric R st1 f h1) st h

theorem coeff_foldl_enforce_symmetric (R : Bool) (F : List Nat)
    (st : SparseMatrix × Vector × Vector) (a b : Nat) (h : PatternSymmetric st.1) :
    (F.foldl (enforce_fixed_dof R) st).1.coeff a b =
      if a ≠ b ∧ (a ∈ F ∨ b ∈ F) then 0 else st.1.coeff a b := by
  induction F generalizing st with
  | nil => simp
  | cons f F ih =>
    rw [List.foldl_cons, ih _ (enforce_fixed_dof_symmetric R st f h),
      coeff_enforce_fixed_dof_symmetric R st f a b h]
    by_cases hab : a = b
    · simp [hab]
    · by_cases h1 : a ∈ F ∨ b ∈ F
      · have h2 : a ∈ f :: F ∨ b ∈ f :: F :=
          h1.imp (List.mem_cons_of_mem _) (List.mem_cons_of_mem _)
        rw [if_pos ⟨hab, h1⟩, if_pos ⟨hab, h2⟩]
      · rw [if_neg (fun hh => h1 hh.2)]
        by_cases h3 : a = f ∨ b = f
        · have h2 : a ∈ f :: F ∨ b ∈ f :: F :=
            h3.imp (fun e => List.mem_cons.2 (Or.inl e)) (fun e => List.mem_cons.2 (Or.inl e))
          rw [if_pos ⟨hab, h3⟩, if_pos ⟨hab, h2⟩]
        · rw [if_neg (fun hh => h3 hh.2), if_neg]
          rintro ⟨_, hh⟩
          simp only [List.mem_cons] at hh
          tauto

/-! ### The assembled pattern is symmetric -/

/-- A loop whose body may insert the coordinates `S x` stores, besides what was
stored, the coordinates of all `S x`. -/
theorem mem_pattern_foldl_union {γ : Type} (step : SparseMatrix → γ → SparseMatrix)
    (S : γ → Nat → Nat → Prop)
    (h : ∀ K x a b, (a, b) ∈ (step K x).pattern ↔ (a, b) ∈ K.pattern ∨ S x a b)
    (xs : List γ) (K : SparseMatrix) (a b : Nat) :
    (a, b) ∈ (xs.foldl step K).pattern ↔ (a, b) ∈ K.pattern ∨ ∃ x ∈ xs, S x a b := by
  induction xs generalizing K with
  | nil => simp
  | cons x xs ih =>
    rw [List.foldl_cons, ih, h]
    simp only [List.mem_cons, exists_eq_or_imp]
    tauto

theorem mem_pattern_scatter_stiffness (dofs : List Nat) (ke : Nat → Nat → Int)
    (K : SparseMatrix) (p q : Nat) :
    (p, q) ∈ (scatter_stiffness dofs ke K).pattern ↔
      (p, q) ∈ K.pattern ∨ (p ∈ dofs ∧ q ∈ dofs) := by
  unfold scatter_stiffness
  rw [mem_pattern_foldl_union _ (fun (b : Fin dofs.length) p q => p ∈ dofs ∧ q = dofs.get b)]
  · apply or_congr_right
    constructor
    · rintro ⟨b, _, hp, rfl⟩
      exact ⟨hp, List.get_mem _ _ _⟩
    · rintro ⟨hp, hq⟩
      obtain ⟨b, rfl⟩ := List.mem_iff_get.1 hq
      exact ⟨b, List.mem_finRange b, hp, rfl⟩
  · intro K1 b p1 q1
    rw [mem_pattern_foldl_union _
      (fun (a : Fin dofs.length) p q => p = dofs.get a ∧ q = dofs.get b)]
    · apply or_congr_right
      constructor
      · rintro ⟨a, _, rfl, rfl⟩
        exact ⟨List.get_mem _ _ _, rfl⟩
      · rintro ⟨hp, rfl⟩
        obtain ⟨a, rfl⟩ := List.mem_iff_get.1 hp
        exact ⟨a, List.mem_finRange a, rfl, rfl⟩
    · intro K2 a p2 q2
      exact SparseMatrix.mem_pattern_coeffRef_add K2 _ _ _ p2 q2

theorem mem_pattern_assemble_elements (fem_mesh : femMesh) (K : SparseMatrix) (p q : Nat) :
    (p, q) ∈ (assemble_elements fem_mesh K).pattern ↔
      (p, q) ∈ K.pattern ∨ ∃ submesh ∈ fem_mesh.meshes, ∃ element < submesh.elements,
        p ∈ (submesh.tangent_stiffness element).1 ∧
          q ∈ (submesh.tangent_stiffness element).1 := by
  unfold assemble_elements
  rw [mem_pattern_foldl_union _ (fun (submesh : femSubmesh) p q =>
    ∃ element < submesh.elements, p ∈ (submesh.tangent_stiffness element).1 ∧
      q ∈ (submesh.tangent_stiffness element).1)]
  intro K1 submesh p1 q1
  rw [mem_pattern_foldl_union _ (fun (element : Nat) p q =>
    p ∈ (submesh.tangent_stiffness element).1 ∧ q ∈ (submesh.tangent_stiffness element).1)]
  · simp only [List.mem_range]
  · intro K2 element p2 q2
    exact mem_pattern_scatter_stiffness _ _ K2 p2 q2

theorem compute_sparsity_pattern_symmetric (fem_mesh : femMesh) (s : femStaticMatrix) :
    PatternSymmetric (compute_sparsity_pattern fem_mesh s).Kt := by
  intro a b h
  rw [mem_pattern_compute_sparsity_pattern] at h ⊢
  obtain ⟨submesh, hsm, element, he, ha, hb⟩ := h
  exact ⟨submesh, hsm, element, he, hb, ha⟩

theorem assemble_elements_symmetric (fem_mesh : femMesh) (K : SparseMatrix)
    (h : PatternSymmetric K) : PatternSymmetric (assemble_elements fem_mesh K) := by
  intro a b hab
  rw [mem_pattern_assemble_elements] at hab ⊢
  rcases hab with h1 | ⟨submesh, hsm, element, he, ha, hb⟩
  · exact Or.inl (h a b h1)
  · exact Or.inr ⟨submesh, hsm, element, he, hb, ha⟩

theorem assemble_stiffness_symmetric (fem_mesh : femMesh) (s : femStaticMatrix)
    (hs : s.is_sparsity_computed = true → PatternSymmetric s.Kt) :
    PatternSymmetric (assemble_stiffness fem_mesh s).Kt := by
  unfold assemble_stiffness
  simp only
  apply assemble_elements_symmetric
  by_cases hc : s.is_sparsity_computed = true
  · rw [if_pos hc]
    exact hs hc
  · rw [if_neg hc]
    exact compute_sparsity_pattern_symmetric fem_mesh s

/-- C5: let `Kt` be assembled by `assemble_stiffness`, its pattern being that of
`compute_sparsity_pattern` (computed by this assembly, or computed before and
symmetric as that pattern is). After `enforce_dirichlet_conditions`, for every
prescribed DOF `f` of every Dirichlet group, `x[f] = 0`, `b[f] = 0`, and
`Kt(f, j) = 0` and `Kt(j, f) = 0` for every `j` different from `f`, in either
storage order. -/
theorem C5_enforce_zeroes_row_and_column (IsRowMajor : Bool) (fem_mesh : femMesh)
    (s : femStaticMatrix) (x b : Vector)
    (hs : s.is_sparsity_computed = true → PatternSymmetric s.Kt) :
    ∀ entry ∈ fem_mesh.dirichlet_boundary_map, ∀ dirichlet_boundary ∈ entry.2,
      ∀ f ∈ dirichlet_boundary.dof_view,
        (enforce_dirichlet_conditions IsRowMajor fem_mesh
            (assemble_stiffness fem_mesh s) x b).2.1 f = 0 ∧
        (enforce_dirichlet_conditions IsRowMajor fem_mesh
            (assemble_stiffness fem_mesh s) x b).2.2 f = 0 ∧
        ∀ j, j ≠ f →
          (enforce_dirichlet_conditions IsRowMajor fem_mesh
              (assemble_stiffness fem_mesh s) x b).1.Kt.coeff f j = 0 ∧
          (enforce_dirichlet_conditions IsRowMajor fem_mesh
              (assemble_stiffness fem_mesh s) x b).1.Kt.coeff j f = 0 := by
  intro entry hentry dirichlet_boundary hdb f hf
  have hF : f ∈ prescribed_dofs fem_mesh :=
    (mem_prescribed_dofs fem_mesh f).2 ⟨entry, hentry, dirichlet_boundary, hdb, hf⟩
  have hsym := assemble_stiffness_symmetric fem_mesh s hs
  rw [enforce_dirichlet_conditions_eq]
  simp only
  refine ⟨?_, ?_, ?_⟩
  · rw [foldl_enforce_x, if_pos hF]
  · rw [foldl_enforce_b, if_pos hF]
  · intro j hj
    rw [coeff_foldl_enforce_symmetric _ _ _ _ _ hsym,
      coeff_foldl_enforce_symmetric _ _ _ _ _ hsym]
    exact ⟨if_pos ⟨hj.symm, Or.inl hF⟩, if_pos ⟨hj, Or.inr hF⟩⟩

/-- C6: `enforce_dirichlet_conditions` leaves every diagonal entry of `Kt`,
and so the entry `Kt(f, f)` of every prescribed DOF `f`, at the value it had
before the call, for every matrix, every boundary map (several prescribed
DOFs, a DOF listed by several groups) and either storage order. -/
theorem C6_enforce_keeps_diagonal (IsRowMajor : Bool) (fem_mesh : femMesh)
    (s : femStaticMatrix) (x b : Vector) (f : Nat) :
    (enforce_dirichlet_conditions IsRowMajor fem_mesh s x b).1.Kt.coeff f f =
      s.Kt.coeff f f := by
  rw [enforce_dirichlet_conditions_eq]
  exact coeff_diag_foldl_enforce IsRowMajor _ (s.Kt, x, b) f

/-! ### Idempotence, for every matrix -/

theorem coeff_enforce_fixed_dof_ne (R : Bool) (st : SparseMatrix × Vector × Vector)
    (f a b : Nat) (hab : a ≠ b) :
    (enforce_fixed_dof R st f).1.coeff a b =
      if inOuter R st.1 f a b ∨ inOuter R st.1 f b a then 0 else st.1.coeff a b := by
  rw [coeff_enforce_fixed_dof, if_neg hab]

theorem enforce_fixed_dof_settles (R : Bool) (P : Nat → Prop)
    (st : SparseMatrix × Vector × Vector) (f : Nat) (h : Settled R P st.1) :
    Settled R (fun g => P g ∨ g = f) (enforce_fixed_dof R st f).1 := by
  intro g hg
  refine ⟨?_, ?_⟩
  · rw [mem_pattern_enforce_fixed_dof]
    rcases hg with hg | rfl
    · exact Or.inl (h g hg).1
    · exact Or.inr (Or.inl ⟨rfl, rfl⟩)
  · intro a b hab hin
    have hba : b ≠ a := fun e => hab e.symm
    obtain ⟨hmem, hout⟩ := hin
    rw [coeff_enforce_fixed_dof_ne R st f a b hab, coeff_enforce_fixed_dof_ne R st f b a hba,
      mem_pattern_enforce_fixed_dof]
    rw [mem_pattern_enforce_fixed_dof] at hmem
    rcases hmem with hK | ⟨rfl, rfl⟩ | hT
    · rcases hg with hg | rfl
      · obtain ⟨h1, h2, h3⟩ := (h g hg).2 a b hab ⟨hK, hout⟩
        refine ⟨?_, ?_, Or.inl h3⟩
        · split
          · rfl
          · exact h1
        · split
          · rfl
          · exact h2
      · have hin : inOuter R st.1 g a b := ⟨hK, hout⟩
        exact ⟨if_pos (Or.inl hin), if_pos (Or.inr hin), Or.inr (Or.inr hin)⟩
    · exact absurd rfl hab
    · exact ⟨if_pos (Or.inr hT), if_pos (Or.inl hT), Or.inl hT.1⟩

theorem enforce_fixed_dof_of_settled (R : Bool) (P : Nat → Prop)
    (st : SparseMatrix × Vector × Vector) (f : Nat) (h : Settled R P st.1) (hf : P f)
    (a b : Nat) :
    (enforce_fixed_dof R st f).1.coeff a b = st.1.coeff a b ∧
      ((a, b) ∈ (enforce_fixed_dof R st f).1.pattern ↔ (a, b) ∈ st.1.pattern) := by
  obtain ⟨hdiag, hoff⟩ := h f hf
  refine ⟨?_, ?_⟩
  · rw [coeff_enforce_fixed_dof]
    by_cases hab : a = b
    · rw [if_pos hab]
    · rw [if_neg hab]
      split
      · rename_i hz
        rcases hz with hz | hz
        · exact (hoff a b hab hz).1.symm
        · exact (hoff b a (fun e => hab e.symm) hz).2.1.symm
      · rfl
  · rw [mem_pattern_enforce_fixed_dof]
    constructor
    · rintro (h1 | ⟨rfl, rfl⟩ | h3)
      · exact h1
      · exact hdiag
      · by_cases hab : a = b
        · subst hab
          exact h3.1
        · exact (hoff b a (fun e => hab e.symm) h3).2.2
    · exact Or.inl

theorem Settled.mono (R : Bool) (P Q : Nat → Prop) (K : SparseMatrix) (hPQ : ∀ f, P f → Q f)
    (h : Settled R Q K) : Settled R P K :=
  fun f hf => h f (hPQ f hf)

theorem foldl_enforce_settles (R : Bool) (F : List Nat) (P : Nat → Prop)
    (st : SparseMatrix × Vector × Vector) (h : Settled R P st.1) :
    Settled R (fun g => P g ∨ g ∈ F) (F.foldl (enforce_fixed_dof R) st).1 := by
  induction F generalizing st P with
  | nil =>
    exact Settled.mono R _ P _ (fun f hf => hf.elim id (fun hh => absurd hh (List.not_mem_nil _))) h
  | cons f F ih =>
    rw [List.foldl_cons]
    refine Settled.mono R _ _ _ ?_ (ih _ _ (enforce_fixed_dof_settles R P st f h))
    intro g hg
    simp only [List.mem_cons] at hg
    tauto

theorem foldl_enforce_of_settled (R : Bool) (F : List Nat) (P : Nat → Prop)
    (st : SparseMatrix × Vector × Vector) (h : Settled R P st.1) (hF : ∀ f ∈ F, P f)
    (a b : Nat) :
    (F.foldl (enforce_fixed_dof R) st).1.coeff a b = st.1.coeff a b ∧
      ((a, b) ∈ (F.foldl (enforce_fixed_dof R) st).1.pattern ↔ (a, b) ∈ st.1.pattern) := by
  have key := foldl_keeps (fun st1 : SparseMatrix × Vector × Vector =>
      Settled R P st1.1 ∧ ∀ a b, st1.1.coeff a b = st.1.coeff a b ∧
        ((a, b) ∈ st1.1.pattern ↔ (a, b) ∈ st.1.pattern))
    (enforce_fixed_dof R) F
    (by
      intro st1 h1 f hf
      refine ⟨?_, ?_⟩
      · exact Settled.mono R _ _ _ (fun g hg => Or.inl hg)
          (enforce_fixed_dof_settles R P st1 f h1.1)
      · intro a b
        have h2 := enforce_fixed_dof_of_settled R P st1 f h1.1 (hF f hf) a b
        exact ⟨h2.1.trans (h1.2 a b).1, h2.2.trans (h1.2 a b).2⟩)
    st ⟨h, fun a b => ⟨rfl, Iff.rfl⟩⟩
  exact key.2 a b

/-- C7: `enforce_dirichlet_conditions` is idempotent. For every matrix `Kt`,
vectors `x` and `b`, boundary map and storage order, a second application right
after the first leaves every value of `Kt`, the set of stored coordinates, and
the vectors `x` and `b` as the first application left them. -/
theorem C7_enforce_idempotent (IsRowMajor : Bool) (fem_mesh : femMesh)
    (s : femStaticMatrix) (x b : Vector) :
    (∀ i j,
      (enforce_dirichlet_conditions IsRowMajor fem_mesh
          (enforce_dirichlet_conditions IsRowMajor fem_mesh s x b).1
          (enforce_dirichlet_conditions IsRowMajor fem_mesh s x b).2.1
          (enforce_dirichlet_conditions IsRowMajor fem_mesh s x b).2.2).1.Kt.coeff i j =
        (enforce_dirichlet_conditions IsRowMajor fem_mesh s x b).1.Kt.coeff i j ∧
      ((i, j) ∈ (enforce_dirichlet_conditions IsRowMajor fem_mesh
          (enforce_dirichlet_conditions IsRowMajor fem_mesh s x b).1
          (enforce_dirichlet_conditions IsRowMajor fem_mesh s x b).2.1
          (enforce_dirichlet_conditions IsRowMajor fem_mesh s x b).2.2).1.Kt.pattern ↔
        (i, j) ∈ (enforce_dirichlet_conditions IsRowMajor fem_mesh s x b).1.Kt.pattern)) ∧
    (enforce_dirichlet_conditions IsRowMajor fem_mesh
        (enforce_dirichlet_conditions IsRowMajor fem_mesh s x b).1
        (enforce_dirichlet_conditions IsRowMajor fem_mesh s x b).2.1
        (enforce_dirichlet_conditions IsRowMajor fem_mesh s x b).2.2).2.1 =
      (enforce_dirichlet_conditions IsRowMajor fem_mesh s x b).2.1 ∧
    (enforce_dirichlet_conditions IsRowMajor fem_mesh
        (enforce_dirichlet_conditions IsRowMajor fem_mesh s x b).1
        (enforce_dirichlet_conditions IsRowMajor fem_mesh s x b).2.1
        (enforce_dirichlet_conditions IsRowMajor fem_mesh s x b).2.2).2.2 =
      (enforce_dirichlet_conditions IsRowMajor fem_mesh s x b).2.2 := by
  simp only [enforce_dirichlet_conditions_eq]
  have hset : Settled IsRowMajor (fun g => g ∈ prescribed_dofs fem_mesh)
      ((prescribed_dofs fem_mesh).foldl (enforce_fixed_dof IsRowMajor) (s.Kt, x, b)).1 :=
    Settled.mono IsRowMajor _ _ _ (fun g hg => Or.inr hg)
      (foldl_enforce_settles IsRowMajor (prescribed_dofs fem_mesh) (fun _ => False)
        (s.Kt, x, b) (fun f hf => hf.elim))
  refine ⟨?_, ?_, ?_⟩
  · intro i j
    exact foldl_enforce_of_settled IsRowMajor (prescribed_dofs fem_mesh) _ _ hset
      (fun f hf => hf) i j
  · funext i
    rw [foldl_enforce_x, foldl_enforce_x]
    split <;> rfl
  · funext i
    rw [foldl_enforce_b, foldl_enforce_b]
    split <;> rfl

/-! ## Displacement boundaries -/

theorem mem_prescribed_pairs (fem_mesh : femMesh) (dof : Nat) (v : Int) :
    (dof, v) ∈ prescribed_pairs fem_mesh ↔
      ∃ entry ∈ fem_mesh.dirichlet_boundary_map, ∃ dirichlet_boundary ∈ entry.2,
        dof ∈ dirichlet_boundary.dof_view ∧ dirichlet_boundary.value_view = v := by
  unfold prescribed_pairs
  simp only [List.mem_flatMap, List.mem_map, Prod.mk.injEq]
  constructor
  · rintro ⟨entry, he, db, hdb, dof1, hd, rfl, rfl⟩
    exact ⟨entry, he, db, hdb, hd, rfl⟩
  · rintro ⟨entry, he, db, hdb, hd, rfl⟩
    exact ⟨entry, he, db, hdb, dof, hd, rfl, rfl⟩

/-- The three nested loops of `apply_displacement_boundaries` are one loop over
the prescribed pairs. -/
theorem apply_displacement_boundaries_d (fem_mesh : femMesh) (load_factor : Int)
    (s : femStaticMatrix) :
    (apply_displacement_boundaries fem_mesh load_factor s).d =
      (prescribed_pairs fem_mesh).foldl
        (fun d pair => d.assign pair.1 (s.load_factor * pair.2)) s.d := by
  unfold apply_displacement_boundaries prescribed_pairs
  simp only [foldl_flatMap_eq, List.foldl_map]

/-- After a loop of stores, an entry either holds what the store of some pair
of the list put there or, named by no pair, what it held before. -/
theorem foldl_assign_cases (lf : Int) (pairs : List (Nat × Int)) (d : Vector) (i : Nat) :
    (∃ pair ∈ pairs, pair.1 = i ∧
        pairs.foldl (fun d pair => d.assign pair.1 (lf * pair.2)) d i = lf * pair.2) ∨
      ((∀ pair ∈ pairs, pair.1 ≠ i) ∧
        pairs.foldl (fun d pair => d.assign pair.1 (lf * pair.2)) d i = d i) := by
  induction pairs generalizing d with
  | nil => exact Or.inr ⟨fun _ h => absurd h (List.not_mem_nil _), rfl⟩
  | cons p ps ih =>
    rw [List.foldl_cons]
    rcases ih (d.assign p.1 (lf * p.2)) with ⟨q, hq, hqi, hval⟩ | ⟨hnone, hval⟩
    · exact Or.inl ⟨q, List.mem_cons_of_mem _ hq, hqi, hval⟩
    · by_cases hp : p.1 = i
      · refine Or.inl ⟨p, List.mem_cons_self _ _, hp, ?_⟩
        rw [hval]
        unfold Vector.assign
        rw [if_pos hp.symm]
      · refine Or.inr ⟨?_, ?_⟩
        · intro q hq
          rcases List.mem_cons.1 hq with rfl | hq
          · exact hp
          · exact hnone q hq
        · rw [hval]
          unfold Vector.assign
          rw [if_neg (fun e => hp e.symm)]

/-- C8: after `apply_displacement_boundaries`, for every prescribed DOF there is
a boundary listing it such that `d[dof]` is the load controller's load factor
times the prescribed value of that boundary, whatever `d[dof]` held before; so
when the boundaries listing the DOF agree on the value (as when one boundary
lists it), `d[dof]` is the load factor times that value. Every entry of `d` at
a DOF of no Dirichlet group is unchanged. -/
theorem C8_apply_displacement_boundaries (fem_mesh : femMesh) (load_factor : Int)
    (s : femStaticMatrix) (dof : Nat) :
    ((∃ entry ∈ fem_mesh.dirichlet_boundary_map, ∃ dirichlet_boundary ∈ entry.2,
        dof ∈ dirichlet_boundary.dof_view) →
      ∃ entry ∈ fem_mesh.dirichlet_boundary_map, ∃ dirichlet_boundary ∈ entry.2,
        dof ∈ dirichlet_boundary.dof_view ∧
          (apply_displacement_boundaries fem_mesh load_factor s).d dof =
            s.load_factor * dirichlet_boundary.value_view) ∧
    (∀ entry ∈ fem_mesh.dirichlet_boundary_map, ∀ dirichlet_boundary ∈ entry.2,
      dof ∈ dirichlet_boundary.dof_view →
      (∀ entry1 ∈ fem_mesh.dirichlet_boundary_map, ∀ other ∈ entry1.2,
        dof ∈ other.dof_view → other.value_view = dirichlet_boundary.value_view) →
      (apply_displacement_boundaries fem_mesh load_factor s).d dof =
        s.load_factor * dirichlet_boundary.value_view) ∧
    ((¬ ∃ entry ∈ fem_mesh.dirichlet_boundary_map, ∃ dirichlet_boundary ∈ entry.2,
        dof ∈ dirichlet_boundary.dof_view) →
      (apply_displacement_boundaries fem_mesh load_factor s).d dof = s.d dof) := by
  rw [apply_displacement_boundaries_d]
  have hcases := foldl_assign_cases s.load_factor (prescribed_pairs fem_mesh) s.d dof
  have hex : (∃ entry ∈ fem_mesh.dirichlet_boundary_map, ∃ dirichlet_boundary ∈ entry.2,
        dof ∈ dirichlet_boundary.dof_view) →
      ∃ entry ∈ fem_mesh.dirichlet_boundary_map, ∃ dirichlet_boundary ∈ entry.2,
        dof ∈ dirichlet_boundary.dof_view ∧
          (prescribed_pairs fem_mesh).foldl
            (fun d pair => d.assign pair.1 (s.load_factor * pair.2)) s.d dof =
            s.load_factor * dirichlet_boundary.value_view := by
    rintro ⟨entry, he, db, hdb, hd⟩
    rcases hcases with ⟨⟨dof1, v⟩, hq, hqi, hval⟩ | ⟨hnone, _⟩
    · simp only at hqi
      subst hqi
      obtain ⟨entry1, he1, db1, hdb1, hd1, rfl⟩ := (mem_prescribed_pairs fem_mesh _ v).1 hq
      exact ⟨entry1, he1, db1, hdb1, hd1, hval⟩
    · exact absurd rfl (hnone (dof, db.value_view)
        ((mem_prescribed_pairs fem_mesh dof _).2 ⟨entry, he, db, hdb, hd, rfl⟩))
  refine ⟨hex, ?_, ?_⟩
  · intro entry he db hdb hd hagree
    obtain ⟨entry1, he1, db1, hdb1, hd1, hval⟩ := hex ⟨entry, he, db, hdb, hd⟩
    rw [hval, hagree entry1 he1 db1 hdb1 hd1]
  · intro hno
    rcases hcases with ⟨⟨dof1, v⟩, hq, hqi, _⟩ | ⟨_, hval⟩
    · simp only at hqi
      subst hqi
      obtain ⟨entry1, he1, db1, hdb1, hd1, _⟩ := (mem_prescribed_pairs fem_mesh _ v).1 hq
      exact absurd ⟨entry1, he1, db1, hdb1, hd1⟩ hno
    · exact hval

/-! ## Commit and revert -/

namespace InternalVariables

/-- C9: `revert` restores the committed state: afterwards the working
generation of every tensor kind and every scalar kind is the committed
generation as it was before the call, and the committed generation is
unchanged. -/
theorem C9_revert_restores_committed {T M : Type} (v : InternalVariables T M) :
    (∀ k, v.revert.tensors k = v.tensors_old k) ∧
    (∀ k, v.revert.scalars k = v.scalars_old k) ∧
    (∀ k, v.revert.tensors_old k = v.tensors_old k) ∧
    (∀ k, v.revert.scalars_old k = v.scalars_old k) :=
  ⟨fun _ => rfl, fun _ => rfl, fun _ => rfl, fun _ => rfl⟩

/-- C10: after `commit` the committed generation of every tensor kind and
every scalar kind equals the working generation, which the call leaves
unchanged; after `revert` the working generation equals the committed one
too. -/
theorem C10_working_eq_committed {T M : Type} (v : InternalVariables T M) :
    ((∀ k, v.commit.tensors_old k = v.commit.tensors k) ∧
      (∀ k, v.commit.scalars_old k = v.commit.scalars k) ∧
      (∀ k, v.commit.tensors k = v.tensors k) ∧
      (∀ k, v.commit.scalars k = v.scalars k)) ∧
    ((∀ k, v.revert.tensors k = v.revert.tensors_old k) ∧
      (∀ k, v.revert.scalars k = v.revert.scalars_old k)) :=
  ⟨⟨fun _ => rfl, fun _ => rfl, fun _ => rfl, fun _ => rfl⟩, fun _ => rfl, fun _ => rfl⟩

end InternalVariables

/-! ## Concrete checks on the small mesh -/

/-- C2 on the small mesh: the shared DOF 1 receives 4 from element 0 and 3 from
element 1; the DOF 5, touched by no element, is zero. -/
theorem C2_compute_internal_force_witness :
    (compute_internal_force demo_mesh demo_solver).fint 1 = 7 ∧
      (compute_internal_force demo_mesh demo_solver).fint 5 = 0 :=
  ⟨(C2_compute_internal_force_is_sum demo_mesh demo_solver 1).1.trans (by decide),
    (C2_compute_internal_force_is_sum demo_mesh demo_solver 5).2 (by decide)⟩

/-- C4 on the small mesh, whose tangent blocks come with the local DOF lists:
after three assemblies the stored coordinates are the seven of the pattern. -/
theorem C4_pattern_fixed_by_assembly_witness :
    demo_solver.is_sparsity_computed = false ∧
      ((assemble_stiffness demo_mesh)^[3] demo_solver).Kt.pattern =
        [(0, 0), (0, 1), (1, 0), (1, 1), (1, 2), (2, 1), (2, 2)] :=
  ⟨rfl, ((C4_pattern_fixed_by_assembly demo_mesh demo_solver (by decide) rfl).2 2).1.trans
    (by decide)⟩

/-- C5 on the small mesh, row-major: the entries `Kt(0, 1) = 2` and
`Kt(1, 0) = 3` of the assembled matrix are zero after the enforcement, and so
are `x[0]` and `b[0]`. -/
theorem C5_enforce_zeroes_row_and_column_witness :
    ((assemble_stiffness demo_mesh demo_solver).Kt.coeff 0 1 = 2 ∧
      (assemble_stiffness demo_mesh demo_solver).Kt.coeff 1 0 = 3) ∧
    (enforce_dirichlet_conditions true demo_mesh (assemble_stiffness demo_mesh demo_solver)
        (fun _ => 1) (fun _ => 3)).2.1 0 = 0 ∧
    (enforce_dirichlet_conditions true demo_mesh (assemble_stiffness demo_mesh demo_solver)
        (fun _ => 1) (fun _ => 3)).2.2 0 = 0 ∧
    (enforce_dirichlet_conditions true demo_mesh (assemble_stiffness demo_mesh demo_solver)
        (fun _ => 1) (fun _ => 3)).1.Kt.coeff 0 1 = 0 ∧
    (enforce_dirichlet_conditions true demo_mesh (assemble_stiffness demo_mesh demo_solver)
        (fun _ => 1) (fun _ => 3)).1.Kt.coeff 1 0 = 0 :=
  have h := C5_enforce_zeroes_row_and_column true demo_mesh demo_solver (fun _ => 1)
    (fun _ => 3) (fun hc => absurd hc (by decide))
    ("fixed", [{ dof_view := [0], value_view := 0 }]) (List.mem_cons_self _ _)
    { dof_view := [0], value_view := 0 } (List.mem_cons_self _ _) 0 (List.mem_cons_self _ _)
  ⟨⟨by decide, by decide⟩, h.1, h.2.1, (h.2.2 1 (by decide)).1, (h.2.2 1 (by decide)).2⟩

/-- C8 on the small mesh: with the load factor 2 the DOF 2, prescribed at 5,
gets 10 whatever the argument and the old entry; the free DOF 1 keeps 7. -/
theorem C8_apply_displacement_boundaries_witness :
    (apply_displacement_boundaries demo_mesh 9 demo_solver).d 2 = 10 ∧
      (apply_displacement_boundaries demo_mesh 9 demo_solver).d 1 = 7 :=
  ⟨((C8_apply_displacement_boundaries demo_mesh 9 demo_solver 2).2.1
      ("pulled", [{ dof_view := [2], value_view := 5 }])
      (List.mem_cons_of_mem _ (List.mem_cons_self _ _))
      { dof_view := [2], value_view := 5 } (List.mem_cons_self _ _) (List.mem_cons_self _ _)
      (by
        intro entry1 he other ho hd
        simp only [demo_mesh, List.mem_cons, List.mem_singleton, List.not_mem_nil,
          or_false] at he
        rcases he with rfl | rfl
        · simp only [List.mem_singleton] at ho
          subst ho
          simp at hd
        · simp only [List.mem_singleton] at ho
          subst ho
          rfl)).trans (by decide),
    (C8_apply_displacement_boundaries demo_mesh 9 demo_solver 1).2.2
      (by
        rintro ⟨entry, he, db, hdb, hd⟩
        simp only [demo_mesh, List.mem_cons, List.mem_singleton, List.not_mem_nil,
          or_false] at he
        rcases he with rfl | rfl
        · simp only [List.mem_singleton] at hdb
          subst hdb
          simp at hd
        · simp only [List.mem_singleton] at hdb
          subst hdb
          simp at hd)⟩

/-! ## Generations of the internal variables -/

namespace InternalVariables

theorem Mutation.apply_old {T M : Type} (m : Mutation T M) (v v1 : InternalVariables T M)
    (h : m.apply v = some v1) :
    v1.tensors_old = v.tensors_old ∧ v1.scalars_old = v.scalars_old := by
  cases m with
  | tensor k g =>
    simp only [Mutation.apply, mutate_Tensor] at h
    split at h
    · cases h
      exact ⟨rfl, rfl⟩
    · cases h
  | scalar k g =>
    simp only [Mutation.apply, mutate_Scalar] at h
    split at h
    · cases h
      exact ⟨rfl, rfl⟩
    · cases h
  | matrix k g =>
    simp only [Mutation.apply, mutate_Matrix] at h
    split at h
    · cases h
      exact ⟨rfl, rfl⟩
    · cases h

theorem mutate_all_old {T M : Type} (ms : List (Mutation T M)) (v v1 : InternalVariables T M)
    (h : mutate_all ms v = some v1) :
    v1.tensors_old = v.tensors_old ∧ v1.scalars_old = v.scalars_old := by
  induction ms generalizing v with
  | nil =>
    simp only [mutate_all, List.foldlM_nil] at h
    cases h
    exact ⟨rfl, rfl⟩
  | cons m ms ih =>
    simp only [mutate_all, List.foldlM_cons] at h
    cases hm : m.apply v with
    | none => rw [hm] at h; cases h
    | some v2 =>
      rw [hm] at h
      have h2 := ih v2 h
      have h3 := Mutation.apply_old m v v2 hm
      exact ⟨h2.1.trans h3.1, h2.2.trans h3.2⟩

/-- C11 as stated fails for the matrix kinds: on the small store, after a
commit, a write of the material tangent through `operator()` and a revert, the
material tangent is the written value and not the value it had at the commit. -/
theorem C11_counterexample :
    ¬ ∀ (v : InternalVariables Int Int) (ms : List (Mutation Int Int))
        (v1 : InternalVariables Int Int) (k : InternalVariables.Matrix),
        mutate_all ms v.commit = some v1 → v1.revert.call_Matrix k = v.commit.call_Matrix k := by
  intro h
  have h1 := h demo_store
    [Mutation.matrix InternalVariables.Matrix.MaterialTangent (fun _ => [8])]
    _ InternalVariables.Matrix.MaterialTangent rfl
  revert h1
  decide

/-- C11, amended: `commit` and `revert` act on all tensor kinds and all scalar
kinds together. After a commit and any writes through `operator()`, a revert
makes the working values of every tensor kind and every scalar kind the values
they had at the commit. The matrix kinds have one generation, which a revert
leaves as the writes left it. -/
theorem C11_revert_restores_tensors_and_scalars {T M : Type} (v : InternalVariables T M)
    (ms : List (Mutation T M)) (v1 : InternalVariables T M)
    (h : mutate_all ms v.commit = some v1) :
    (∀ k, v1.revert.call_Tensor k = v.commit.call_Tensor k) ∧
    (∀ k, v1.revert.call_Scalar k = v.commit.call_Scalar k) ∧
    (∀ k, v1.revert.call_Matrix k = v1.call_Matrix k) := by
  obtain ⟨ht, hs⟩ := mutate_all_old ms v.commit v1 h
  refine ⟨?_, ?_, fun _ => rfl⟩
  · intro k
    show v1.tensors_old k = v.tensors k
    rw [ht]
    rfl
  · intro k
    show v1.scalars_old k = v.scalars k
    rw [hs]
    rfl

/-- C11 amended, on the small store: after a commit, the Cauchy stress, the von
Mises stress and the material tangent are written; the revert gives back the
committed stress values 5 and 1 and leaves the written material tangent 8. -/
theorem C11_revert_restores_tensors_and_scalars_witness :
    ∃ v1, mutate_all demo_mutations demo_store.commit = some v1 ∧
      v1.call_Tensor InternalVariables.Tensor.CauchyStress = some [6] ∧
      v1.revert.call_Tensor InternalVariables.Tensor.CauchyStress = some [5] ∧
      v1.revert.call_Scalar InternalVariables.Scalar.VonMisesStress = some [1] ∧
      v1.revert.call_Matrix InternalVariables.Matrix.MaterialTangent = some [8] := by
  have hs : (mutate_all demo_mutations demo_store.commit).isSome = true := by decide
  have h := C11_revert_restores_tensors_and_scalars demo_store demo_mutations _
    (Option.some_get hs).symm
  exact ⟨_, (Option.some_get hs).symm, rfl, (h.1 _).trans (by decide),
    (h.2.1 _).trans (by decide), rfl⟩

/-- C12 as stated fails: on the small store the converged von Mises stress
read through `operator[]` is 0 before the commit and 1 after the commit and
the revert. -/
theorem C12_counterexample :
    demo_store.commit.revert.index_Scalar InternalVariables.Scalar.VonMisesStress ≠
      demo_store.index_Scalar InternalVariables.Scalar.VonMisesStress := by
  decide

/-- C12, amended: a revert right after a commit changes nothing of the
committed store. Every value readable through `operator()`, and through
`operator[]` for a matrix kind, is as before the commit; the value readable
through `operator[]` for a tensor or scalar kind is the working value the kind
had before the commit, so it is as before the commit for a kind whose working
and converged values agreed. -/
theorem C12_commit_then_revert {T M : Type} (v : InternalVariables T M) :
    v.commit.revert = v.commit ∧
    (∀ k, v.commit.revert.call_Tensor k = v.call_Tensor k) ∧
    (∀ k, v.commit.revert.call_Scalar k = v.call_Scalar k) ∧
    (∀ k, v.commit.revert.call_Matrix k = v.call_Matrix k) ∧
    (∀ k, v.commit.revert.index_Matrix k = v.index_Matrix k) ∧
    (∀ k, v.commit.revert.index_Tensor k = v.call_Tensor k) ∧
    (∀ k, v.commit.revert.index_Scalar k = v.call_Scalar k) ∧
    (∀ k, v.index_Tensor k = v.call_Tensor k →
      v.commit.revert.index_Tensor k = v.index_Tensor k) ∧
    (∀ k, v.index_Scalar k = v.call_Scalar k →
      v.commit.revert.index_Scalar k = v.index_Scalar k) :=
  ⟨rfl, fun _ => rfl, fun _ => rfl, fun _ => rfl, fun _ => rfl, fun _ => rfl, fun _ => rfl,
    fun _ h => h.symm, fun _ h => h.symm⟩

theorem mutate_Tensor_eq {T M : Type} (v v1 : InternalVariables T M)
    (k : InternalVariables.Tensor) (g : List T → List T) (h : v.mutate_Tensor k g = some v1) :
    ∃ xs, v.tensors k = some xs ∧
      v1 = { v with tensors := fun k1 => if k1 = k then some (g xs) else v.tensors k1 } := by
  unfold mutate_Tensor at h
  split at h
  · rename_i xs hxs
    cases h
    exact ⟨xs, hxs, rfl⟩
  · cases h

theorem mutate_Scalar_eq {T M : Type} (v v1 : InternalVariables T M)
    (k : InternalVariables.Scalar) (g : List Int → List Int)
    (h : v.mutate_Scalar k g = some v1) :
    ∃ xs, v.scalars k = some xs ∧
      v1 = { v with scalars := fun k1 => if k1 = k then some (g xs) else v.scalars k1 } := by
  unfold mutate_Scalar at h
  split at h
  · rename_i xs hxs
    cases h
    exact ⟨xs, hxs, rfl⟩
  · cases h

/-- C13: a write through `operator()` to a tensor kind or to a scalar kind
changes the working value of that kind only: every value read through
`operator[]` is as before the write, a following revert gives the store a
revert without the write gives, and only a commit makes `operator[]` read the
written value. -/
theorem C13_working_writes_keep_history {T M : Type} (v : InternalVariables T M) :
    (∀ k g v1, v.mutate_Tensor k g = some v1 →
      (∃ xs, v.call_Tensor k = some xs ∧ v1.call_Tensor k = some (g xs)) ∧
      (∀ k1, v1.index_Tensor k1 = v.index_Tensor k1) ∧
      (∀ k1, v1.index_Scalar k1 = v.index_Scalar k1) ∧
      v1.revert = v.revert ∧
      v1.commit.index_Tensor k = v1.call_Tensor k) ∧
    (∀ k g v1, v.mutate_Scalar k g = some v1 →
      (∃ xs, v.call_Scalar k = some xs ∧ v1.call_Scalar k = some (g xs)) ∧
      (∀ k1, v1.index_Tensor k1 = v.index_Tensor k1) ∧
      (∀ k1, v1.index_Scalar k1 = v.index_Scalar k1) ∧
      v1.revert = v.revert ∧
      v1.commit.index_Scalar k = v1.call_Scalar k) := by
  refine ⟨?_, ?_⟩
  · intro k g v1 h
    obtain ⟨xs, hxs, rfl⟩ := mutate_Tensor_eq v v1 k g h
    refine ⟨⟨xs, hxs, ?_⟩, fun _ => rfl, fun _ => rfl, rfl, rfl⟩
    simp [call_Tensor]
  · intro k g v1 h
    obtain ⟨xs, hxs, rfl⟩ := mutate_Scalar_eq v v1 k g h
    refine ⟨⟨xs, hxs, ?_⟩, fun _ => rfl, fun _ => rfl, rfl, rfl⟩
    simp [call_Scalar]

/-- C13 on the small store: the working Cauchy stress 5 is overwritten by 6;
`operator[]` still reads 4, and after the revert `operator()` reads 4 too. -/
theorem C13_working_writes_keep_history_witness :
    ∃ v1, demo_store.mutate_Tensor InternalVariables.Tensor.CauchyStress (fun _ => [6]) =
        some v1 ∧
      v1.call_Tensor InternalVariables.Tensor.CauchyStress = some [6] ∧
      v1.index_Tensor InternalVariables.Tensor.CauchyStress = some [4] ∧
      v1.revert.call_Tensor InternalVariables.Tensor.CauchyStress = some [4] := by
  have hs : (demo_store.mutate_Tensor InternalVariables.Tensor.CauchyStress
      (fun _ => [6])).isSome = true := by decide
  have h := (C13_working_writes_keep_history demo_store).1 _ _ _ (Option.some_get hs).symm
  exact ⟨_, (Option.some_get hs).symm, rfl, (h.2.1 _).trans (by decide),
    (congrArg (fun w => w.call_Tensor InternalVariables.Tensor.CauchyStress)
      h.2.2.2.1).trans (by decide)⟩

end InternalVariables

/-! ## Node ordering -/

theorem exists_cons_of_length_succ {α : Type} (n : Nat) (l : List α) (h : l.length = n + 1) :
    ∃ a t, l = a :: t ∧ t.length = n := by
  cases l with
  | nil => simp at h
  | cons a t => exact ⟨a, t, rfl, by simpa using h⟩

theorem mapM_eq_some_map {α β : Type} (f : α → Option β) (F : α → β) (xs : List α)
    (h : ∀ x ∈ xs, f x = some (F x)) : xs.mapM f = some (xs.map F) := by
  induction xs with
  | nil => rfl
  | cons x xs ih =>
    rw [List.mapM_cons, h x (List.mem_cons_self _ _),
      ih (fun y hy => h y (List.mem_cons_of_mem _ hy))]
    rfl

theorem eq_of_length_20 (l : local_indices) (h : l.length = 20) :
    ∃ a0 a1 a2 a3 a4 a5 a6 a7 a8 a9 a10 a11 a12 a13 a14 a15 a16 a17 a18 a19 : Int,
      l = [a0, a1, a2, a3, a4, a5, a6, a7, a8, a9, a10, a11, a12, a13, a14, a15, a16, a17,
        a18, a19] := by
  obtain ⟨a0, t0, rfl, h0⟩ := exists_cons_of_length_succ 19 l h
  obtain ⟨a1, t1, rfl, h1⟩ := exists_cons_of_length_succ 18 t0 h0
  obtain ⟨a2, t2, rfl, h2⟩ := exists_cons_of_length_succ 17 t1 h1
  obtain ⟨a3, t3, rfl, h3⟩ := exists_cons_of_length_succ 16 t2 h2
  obtain ⟨a4, t4, rfl, h4⟩ := exists_cons_of_length_succ 15 t3 h3
  obtain ⟨a5, t5, rfl, h5⟩ := exists_cons_of_length_succ 14 t4 h4
  obtain ⟨a6, t6, rfl, h6⟩ := exists_cons_of_length_succ 13 t5 h5
  obtain ⟨a7, t7, rfl, h7⟩ := exists_cons_of_length_succ 12 t6 h6
  obtain ⟨a8, t8, rfl, h8⟩ := exists_cons_of_length_succ 11 t7 h7
  obtain ⟨a9, t9, rfl, h9⟩ := exists_cons_of_length_succ 10 t8 h8
  obtain ⟨a10, t10, rfl, h10⟩ := exists_cons_of_length_succ 9 t9 h9
  obtain ⟨a11, t11, rfl, h11⟩ := exists_cons_of_length_succ 8 t10 h10
  obtain ⟨a12, t12, rfl, h12⟩ := exists_cons_of_length_succ 7 t11 h11
  obtain ⟨a13, t13, rfl, h13⟩ := exists_cons_of_length_succ 6 t12 h12
  obtain ⟨a14, t14, rfl, h14⟩ := exists_cons_of_length_succ 5 t13 h13
  obtain ⟨a15, t15, rfl, h15⟩ := exists_cons_of_length_succ 4 t14 h14
  obtain ⟨a16, t16, rfl, h16⟩ := exists_cons_of_length_succ 3 t15 h15
  obtain ⟨a17, t17, rfl, h17⟩ := exists_cons_of_length_succ 2 t16 h16
  obtain ⟨a18, t18, rfl, h18⟩ := exists_cons_of_length_succ 1 t17 h17
  obtain ⟨a19, t19, rfl, h19⟩ := exists_cons_of_length_succ 0 t18 h18
  obtain rfl := List.length_eq_zero.1 h19
  exact ⟨_, _, _, _, _, _, _, _, _, _, _, _, _, _, _, _, _, _, _, _, rfl⟩

theorem eq_of_length_27 (l : local_indices) (h : l.length = 27) :
    ∃ a0 a1 a2 a3 a4 a5 a6 a7 a8 a9 a10 a11 a12 a13 a14 a15 a16 a17 a18 a19 a20 a21 a22 a23 a24 a25 a26 : Int,
      l = [a0, a1, a2, a3, a4, a5, a6, a7, a8, a9, a10, a11, a12, a13, a14, a15, a16, a17,
        a18, a19, a20, a21, a22, a23, a24, a25, a26] := by
  obtain ⟨a0, t0, rfl, h0⟩ := exists_cons_of_length_succ 26 l h
  obtain ⟨a1, t1, rfl, h1⟩ := exists_cons_of_length_succ 25 t0 h0
  obtain ⟨a2, t2, rfl, h2⟩ := exists_cons_of_length_succ 24 t1 h1
  obtain ⟨a3, t3, rfl, h3⟩ := exists_cons_of_length_succ 23 t2 h2
  obtain ⟨a4, t4, rfl, h4⟩ := exists_cons_of_length_succ 22 t3 h3
  obtain ⟨a5, t5, rfl, h5⟩ := exists_cons_of_length_succ 21 t4 h4
  obtain ⟨a6, t6, rfl, h6⟩ := exists_cons_of_length_succ 20 t5 h5
  obtain ⟨a7, t7, rfl, h7⟩ := exists_cons_of_length_succ 19 t6 h6
  obtain ⟨a8, t8, rfl, h8⟩ := exists_cons_of_length_succ 18 t7 h7
  obtain ⟨a9, t9, rfl, h9⟩ := exists_cons_of_length_succ 17 t8 h8
  obtain ⟨a10, t10, rfl, h10⟩ := exists_cons_of_length_succ 16 t9 h9
  obtain ⟨a11, t11, rfl, h11⟩ := exists_cons_of_length_succ 15 t10 h10
  obtain ⟨a12, t12, rfl, h12⟩ := exists_cons_of_length_succ 14 t11 h11
  obtain ⟨a13, t13, rfl, h13⟩ := exists_cons_of_length_succ 13 t12 h12
  obtain ⟨a14, t14, rfl, h14⟩ := exists_cons_of_length_succ 12 t13 h13
  obtain ⟨a15, t15, rfl, h15⟩ := exists_cons_of_length_succ 11 t14 h14
  obtain ⟨a16, t16, rfl, h16⟩ := exists_cons_of_length_succ 10 t15 h15
  obtain ⟨a17, t17, rfl, h17⟩ := exists_cons_of_length_succ 9 t16 h16
  obtain ⟨a18, t18, rfl, h18⟩ := exists_cons_of_length_succ 8 t17 h17
  obtain ⟨a19, t19, rfl, h19⟩ := exists_cons_of_length_succ 7 t18 h18
  obtain ⟨a20, t20, rfl, h20⟩ := exists_cons_of_length_succ 6 t19 h19
  obtain ⟨a21, t21, rfl, h21⟩ := exists_cons_of_length_succ 5 t20 h20
  obtain ⟨a22, t22, rfl, h22⟩ := exists_cons_of_length_succ 4 t21 h21
  obtain ⟨a23, t23, rfl, h23⟩ := exists_cons_of_length_succ 3 t22 h22
  obtain ⟨a24, t24, rfl, h24⟩ := exists_cons_of_length_succ 2 t23 h23
  obtain ⟨a25, t25, rfl, h25⟩ := exists_cons_of_length_succ 1 t24 h24
  obtain ⟨a26, t26, rfl, h26⟩ := exists_cons_of_length_succ 0 t25 h25
  obtain rfl := List.length_eq_zero.1 h26
  exact ⟨_, _, _, _, _, _, _, _, _, _, _, _, _, _, _, _, _, _, _, _, _, _, _, _, _, _, _, rfl⟩

theorem swap_all_hexahedron20 (l : local_indices) (h : l.length = 20) :
    swap_all hexahedron20_swaps l = some (reorder_by_table hexahedron20_table l) := by
  obtain ⟨a0, a1, a2, a3, a4, a5, a6, a7, a8, a9, a10, a11, a12, a13, a14, a15, a16, a17, a18,
    a19, rfl⟩ := eq_of_length_20 l h
  simp [swap_all, hexahedron20_swaps, swap_at, reorder_by_table, hexahedron20_table]

theorem reorder_by_table_getElem (table : List Nat) (l : local_indices)
    (hall : ∀ i ∈ table, i < l.length) (k : Nat) (hk : k < table.length) :
    (reorder_by_table table l)[k]? = l[table.getD k 0]? := by
  induction table generalizing k with
  | nil => simp at hk
  | cons i rest ih =>
    have hi : i < l.length := hall i (List.mem_cons_self _ _)
    have hcons : reorder_by_table (i :: rest) l = l[i] :: reorder_by_table rest l := by
      simp [reorder_by_table, List.filterMap_cons, List.getElem?_eq_getElem hi]
    rw [hcons]
    cases k with
    | zero => simp [List.getElem?_eq_getElem hi]
    | succ k =>
      simp only [List.getElem?_cons_succ, List.getD_cons_succ]
      exact ih (fun j hj => hall j (List.mem_cons_of_mem _ hj)) k
        (by simpa using hk)

theorem reorder_hexahedron20_getElem (l : local_indices) (h : l.length = 20) (k : Nat)
    (hk : k < 20) :
    (reorder_by_table hexahedron20_table l)[k]? = l[hexahedron20_table.getD k 0]? := by
  apply reorder_by_table_getElem
  · rw [h]
    decide
  · exact hk

theorem swap_all_hexahedron27_first (l : local_indices) (h : l.length = 27) :
    swap_all hexahedron27_swaps l = some (reorder_by_table hexahedron27_first_table l) := by
  obtain ⟨a0, a1, a2, a3, a4, a5, a6, a7, a8, a9, a10, a11, a12, a13, a14, a15, a16, a17, a18,
    a19, a20, a21, a22, a23, a24, a25, a26, rfl⟩ := eq_of_length_27 l h
  simp [swap_all, hexahedron27_swaps, swap_at, reorder_by_table, hexahedron27_first_table]

theorem swap_all_hexahedron27_second (l : local_indices) (h : l.length = 27) :
    swap_all hexahedron20_swaps l = some (reorder_by_table hexahedron27_second_table l) := by
  obtain ⟨a0, a1, a2, a3, a4, a5, a6, a7, a8, a9, a10, a11, a12, a13, a14, a15, a16, a17, a18,
    a19, a20, a21, a22, a23, a24, a25, a26, rfl⟩ := eq_of_length_27 l h
  simp [swap_all, hexahedron20_swaps, swap_at, reorder_by_table, hexahedron27_second_table,
    hexahedron20_table]

theorem reorder_hexahedron27_first_length (l : local_indices) (h : l.length = 27) :
    (reorder_by_table hexahedron27_first_table l).length = 27 := by
  obtain ⟨a0, a1, a2, a3, a4, a5, a6, a7, a8, a9, a10, a11, a12, a13, a14, a15, a16, a17, a18,
    a19, a20, a21, a22, a23, a24, a25, a26, rfl⟩ := eq_of_length_27 l h
  simp [reorder_by_table, hexahedron27_first_table]

theorem reorder_hexahedron27_comp (l : local_indices) (h : l.length = 27) :
    reorder_by_table hexahedron27_second_table (reorder_by_table hexahedron27_first_table l) =
      reorder_by_table hexahedron27_table l := by
  obtain ⟨a0, a1, a2, a3, a4, a5, a6, a7, a8, a9, a10, a11, a12, a13, a14, a15, a16, a17, a18,
    a19, a20, a21, a22, a23, a24, a25, a26, rfl⟩ := eq_of_length_27 l h
  simp [reorder_by_table, hexahedron27_first_table, hexahedron27_second_table,
    hexahedron20_table, hexahedron27_table]

theorem reorder_hexahedron27_getElem (l : local_indices) (h : l.length = 27) (k : Nat)
    (hk : k < 27) :
    (reorder_by_table hexahedron27_table l)[k]? = l[hexahedron27_table.getD k 0]? := by
  apply reorder_by_table_getElem
  · rw [h]
    decide
  · exact hk

/-- C18: for `hexahedron20` and a connectivity whose nodal lists have 20
entries, `convert_from_gmsh` returns, and each list is reordered by the table
of the claim: the positions 0 to 7 keep their entries and the positions 8 to 19
receive the input entries 8, 11, 13, 9, 16, 18, 19, 17, 10, 12, 14, 15. For
every place of the two diagrams of the source, the Hughes label drawn there
receives the entry of the Gmsh label drawn there. -/
theorem C18_hexahedron20_from_gmsh (nodal_connectivity : List local_indices)
    (h : ∀ l ∈ nodal_connectivity, l.length = 20) :
    convert_from_gmsh nodal_connectivity element_topology.hexahedron20 =
      some (nodal_connectivity.map (reorder_by_table hexahedron20_table)) ∧
    (∀ l ∈ nodal_connectivity, ∀ k < 20,
      (reorder_by_table hexahedron20_table l)[k]? = l[hexahedron20_table.getD k 0]?) ∧
    hexahedron20_table.take 8 = [0, 1, 2, 3, 4, 5, 6, 7] ∧
    hexahedron20_table.drop 8 = [8, 11, 13, 9, 16, 18, 19, 17, 10, 12, 14, 15] ∧
    (∀ place < 20,
      hexahedron20_table[hughes_hexahedron20_diagram.getD place 0]? =
        gmsh_hexahedron20_diagram[place]?) := by
  refine ⟨?_, ?_, by decide, by decide, by decide⟩
  · show for_each_nodal_list hexahedron20_swaps nodal_connectivity = _
    exact mapM_eq_some_map _ _ _ (fun l hl => swap_all_hexahedron20 l (h l hl))
  · intro l hl k hk
    exact reorder_hexahedron20_getElem l (h l hl) k hk

/-- C19: for `hexahedron27` and a connectivity whose nodal lists have 27
entries, `convert_from_gmsh` returns, and each list is reordered by the table
of the claim: the positions 20 to 26 receive the input entries 20, 25, 21, 24,
22, 23, 26 and the positions 0 to 19 are those of `hexahedron20`. For every
place of the two diagrams of the source, the Hughes label drawn there receives
the entry of the Gmsh label drawn there. -/
theorem C19_hexahedron27_from_gmsh (nodal_connectivity : List local_indices)
    (h : ∀ l ∈ nodal_connectivity, l.length = 27) :
    convert_from_gmsh nodal_connectivity element_topology.hexahedron27 =
      some (nodal_connectivity.map (reorder_by_table hexahedron27_table)) ∧
    (∀ l ∈ nodal_connectivity, ∀ k < 27,
      (reorder_by_table hexahedron27_table l)[k]? = l[hexahedron27_table.getD k 0]?) ∧
    hexahedron27_table.drop 20 = [20, 25, 21, 24, 22, 23, 26] ∧
    hexahedron27_table.take 20 = hexahedron20_table ∧
    (∀ place < 27,
      hexahedron27_table[hughes_hexahedron27_diagram.getD place 0]? =
        gmsh_hexahedron27_diagram[place]?) := by
  refine ⟨?_, ?_, by decide, by decide, by decide⟩
  · show (for_each_nodal_list hexahedron27_swaps nodal_connectivity).bind
      (for_each_nodal_list hexahedron20_swaps) = _
    unfold for_each_nodal_list
    rw [mapM_eq_some_map _ _ _ (fun l hl => swap_all_hexahedron27_first l (h l hl)),
      Option.some_bind,
      mapM_eq_some_map _ (reorder_by_table hexahedron27_second_table)]
    · rw [List.map_map]
      congr 1
      apply List.map_congr_left
      intro l hl
      exact reorder_hexahedron27_comp l (h l hl)
    · intro x hx
      obtain ⟨l, hl, rfl⟩ := List.mem_map.1 hx
      exact swap_all_hexahedron27_second _ (reorder_hexahedron27_first_length l (h l hl))
  · intro l hl k hk
    exact reorder_hexahedron27_getElem l (h l hl) k hk

theorem gmsh_type_to_enum_ok_iff (element_code : Int) (t : element_topology) :
    gmsh_type_to_enum element_code = Except.ok t ↔ (element_code, t) ∈ gmsh_converter := by
  unfold gmsh_type_to_enum
  constructor
  · intro h
    split at h
    · rename_i found hfound
      have h1 := List.find?_some hfound
      have h2 := List.mem_of_find?_eq_some hfound
      simp only [beq_iff_eq] at h1
      cases h
      rw [← h1]
      exact h2
    · cases h
  · intro hmem
    split
    · rename_i found hfound
      have h1 := List.find?_some hfound
      have h2 := List.mem_of_find?_eq_some hfound
      simp only [beq_iff_eq] at h1
      have hinj : ∀ e1 ∈ gmsh_converter, ∀ e2 ∈ gmsh_converter, e1.1 = e2.1 → e1.2 = e2.2 := by
        decide
      rw [hinj found h2 (element_code, t) hmem h1]
    · rename_i hnone
      have h1 := List.find?_eq_none.1 hnone (element_code, t) hmem
      simp at h1

/-- C20: `gmsh_type_to_enum` returns a topology exactly for the codes 1, 2, 3,
4, 5, 6, 8, 9, 10, 11, 12, 13, 16, 17 and 18, throws for every other integer,
and gives distinct topologies for distinct accepted codes. -/
theorem C20_gmsh_type_to_enum :
    (∀ element_code : Int,
      (∃ t, gmsh_type_to_enum element_code = Except.ok t) ↔
        element_code ∈ ([1, 2, 3, 4, 5, 6, 8, 9, 10, 11, 12, 13, 16, 17, 18] : List Int)) ∧
    (∀ element_code : Int,
      element_code ∉ ([1, 2, 3, 4, 5, 6, 8, 9, 10, 11, 12, 13, 16, 17, 18] : List Int) →
        ∃ message, gmsh_type_to_enum element_code = Except.error message) ∧
    (∀ (code1 code2 : Int) (t : element_topology),
      gmsh_type_to_enum code1 = Except.ok t → gmsh_type_to_enum code2 = Except.ok t →
        code1 = code2) := by
  have hkeys : ∀ element_code : Int,
      (∃ t, gmsh_type_to_enum element_code = Except.ok t) ↔
        element_code ∈ ([1, 2, 3, 4, 5, 6, 8, 9, 10, 11, 12, 13, 16, 17, 18] : List Int) := by
    intro element_code
    constructor
    · rintro ⟨t, ht⟩
      have hmem := (gmsh_type_to_enum_ok_iff element_code t).1 ht
      have hall : ∀ e ∈ gmsh_converter,
          e.1 ∈ ([1, 2, 3, 4, 5, 6, 8, 9, 10, 11, 12, 13, 16, 17, 18] : List Int) := by decide
      exact hall _ hmem
    · intro hcode
      have hall : ∀ c ∈ ([1, 2, 3, 4, 5, 6, 8, 9, 10, 11, 12, 13, 16, 17, 18] : List Int),
          ∃ e ∈ gmsh_converter, e.1 = c := by decide
      obtain ⟨⟨c, t⟩, he, rfl⟩ := hall element_code hcode
      exact ⟨t, (gmsh_type_to_enum_ok_iff c t).2 he⟩
  refine ⟨hkeys, ?_, ?_⟩
  · intro element_code hnot
    cases hr : gmsh_type_to_enum element_code with
    | error message => exact ⟨message, rfl⟩
    | ok t => exact absurd ((hkeys element_code).1 ⟨t, hr⟩) hnot
  · intro code1 code2 t h1 h2
    have hinj : ∀ e1 ∈ gmsh_converter, ∀ e2 ∈ gmsh_converter, e1.2 = e2.2 → e1.1 = e2.1 := by
      decide
    exact hinj _ ((gmsh_type_to_enum_ok_iff code1 t).1 h1) _
      ((gmsh_type_to_enum_ok_iff code2 t).1 h2) rfl

/-- C18 on one list of twenty node ids `100 + i`. -/
theorem C18_hexahedron20_from_gmsh_witness :
    convert_from_gmsh [demo_nodal_list20] element_topology.hexahedron20 =
      some [[100, 101, 102, 103, 104, 105, 106, 107, 108, 111, 113, 109, 116, 118, 119, 117,
        110, 112, 114, 115]] :=
  (C18_hexahedron20_from_gmsh [demo_nodal_list20] (by decide)).1.trans (by decide)

/-- C19 on one list of twenty-seven node ids `100 + i`. -/
theorem C19_hexahedron27_from_gmsh_witness :
    convert_from_gmsh [demo_nodal_list27] element_topology.hexahedron27 =
      some [[100, 101, 102, 103, 104, 105, 106, 107, 108, 111, 113, 109, 116, 118, 119, 117,
        110, 112, 114, 115, 120, 125, 121, 124, 122, 123, 126]] :=
  (C19_hexahedron27_from_gmsh [demo_nodal_list27] (by decide)).1.trans (by decide)

/-! ## The Newton-Raphson loop -/

theorem iteration_entry_succ {μ α : Type} (c : Collaborators μ α) (st : NewtonState μ α)
    (k : Nat) :
    iteration_entry c st (k + 1) =
      iteration_entry c (next_iteration (newton_iteration c st)) k := rfl

theorem iteration_result_succ {μ α : Type} (c : Collaborators μ α) (st : NewtonState μ α)
    (k : Nat) :
    iteration_result c st (k + 1) =
      iteration_result c (next_iteration (newton_iteration c st)) k := rfl

theorem iteration_entry_succ_right {μ α : Type} (c : Collaborators μ α)
    (st : NewtonState μ α) (k : Nat) :
    iteration_entry c st (k + 1) =
      next_iteration (newton_iteration c (iteration_entry c st k)) := by
  unfold iteration_entry
  rw [Function.iterate_succ_apply']

theorem iteration_entry_fields {μ α : Type} (c : Collaborators μ α) (st : NewtonState μ α)
    (k : Nat) :
    (iteration_entry c st k).current_iteration = st.current_iteration + k ∧
      (iteration_entry c st k).adaptive_load = st.adaptive_load ∧
      (iteration_entry c st k).calls =
        st.calls ++ (List.replicate k iteration_calls).flatten := by
  induction k with
  | zero => exact ⟨rfl, rfl, by simp [iteration_entry]⟩
  | succ k ih =>
    rw [iteration_entry_succ_right]
    obtain ⟨h1, h2, h3⟩ := ih
    refine ⟨?_, ?_, ?_⟩
    · show (iteration_entry c st k).current_iteration + 1 = _
      rw [h1]
      rfl
    · exact h2
    · show (iteration_entry c st k).calls ++ iteration_calls = _
      rw [h3, List.append_assoc]
      congr 1
      have hrep : List.replicate (k + 1) iteration_calls =
          List.replicate k iteration_calls ++ [iteration_calls] := by
        rw [List.replicate_succ']
      rw [hrep, List.flatten_append]
      simp

theorem iteration_result_fields {μ α : Type} (c : Collaborators μ α) (st : NewtonState μ α)
    (k : Nat) :
    (iteration_result c st k).current_iteration = st.current_iteration + k ∧
      (iteration_result c st k).adaptive_load = st.adaptive_load ∧
      (iteration_result c st k).calls =
        st.calls ++ (List.replicate (k + 1) iteration_calls).flatten := by
  obtain ⟨h1, h2, h3⟩ := iteration_entry_fields c st (k + 1)
  rw [iteration_entry_succ_right] at h1 h2 h3
  refine ⟨?_, h2, h3⟩
  have h4 : (iteration_result c st k).current_iteration + 1 = st.current_iteration + (k + 1) :=
    h1
  omega

/-- The loop, entered with `n` iterations left before the cap and more fuel
than that, returns: at the first iteration whose test succeeds, or, when none of
the `n` tests succeeds, with `current_iteration` at the cap. -/
theorem newton_loop_cases {μ α : Type} (c : Collaborators μ α) (n : Nat) :
    ∀ (fuel : Nat) (st : NewtonState μ α),
      st.current_iteration + n = max_iterations → n < fuel →
      (∃ k < n, convergence_test c (iteration_result c st k) = true ∧
          (∀ j < k, convergence_test c (iteration_result c st j) = false) ∧
          newton_loop c fuel st = some (iteration_result c st k)) ∨
        ((∀ j < n, convergence_test c (iteration_result c st j) = false) ∧
          newton_loop c fuel st = some (iteration_entry c st n)) := by
  induction n with
  | zero =>
    intro fuel st hcur hfuel
    right
    refine ⟨fun j hj => absurd hj (Nat.not_lt_zero j), ?_⟩
    obtain ⟨f, rfl⟩ : ∃ f, fuel = f + 1 := ⟨fuel - 1, by omega⟩
    have hnot : ¬ st.current_iteration < max_iterations := by omega
    show (if st.current_iteration < max_iterations then _ else some st) = _
    rw [if_neg hnot]
    rfl
  | succ n ih =>
    intro fuel st hcur hfuel
    obtain ⟨f, rfl⟩ : ∃ f, fuel = f + 1 := ⟨fuel - 1, by omega⟩
    have hlt : st.current_iteration < max_iterations := by omega
    have hloop : newton_loop c (f + 1) st =
        if convergence_test c (newton_iteration c st) then some (newton_iteration c st)
        else newton_loop c f (next_iteration (newton_iteration c st)) := by
      show (if st.current_iteration < max_iterations then _ else some st) = _
      rw [if_pos hlt]
    by_cases ht : convergence_test c (newton_iteration c st) = true
    · left
      refine ⟨0, Nat.succ_pos n, ht, fun j hj => absurd hj (Nat.not_lt_zero j), ?_⟩
      rw [hloop, if_pos ht]
      rfl
    · have htf : convergence_test c (newton_iteration c st) = false := by
        simpa using ht
      rw [hloop, if_neg ht]
      have hcur2 : (next_iteration (newton_iteration c st)).current_iteration + n =
          max_iterations := by
        show st.current_iteration + 1 + n = max_iterations
        omega
      rcases ih f (next_iteration (newton_iteration c st)) hcur2 (by omega) with
        ⟨k, hk, hconv, hbefore, hres⟩ | ⟨hnone, hres⟩
      · left
        refine ⟨k + 1, by omega, ?_, ?_, ?_⟩
        · rw [iteration_result_succ]
          exact hconv
        · intro j hj
          cases j with
          | zero => exact htf
          | succ j =>
            rw [iteration_result_succ]
            exact hbefore j (by omega)
        · rw [iteration_result_succ]
          exact hres
      · right
        refine ⟨?_, ?_⟩
        · intro j hj
          cases j with
          | zero => exact htf
          | succ j =>
            rw [iteration_result_succ]
            exact hnone j (by omega)
        · rw [iteration_entry_succ]
          exact hres

/-- With more fuel than the iteration cap, `perform_equilibrium_iterations`
returns one of two results: the end of the step after the first iteration whose
test succeeds, or the end of the step after `max_iterations` failed tests. -/
theorem perform_cases {μ α : Type} (c : Collaborators μ α) (fuel : Nat)
    (hfuel : max_iterations < fuel) (solver : femStaticMatrix) (mesh : μ) (adaptive_load : α) :
    (∃ k < max_iterations,
        convergence_test c (iteration_result c (newton_start solver mesh adaptive_load) k) =
          true ∧
        (∀ j < k, convergence_test c
          (iteration_result c (newton_start solver mesh adaptive_load) j) = false) ∧
        perform_equilibrium_iterations c fuel solver mesh adaptive_load =
          some (end_of_step c
            (iteration_result c (newton_start solver mesh adaptive_load) k))) ∨
      ((∀ j < max_iterations, convergence_test c
          (iteration_result c (newton_start solver mesh adaptive_load) j) = false) ∧
        perform_equilibrium_iterations c fuel solver mesh adaptive_load =
          some (end_of_step c
            (iteration_entry c (newton_start solver mesh adaptive_load) max_iterations))) := by
  unfold perform_equilibrium_iterations
  rcases newton_loop_cases c max_iterations fuel (newton_start solver mesh adaptive_load)
      (Nat.zero_add _) hfuel with ⟨k, hk, hconv, hbefore, hres⟩ | ⟨hnone, hres⟩
  · left
    exact ⟨k, hk, hconv, hbefore, by rw [hres]; rfl⟩
  · right
    exact ⟨hnone, by rw [hres]; rfl⟩

theorem end_of_step_converged {μ α : Type} (c : Collaborators μ α) (st : NewtonState μ α)
    (h : st.current_iteration ≠ max_iterations) :
    (end_of_step c st).calls =
        st.calls ++ [Call.write (c.step st.adaptive_load)] ++
          [Call.update_convergence_state true, Call.save_internal_variables true] ∧
      (end_of_step c st).adaptive_load = c.update_convergence_state st.adaptive_load true ∧
      (end_of_step c st).mesh =
        c.save_internal_variables (c.write st.mesh (c.step st.adaptive_load)) true := by
  have hb : (st.current_iteration != max_iterations) = true := by simpa using h
  unfold end_of_step
  simp only [hb, if_true]
  exact ⟨trivial, trivial, trivial⟩

theorem end_of_step_failed {μ α : Type} (c : Collaborators μ α) (st : NewtonState μ α)
    (h : st.current_iteration = max_iterations) :
    (end_of_step c st).calls =
        st.calls ++ [] ++
          [Call.update_convergence_state false, Call.save_internal_variables false] ∧
      (end_of_step c st).adaptive_load = c.update_convergence_state st.adaptive_load false ∧
      (end_of_step c st).mesh = c.save_internal_variables st.mesh false := by
  have hb : (st.current_iteration != max_iterations) = false := by simpa using h
  unfold end_of_step
  simp only [hb, Bool.false_eq_true, if_false]
  exact ⟨trivial, trivial, trivial⟩

theorem count_replicate_iteration_calls (m : Nat) :
    ((List.replicate m iteration_calls).flatten).count Call.compute_internal_force = m ∧
      ((List.replicate m iteration_calls).flatten).count Call.assemble_stiffness = m ∧
      ((List.replicate m iteration_calls).flatten).count Call.solve = m ∧
      ((List.replicate m iteration_calls).flatten).countP Call.is_write = 0 ∧
      (∀ b, Call.update_convergence_state b ∉ (List.replicate m iteration_calls).flatten) := by
  induction m with
  | zero => simp
  | succ m ih =>
    obtain ⟨h1, h2, h3, h4, h5⟩ := ih
    rw [List.replicate_succ, List.flatten_cons]
    refine ⟨?_, ?_, ?_, ?_, ?_⟩
    · rw [List.count_append, h1, Nat.add_comm]
      rfl
    · rw [List.count_append, h2, Nat.add_comm]
      rfl
    · rw [List.count_append, h3, Nat.add_comm]
      rfl
    · rw [List.countP_append, h4]
      rfl
    · intro b hb
      rcases List.mem_append.1 hb with hb | hb
      · revert hb
        cases b <;> decide
      · exact h5 b hb

/-- The two results of `perform_equilibrium_iterations` in one form: the
number `m` of iterations made, the flag `converged` of the end of the step, the
mesh state `mesh_m` the iterations left, and what the returned state holds. -/
theorem perform_summary {μ α : Type} (c : Collaborators μ α) (fuel : Nat)
    (hfuel : max_iterations < fuel) (solver : femStaticMatrix) (mesh : μ) (adaptive_load : α) :
    ∃ (r : NewtonState μ α) (m : Nat) (converged : Bool) (mesh_m : μ),
      perform_equilibrium_iterations c fuel solver mesh adaptive_load = some r ∧
      m ≤ max_iterations ∧ 0 < m ∧
      r.calls = (List.replicate m iteration_calls).flatten ++
        (if converged then [Call.write (c.step adaptive_load)] else []) ++
        [Call.update_convergence_state converged, Call.save_internal_variables converged] ∧
      r.adaptive_load = c.update_convergence_state adaptive_load converged ∧
      r.mesh = c.save_internal_variables
        (if converged then c.write mesh_m (c.step adaptive_load) else mesh_m) converged ∧
      (converged = true ↔ ∃ k < max_iterations,
        convergence_test c (iteration_result c (newton_start solver mesh adaptive_load) k) =
          true) ∧
      (∀ k < max_iterations,
        convergence_test c (iteration_result c (newton_start solver mesh adaptive_load) k) =
          true →
        (∀ j < k, convergence_test c
          (iteration_result c (newton_start solver mesh adaptive_load) j) = false) →
        m = k + 1) ∧
      ((∀ k < max_iterations,
        convergence_test c (iteration_result c (newton_start solver mesh adaptive_load) k) =
          false) → m = max_iterations) := by
  rcases perform_cases c fuel hfuel solver mesh adaptive_load with
    ⟨k, hk, hconv, hbefore, hres⟩ | ⟨hnone, hres⟩
  · obtain ⟨f1, f2, f3⟩ := iteration_result_fields c (newton_start solver mesh adaptive_load) k
    have hne : (iteration_result c (newton_start solver mesh adaptive_load) k).current_iteration
        ≠ max_iterations := by
      rw [f1]
      show 0 + k ≠ max_iterations
      omega
    obtain ⟨e1, e2, e3⟩ := end_of_step_converged c _ hne
    refine ⟨_, k + 1, true, (iteration_result c (newton_start solver mesh adaptive_load) k).mesh,
      hres, hk, Nat.succ_pos k, ?_, ?_, ?_, ?_, ?_, ?_⟩
    · rw [e1, f2, f3]
      simp [newton_start]
    · rw [e2, f2]
      rfl
    · rw [e3, f2]
      rfl
    · exact ⟨fun _ => ⟨k, hk, hconv⟩, fun _ => rfl⟩
    · intro k1 hk1 hc1 hb1
      rcases Nat.lt_trichotomy k1 k with hlt | heq | hgt
      · rw [hbefore k1 hlt] at hc1
        cases hc1
      · rw [heq]
      · rw [hb1 k hgt] at hconv
        cases hconv
    · intro hall
      rw [hall k hk] at hconv
      cases hconv
  · obtain ⟨f1, f2, f3⟩ :=
      iteration_entry_fields c (newton_start solver mesh adaptive_load) max_iterations
    have heq : (iteration_entry c (newton_start solver mesh adaptive_load)
        max_iterations).current_iteration = max_iterations := by
      rw [f1]
      show 0 + max_iterations = max_iterations
      omega
    obtain ⟨e1, e2, e3⟩ := end_of_step_failed c _ heq
    refine ⟨_, max_iterations, false,
      (iteration_entry c (newton_start solver mesh adaptive_load) max_iterations).mesh,
      hres, Nat.le_refl _, by decide, ?_, ?_, ?_, ?_, ?_, ?_⟩
    · rw [e1, f3]
      simp [newton_start]
    · rw [e2, f2]
      rfl
    · rw [e3]
      rfl
    · constructor
      · intro h
        cases h
      · rintro ⟨k, hk, hc⟩
        rw [hnone k hk] at hc
        cases hc
    · intro k1 hk1 hc1 _
      rw [hnone k1 hk1] at hc1
      cases hc1
    · intro _
      rfl

theorem convergence_test_eq_true {μ α : Type} (c : Collaborators μ α) (st : NewtonState μ α) :
    convergence_test c st = true ↔
      c.displacement_below_tolerance st.delta_d = true ∧
        c.residual_below_tolerance st.residual = true := by
  unfold convergence_test
  rw [Bool.and_eq_true]

theorem convergence_test_eq_false {μ α : Type} (c : Collaborators μ α) (st : NewtonState μ α) :
    convergence_test c st = false ↔
      ¬ (c.displacement_below_tolerance st.delta_d = true ∧
        c.residual_below_tolerance st.residual = true) := by
  rw [← convergence_test_eq_true]
  simp

theorem mem_end_calls (m : Nat) (converged : Bool) (step : Nat) (b : Bool) :
    (Call.update_convergence_state b ∈
        (List.replicate m iteration_calls).flatten ++
          (if converged then [Call.write step] else []) ++
          [Call.update_convergence_state converged, Call.save_internal_variables converged] ↔
      b = converged) ∧
    (Call.save_internal_variables b ∈
        (List.replicate m iteration_calls).flatten ++
          (if converged then [Call.write step] else []) ++
          [Call.update_convergence_state converged, Call.save_internal_variables converged] ↔
      b = converged) := by
  have hnone : ∀ e ∈ (List.replicate m iteration_calls).flatten, e ∈ iteration_calls := by
    intro e he
    obtain ⟨l, hl, hel⟩ := List.mem_flatten.1 he
    rw [List.eq_of_mem_replicate hl] at hel
    exact hel
  constructor
  · constructor
    · intro h
      rcases List.mem_append.1 h with h | h
      · rcases List.mem_append.1 h with h | h
        · have hmem := hnone _ h
          have hno : ∀ b1, Call.update_convergence_state b1 ∉ iteration_calls ∧
              Call.save_internal_variables b1 ∉ iteration_calls := by decide
          exact absurd hmem (hno b).1
        · cases converged <;> simp at h
      · simpa using h
    · rintro rfl
      simp
  · constructor
    · intro h
      rcases List.mem_append.1 h with h | h
      · rcases List.mem_append.1 h with h | h
        · have hmem := hnone _ h
          have hno : ∀ b1, Call.update_convergence_state b1 ∉ iteration_calls ∧
              Call.save_internal_variables b1 ∉ iteration_calls := by decide
          exact absurd hmem (hno b).2
        · cases converged <;> simp at h
      · simpa using h
    · rintro rfl
      simp

/-- C14: with more fuel than the cap of 10 iterations,
`perform_equilibrium_iterations` returns and hands to `update_convergence_state`
one flag, which is `true` exactly when in one of the 10 Newton iterations the
displacement test and the residual test both succeed. The iterations stop at
the first iteration in which both succeed (`k + 1` linear solves when that is
the iteration number `k` from zero, the tenth included) and run to the cap of
10 when no iteration has both, so an iteration with one test only does not end
them. -/
theorem C14_converged_iff_both_below {μ α : Type} (c : Collaborators μ α) (fuel : Nat)
    (hfuel : 10 < fuel) (solver : femStaticMatrix) (mesh : μ) (adaptive_load : α) :
    ∃ (r : NewtonState μ α) (converged : Bool),
      perform_equilibrium_iterations c fuel solver mesh adaptive_load = some r ∧
      r.adaptive_load = c.update_convergence_state adaptive_load converged ∧
      (∀ b, Call.update_convergence_state b ∈ r.calls ↔ b = converged) ∧
      (converged = true ↔ ∃ k < 10,
        c.displacement_below_tolerance
            (iteration_result c (newton_start solver mesh adaptive_load) k).delta_d = true ∧
          c.residual_below_tolerance
            (iteration_result c (newton_start solver mesh adaptive_load) k).residual = true) ∧
      (∀ k < 10,
        (c.displacement_below_tolerance
            (iteration_result c (newton_start solver mesh adaptive_load) k).delta_d = true ∧
          c.residual_below_tolerance
            (iteration_result c (newton_start solver mesh adaptive_load) k).residual = true) →
        (∀ j < k,
          ¬ (c.displacement_below_tolerance
              (iteration_result c (newton_start solver mesh adaptive_load) j).delta_d = true ∧
            c.residual_below_tolerance
              (iteration_result c (newton_start solver mesh adaptive_load) j).residual =
                true)) →
        converged = true ∧ r.calls.count Call.solve = k + 1) ∧
      ((∀ k < 10,
          ¬ (c.displacement_below_tolerance
              (iteration_result c (newton_start solver mesh adaptive_load) k).delta_d = true ∧
            c.residual_below_tolerance
              (iteration_result c (newton_start solver mesh adaptive_load) k).residual =
                true)) →
        converged = false ∧ r.calls.count Call.solve = 10) := by
  obtain ⟨r, m, converged, mesh_m, hr, hm, hm0, hcalls, hal, hmesh, hiff, hfirst, hnone⟩ :=
    perform_summary c fuel hfuel solver mesh adaptive_load
  have hcount : r.calls.count Call.solve = m := by
    rw [hcalls, List.count_append, List.count_append, (count_replicate_iteration_calls m).2.2.1]
    cases converged <;> simp [List.count_cons]
  refine ⟨r, converged, hr, hal, ?_, ?_, ?_, ?_⟩
  · intro b
    rw [hcalls]
    exact (mem_end_calls m converged _ b).1
  · rw [hiff]
    constructor
    · rintro ⟨k, hk, hc⟩
      exact ⟨k, hk, (convergence_test_eq_true c _).1 hc⟩
    · rintro ⟨k, hk, hc⟩
      exact ⟨k, hk, (convergence_test_eq_true c _).2 hc⟩
  · intro k hk hboth hbefore
    have hc := (convergence_test_eq_true c _).2 hboth
    refine ⟨hiff.2 ⟨k, hk, hc⟩, ?_⟩
    rw [hcount]
    exact hfirst k hk hc (fun j hj => (convergence_test_eq_false c _).2 (hbefore j hj))
  · intro hall
    have hall2 : ∀ k < max_iterations, convergence_test c
        (iteration_result c (newton_start solver mesh adaptive_load) k) = false :=
      fun k hk => (convergence_test_eq_false c _).2 (hall k hk)
    refine ⟨?_, ?_⟩
    · cases hcv : converged with
      | false => rfl
      | true =>
        obtain ⟨k, hk, hc⟩ := hiff.1 hcv
        rw [hall2 k hk] at hc
        cases hc
    · rw [hcount]
      exact hnone hall2

/-- The end of the step tied to the run: `last` is the number, counted from
zero, of the last Newton iteration made, `converged` is the flag of the end of
the step, and the mesh handed to the end of the step is the one that iteration
left. -/
theorem perform_end_of_step {μ α : Type} (c : Collaborators μ α) (fuel : Nat)
    (hfuel : max_iterations < fuel) (solver : femStaticMatrix) (mesh : μ) (adaptive_load : α) :
    ∃ (r : NewtonState μ α) (last : Nat) (converged : Bool),
      perform_equilibrium_iterations c fuel solver mesh adaptive_load = some r ∧
      last < max_iterations ∧
      (converged = true ↔ ∃ k < max_iterations,
        convergence_test c (iteration_result c (newton_start solver mesh adaptive_load) k) =
          true) ∧
      (converged = true →
        convergence_test c (iteration_result c (newton_start solver mesh adaptive_load) last) =
          true) ∧
      (∀ j < last, convergence_test c
        (iteration_result c (newton_start solver mesh adaptive_load) j) = false) ∧
      (converged = false → last + 1 = max_iterations) ∧
      r.calls = (List.replicate (last + 1) iteration_calls).flatten ++
        (if converged then [Call.write (c.step adaptive_load)] else []) ++
        [Call.update_convergence_state converged, Call.save_internal_variables converged] ∧
      r.adaptive_load = c.update_convergence_state adaptive_load converged ∧
      r.mesh = c.save_internal_variables
        (if converged then
          c.write (iteration_result c (newton_start solver mesh adaptive_load) last).mesh
            (c.step adaptive_load)
        else (iteration_result c (newton_start solver mesh adaptive_load) last).mesh)
        converged := by
  rcases perform_cases c fuel hfuel solver mesh adaptive_load with
    ⟨k, hk, hconv, hbefore, hres⟩ | ⟨hnone, hres⟩
  · obtain ⟨f1, f2, f3⟩ := iteration_result_fields c (newton_start solver mesh adaptive_load) k
    have hne : (iteration_result c (newton_start solver mesh adaptive_load) k).current_iteration
        ≠ max_iterations := by
      rw [f1]
      show 0 + k ≠ max_iterations
      omega
    obtain ⟨e1, e2, e3⟩ := end_of_step_converged c _ hne
    refine ⟨_, k, true, hres, hk, ⟨fun _ => ⟨k, hk, hconv⟩, fun _ => rfl⟩, fun _ => hconv,
      hbefore, fun h => Bool.noConfusion h, ?_, ?_, ?_⟩
    · rw [e1, f2, f3]
      simp [newton_start]
    · rw [e2, f2]
      rfl
    · rw [e3, f2]
      rfl
  · have hentry : iteration_entry c (newton_start solver mesh adaptive_load) max_iterations =
        next_iteration (iteration_result c (newton_start solver mesh adaptive_load) 9) :=
      iteration_entry_succ_right c (newton_start solver mesh adaptive_load) 9
    obtain ⟨f1, f2, f3⟩ :=
      iteration_entry_fields c (newton_start solver mesh adaptive_load) max_iterations
    have heq : (iteration_entry c (newton_start solver mesh adaptive_load)
        max_iterations).current_iteration = max_iterations := by
      rw [f1]
      show 0 + max_iterations = max_iterations
      omega
    obtain ⟨e1, e2, e3⟩ := end_of_step_failed c _ heq
    refine ⟨_, 9, false, hres, by decide, ?_, fun h => Bool.noConfusion h,
      fun j hj => hnone j (Nat.lt_trans hj (by decide)), fun _ => rfl, ?_, ?_, ?_⟩
    · constructor
      · intro h
        cases h
      · rintro ⟨k, hk, hc⟩
        rw [hnone k hk] at hc
        cases hc
    · rw [e1, f3]
      simp [newton_start, max_iterations]
    · rw [e2, f2]
      rfl
    · rw [e3, hentry]
      rfl

/-- C15: with more fuel than the cap, `perform_equilibrium_iterations` returns
and the three effects of the end of the step agree with the run. The flag
`converged` is `true` exactly when the step converged, that is when in one of
the 10 Newton iterations the displacement test and the residual test both
succeed; `last` is the number, from zero, of the last iteration made, which is
the first iteration in which both succeed when the step converged and the tenth
when it did not. The calls are those of the `last + 1` iterations followed by
`fem_mesh.write` once when the step converged and not at all when it did not,
then `update_convergence_state` and `save_internal_variables` with that same
flag; the load controller and the mesh are left as these calls leave them,
starting from the mesh the last iteration left. -/
theorem C15_end_of_step_effects_agree {μ α : Type} (c : Collaborators μ α) (fuel : Nat)
    (hfuel : 10 < fuel) (solver : femStaticMatrix) (mesh : μ) (adaptive_load : α) :
    ∃ (r : NewtonState μ α) (last : Nat) (converged : Bool),
      perform_equilibrium_iterations c fuel solver mesh adaptive_load = some r ∧
      last < 10 ∧
      (converged = true ↔ ∃ k < 10,
        c.displacement_below_tolerance
            (iteration_result c (newton_start solver mesh adaptive_load) k).delta_d = true ∧
          c.residual_below_tolerance
            (iteration_result c (newton_start solver mesh adaptive_load) k).residual = true) ∧
      (converged = true →
        c.displacement_below_tolerance
            (iteration_result c (newton_start solver mesh adaptive_load) last).delta_d = true ∧
          c.residual_below_tolerance
            (iteration_result c (newton_start solver mesh adaptive_load) last).residual =
              true) ∧
      (∀ j < last,
        ¬ (c.displacement_below_tolerance
            (iteration_result c (newton_start solver mesh adaptive_load) j).delta_d = true ∧
          c.residual_below_tolerance
            (iteration_result c (newton_start solver mesh adaptive_load) j).residual = true)) ∧
      (converged = false → last + 1 = 10) ∧
      r.calls = (List.replicate (last + 1) iteration_calls).flatten ++
        (if converged then [Call.write (c.step adaptive_load)] else []) ++
        [Call.update_convergence_state converged, Call.save_internal_variables converged] ∧
      r.calls.countP Call.is_write = (if converged then 1 else 0) ∧
      (∀ step, Call.write step ∈ r.calls ↔ (converged = true ∧ step = c.step adaptive_load)) ∧
      (∀ b, Call.update_convergence_state b ∈ r.calls ↔ b = converged) ∧
      (∀ b, Call.save_internal_variables b ∈ r.calls ↔ b = converged) ∧
      r.adaptive_load = c.update_convergence_state adaptive_load converged ∧
      r.mesh = c.save_internal_variables
        (if converged then
          c.write (iteration_result c (newton_start solver mesh adaptive_load) last).mesh
            (c.step adaptive_load)
        else (iteration_result c (newton_start solver mesh adaptive_load) last).mesh)
        converged := by
  obtain ⟨r, last, converged, hr, hlast, hiff, hat, hbefore, hcap, hcalls, hal, hmesh⟩ :=
    perform_end_of_step c fuel hfuel solver mesh adaptive_load
  refine ⟨r, last, converged, hr, hlast, ?_, ?_, ?_, hcap, hcalls, ?_, ?_, ?_, ?_, hal, hmesh⟩
  · rw [hiff]
    constructor
    · rintro ⟨k, hk, hc⟩
      exact ⟨k, hk, (convergence_test_eq_true c _).1 hc⟩
    · rintro ⟨k, hk, hc⟩
      exact ⟨k, hk, (convergence_test_eq_true c _).2 hc⟩
  · intro hcv
    exact (convergence_test_eq_true c _).1 (hat hcv)
  · intro j hj
    exact (convergence_test_eq_false c _).1 (hbefore j hj)
  · rw [hcalls, List.countP_append, List.countP_append,
      (count_replicate_iteration_calls (last + 1)).2.2.2.1]
    cases converged <;> rfl
  · intro step
    rw [hcalls]
    have hnone : Call.write step ∉ (List.replicate (last + 1) iteration_calls).flatten := by
      intro he
      obtain ⟨l, hl, hel⟩ := List.mem_flatten.1 he
      rw [List.eq_of_mem_replicate hl] at hel
      simp [iteration_calls] at hel
    cases converged <;> simp [hnone, eq_comm]
  · intro b
    rw [hcalls]
    exact (mem_end_calls (last + 1) converged _ b).1
  · intro b
    rw [hcalls]
    exact (mem_end_calls (last + 1) converged _ b).2

/-- C16: whatever the collaborators do, with more fuel than the cap of 10
iterations `perform_equilibrium_iterations` returns, having made the same
number of internal-force assemblies, stiffness assemblies and linear solves, at
least one and at most 10. -/
theorem C16_at_most_ten_iterations {μ α : Type} (c : Collaborators μ α) (fuel : Nat)
    (hfuel : 10 < fuel) (solver : femStaticMatrix) (mesh : μ) (adaptive_load : α) :
    ∃ (r : NewtonState μ α) (m : Nat),
      perform_equilibrium_iterations c fuel solver mesh adaptive_load = some r ∧
      0 < m ∧ m ≤ 10 ∧
      r.calls.count Call.compute_internal_force = m ∧
      r.calls.count Call.assemble_stiffness = m ∧
      r.calls.count Call.solve = m := by
  obtain ⟨r, m, converged, mesh_m, hr, hm, hm0, hcalls, hal, hmesh, hiff, hfirst, hnone⟩ :=
    perform_summary c fuel hfuel solver mesh adaptive_load
  obtain ⟨h1, h2, h3, _, _⟩ := count_replicate_iteration_calls m
  refine ⟨r, m, hr, hm0, hm, ?_, ?_, ?_⟩
  · rw [hcalls, List.count_append, List.count_append, h1]
    cases converged <;> simp [List.count_cons]
  · rw [hcalls, List.count_append, List.count_append, h2]
    cases converged <;> simp [List.count_cons]
  · rw [hcalls, List.count_append, List.count_append, h3]
    cases converged <;> simp [List.count_cons]

/-- C14 on the concrete collaborators: the displacement test passes in every
iteration and the residual test first in the third, where the iterations stop
and the step is reported as converged. -/
theorem C14_converged_iff_both_below_witness :
    ∃ r, perform_equilibrium_iterations demo_collaborators 11 demo_solver 0 4 = some r ∧
      r.adaptive_load = 5 ∧ r.calls.count Call.solve = 3 ∧
      Call.update_convergence_state true ∈ r.calls := by
  obtain ⟨r, converged, hr, hal, hmem, _, hfirst, _⟩ :=
    C14_converged_iff_both_below demo_collaborators 11 (by decide) demo_solver 0 4
  obtain ⟨hc, hcount⟩ := hfirst 2 (by decide) (by decide) (by decide)
  refine ⟨r, hr, ?_, hcount, (hmem true).2 hc.symm⟩
  rw [hal, hc]
  rfl

/-- C15 on the concrete collaborators. Started with no update made, both tests
pass first in the third iteration: the step converged, one result is written
and both calls of the end of the step receive `true`. Started after five
updates, no residual test passes: no result is written and both calls receive
`false`. -/
theorem C15_end_of_step_effects_agree_witness :
    (∃ r, perform_equilibrium_iterations demo_collaborators 11 demo_solver 0 4 = some r ∧
      r.calls.countP Call.is_write = 1 ∧
      Call.write 4 ∈ r.calls ∧
      Call.update_convergence_state true ∈ r.calls ∧
      Call.save_internal_variables true ∈ r.calls) ∧
    (∃ r, perform_equilibrium_iterations demo_collaborators 11 demo_solver 5 4 = some r ∧
      r.calls.countP Call.is_write = 0 ∧
      (∀ step, Call.write step ∉ r.calls) ∧
      Call.update_convergence_state false ∈ r.calls ∧
      Call.save_internal_variables false ∈ r.calls) := by
  constructor
  · obtain ⟨r, last, converged, hr, _, hiff, _, _, _, _, hcount, hwrite, hup, hsave, _, _⟩ :=
      C15_end_of_step_effects_agree demo_collaborators 11 (by decide) demo_solver 0 4
    have hc : converged = true := hiff.2 ⟨2, by decide, by decide, by decide⟩
    refine ⟨r, hr, ?_, (hwrite 4).2 ⟨hc, rfl⟩, (hup true).2 hc.symm, (hsave true).2 hc.symm⟩
    rw [hcount, hc]
    rfl
  · obtain ⟨r, last, converged, hr, _, hiff, _, _, _, _, hcount, hwrite, hup, hsave, _, _⟩ :=
      C15_end_of_step_effects_agree demo_collaborators 11 (by decide) demo_solver 5 4
    have hall : ∀ k < 10,
        ¬ (demo_collaborators.displacement_below_tolerance
            (iteration_result demo_collaborators (newton_start demo_solver 5 4) k).delta_d =
              true ∧
          demo_collaborators.residual_below_tolerance
            (iteration_result demo_collaborators (newton_start demo_solver 5 4) k).residual =
              true) := by
      decide
    have hc : converged = false := by
      cases hcv : converged with
      | false => rfl
      | true =>
        obtain ⟨k, hk, hboth⟩ := hiff.1 hcv
        exact absurd hboth (hall k hk)
    refine ⟨r, hr, ?_, ?_, (hup false).2 hc.symm, (hsave false).2 hc.symm⟩
    · rw [hcount, hc]
      rfl
    · intro step hmem
      have h := ((hwrite step).1 hmem).1
      rw [hc] at h
      cases h

/-- C16 on the concrete collaborators started after five updates: the
iterations stop at the cap. -/
theorem C16_at_most_ten_iterations_witness :
    ∃ r, perform_equilibrium_iterations demo_collaborators 11 demo_solver 5 4 = some r ∧
      r.calls.count Call.solve ≤ 10 := by
  obtain ⟨r, m, hr, _, hm, _, _, hsolve⟩ :=
    C16_at_most_ten_iterations demo_collaborators 11 (by decide) demo_solver 5 4
  exact ⟨r, hr, hsolve ▸ hm⟩

/-! ## Independence of the element order -/

theorem sum_map_eq_of_forall₂ {β : Type} (R : β → β → Prop) (F : β → Int)
    (hF : ∀ a b, R a b → F a = F b) (l1 l2 : List β) (h : List.Forall₂ R l1 l2) :
    (l1.map F).sum = (l2.map F).sum := by
  induction h with
  | nil => rfl
  | cons hab _ ih => rw [List.map_cons, List.map_cons, List.sum_cons, List.sum_cons, hF _ _ hab, ih]

theorem exists_mem_iff_of_forall₂ {β : Type} (R : β → β → Prop) (G : β → Prop)
    (hG : ∀ a b, R a b → (G a ↔ G b)) (l1 l2 : List β) (h : List.Forall₂ R l1 l2) :
    (∃ a ∈ l1, G a) ↔ ∃ b ∈ l2, G b := by
  induction h with
  | nil => simp
  | cons hab _ ih =>
    simp only [List.mem_cons, exists_eq_or_imp]
    rw [hG _ _ hab, ih]

theorem mesh_reordered_sum_eq (m1 m2 : femMesh) (h : MeshReordered m1 m2) (F : femSubmesh → Int)
    (hF : ∀ a b, SubmeshReordered a b → F a = F b) :
    (m2.meshes.map F).sum = (m1.meshes.map F).sum := by
  obtain ⟨_, l, hl, hperm⟩ := h
  rw [sum_map_eq_of_forall₂ SubmeshReordered F hF _ _ hl]
  exact ((hperm.map F).sum_eq).symm

theorem mesh_reordered_exists_iff (m1 m2 : femMesh) (h : MeshReordered m1 m2)
    (G : femSubmesh → Prop) (hG : ∀ a b, SubmeshReordered a b → (G a ↔ G b)) :
    (∃ sm ∈ m2.meshes, G sm) ↔ ∃ sm ∈ m1.meshes, G sm := by
  obtain ⟨_, l, hl, hperm⟩ := h
  rw [exists_mem_iff_of_forall₂ SubmeshReordered G hG _ _ hl]
  constructor
  · rintro ⟨sm, hsm, hg⟩
    exact ⟨sm, hperm.mem_iff.2 hsm, hg⟩
  · rintro ⟨sm, hsm, hg⟩
    exact ⟨sm, hperm.mem_iff.1 hsm, hg⟩

/-- A sum over the elements of a reordered submesh is the sum over the elements
of the submesh. -/
theorem submesh_reordered_sum_eq (sm1 sm2 : femSubmesh) (h : SubmeshReordered sm1 sm2)
    (g1 g2 : Nat → Int) (σ_eq : ∀ σ : Nat → Nat, (∀ e < sm1.elements,
        sm2.local_dof_list e = sm1.local_dof_list (σ e) ∧
        sm2.tangent_stiffness e = sm1.tangent_stiffness (σ e) ∧
        sm2.internal_force e = sm1.internal_force (σ e)) →
      ∀ e < sm1.elements, g2 e = g1 (σ e)) :
    ((List.range sm1.elements).map g1).sum = ((List.range sm2.elements).map g2).sum := by
  obtain ⟨hn, σ, hperm, hσ⟩ := h
  rw [hn]
  have hmap : (List.range sm1.elements).map g2 = ((List.range sm1.elements).map σ).map g1 := by
    rw [List.map_map]
    apply List.map_congr_left
    intro e he
    exact σ_eq σ hσ e (List.mem_range.1 he)
  rw [hmap]
  exact ((hperm.map g1).sum_eq).symm

/-- A property holds for some element of a reordered submesh exactly when it
holds for some element of the submesh. -/
theorem submesh_reordered_exists_iff (sm1 sm2 : femSubmesh) (h : SubmeshReordered sm1 sm2)
    (P1 P2 : Nat → Prop) (σ_iff : ∀ σ : Nat → Nat, (∀ e < sm1.elements,
        sm2.local_dof_list e = sm1.local_dof_list (σ e) ∧
        sm2.tangent_stiffness e = sm1.tangent_stiffness (σ e) ∧
        sm2.internal_force e = sm1.internal_force (σ e)) →
      ∀ e < sm1.elements, (P2 e ↔ P1 (σ e))) :
    (∃ e < sm1.elements, P1 e) ↔ ∃ e < sm2.elements, P2 e := by
  obtain ⟨hn, σ, hperm, hσ⟩ := h
  rw [hn]
  constructor
  · rintro ⟨e1, he1, hp⟩
    have hmem : e1 ∈ (List.range sm1.elements).map σ :=
      hperm.mem_iff.2 (List.mem_range.2 he1)
    obtain ⟨e, he, rfl⟩ := List.mem_map.1 hmem
    exact ⟨e, List.mem_range.1 he, (σ_iff σ hσ e (List.mem_range.1 he)).2 hp⟩
  · rintro ⟨e, he, hp⟩
    have hmem : σ e ∈ List.range sm1.elements :=
      hperm.mem_iff.1 (List.mem_map.2 ⟨e, List.mem_range.2 he, rfl⟩)
    exact ⟨σ e, List.mem_range.1 hmem, (σ_iff σ hσ e he).1 hp⟩

theorem stiffness_sum_reordered (m1 m2 : femMesh) (h : MeshReordered m1 m2) (i j : Nat) :
    stiffness_sum m2 i j = stiffness_sum m1 i j := by
  unfold stiffness_sum
  apply mesh_reordered_sum_eq m1 m2 h
  intro sm1 sm2 hsm
  apply submesh_reordered_sum_eq sm1 sm2 hsm
  intro σ hσ e he
  rw [(hσ e he).2.1]

theorem force_sum_reordered (m1 m2 : femMesh) (h : MeshReordered m1 m2) (i : Nat) :
    force_sum m2 i = force_sum m1 i := by
  unfold force_sum
  apply mesh_reordered_sum_eq m1 m2 h
  intro sm1 sm2 hsm
  apply submesh_reordered_sum_eq sm1 sm2 hsm
  intro σ hσ e he
  rw [(hσ e he).2.2]

theorem compute_internal_force_apply (fem_mesh : femMesh) (s : femStaticMatrix) (i : Nat) :
    (compute_internal_force fem_mesh s).fint i = force_sum fem_mesh i := by
  unfold compute_internal_force force_sum
  simp only
  have h := foldl_obs_add (fun f : Vector => f i)
    (fun f (submesh : femSubmesh) => (List.range submesh.elements).foldl
      (fun f element => scatter_force (submesh.internal_force element) f) f)
    (fun submesh => ((List.range submesh.elements).map fun element =>
      element_force_sum (submesh.internal_force element) i).sum)
    (by
      intro f1 submesh
      refine foldl_obs_add (fun f : Vector => f i) _ _ ?_ _ f1
      intro f2 element
      exact scatter_force_apply _ f2 i)
    fem_mesh.meshes Vector.Zero
  simpa [Vector.Zero] using h

theorem mem_pattern_assemble_stiffness (fem_mesh : femMesh) (s : femStaticMatrix) (p q : Nat) :
    (p, q) ∈ (assemble_stiffness fem_mesh s).Kt.pattern ↔
      ((s.is_sparsity_computed = true ∧ (p, q) ∈ s.Kt.pattern) ∨
        (s.is_sparsity_computed = false ∧
          ∃ submesh ∈ fem_mesh.meshes, ∃ element < submesh.elements,
            p ∈ submesh.local_dof_list element ∧ q ∈ submesh.local_dof_list element)) ∨
      ∃ submesh ∈ fem_mesh.meshes, ∃ element < submesh.elements,
        p ∈ (submesh.tangent_stiffness element).1 ∧
          q ∈ (submesh.tangent_stiffness element).1 := by
  unfold assemble_stiffness
  simp only
  rw [mem_pattern_assemble_elements]
  apply or_congr_left
  cases hc : s.is_sparsity_computed with
  | true =>
    simp only [if_true]
    show (p, q) ∈ s.Kt.pattern ↔ _
    simp
  | false =>
    simp only [Bool.false_eq_true, if_false]
    show (p, q) ∈ (compute_sparsity_pattern fem_mesh s).Kt.pattern ↔ _
    rw [mem_pattern_compute_sparsity_pattern]
    simp

/-- C17: assembly does not depend on the order of the elements. For two meshes
that differ by a permutation of the submeshes and, within each submesh, of the
elements, and the same solver state, `assemble_stiffness` gives the same value
`Kt(i, j)` at every coordinate and the same set of stored coordinates, and
`compute_internal_force` gives the same `fint`. -/
theorem C17_assembly_independent_of_order (m1 m2 : femMesh) (h : MeshReordered m1 m2)
    (s : femStaticMatrix) :
    (∀ i j, (assemble_stiffness m2 s).Kt.coeff i j = (assemble_stiffness m1 s).Kt.coeff i j) ∧
    (∀ i j, (i, j) ∈ (assemble_stiffness m2 s).Kt.pattern ↔
      (i, j) ∈ (assemble_stiffness m1 s).Kt.pattern) ∧
    (compute_internal_force m2 s).fint = (compute_internal_force m1 s).fint := by
  refine ⟨?_, ?_, ?_⟩
  · intro i j
    have e1 : ∀ m : femMesh, (assemble_stiffness m s).Kt.coeff i j = stiffness_sum m i j := by
      intro m
      unfold assemble_stiffness
      simp only
      rw [coeff_assemble_elements, SparseMatrix.coeff_coeffs_zero, zero_add]
    rw [e1, e1, stiffness_sum_reordered m1 m2 h]
  · intro i j
    rw [mem_pattern_assemble_stiffness, mem_pattern_assemble_stiffness]
    have hl := mesh_reordered_exists_iff m1 m2 h
      (fun submesh => ∃ element < submesh.elements,
        i ∈ submesh.local_dof_list element ∧ j ∈ submesh.local_dof_list element)
      (by
        intro sm1 sm2 hsm
        apply submesh_reordered_exists_iff sm1 sm2 hsm
        intro σ hσ e he
        rw [(hσ e he).1])
    have ht := mesh_reordered_exists_iff m1 m2 h
      (fun submesh => ∃ element < submesh.elements,
        i ∈ (submesh.tangent_stiffness element).1 ∧ j ∈ (submesh.tangent_stiffness element).1)
      (by
        intro sm1 sm2 hsm
        apply submesh_reordered_exists_iff sm1 sm2 hsm
        intro σ hσ e he
        rw [(hσ e he).2.1])
    rw [hl, ht]
  · funext i
    rw [compute_internal_force_apply, compute_internal_force_apply, force_sum_reordered m1 m2 h]

theorem demo_mesh_swapped_reordered : MeshReordered demo_mesh demo_mesh_swapped := by
  refine ⟨rfl, [demo_submesh_swapped], ?_, List.Perm.refl _⟩
  refine List.Forall₂.cons ?_ List.Forall₂.nil
  refine ⟨rfl, fun e => 1 - e, by decide, ?_⟩
  intro e _
  exact ⟨rfl, rfl, rfl⟩

/-- C17 on the small mesh and the small mesh with its two elements exchanged:
the shared entry `Kt(1, 1)` is 15 and the shared force entry is 7 in both. -/
theorem C17_assembly_independent_of_order_witness :
    (assemble_stiffness demo_mesh_swapped demo_solver).Kt.coeff 1 1 = 15 ∧
      (assemble_stiffness demo_mesh demo_solver).Kt.coeff 1 1 = 15 ∧
      (compute_internal_force demo_mesh_swapped demo_solver).fint 1 = 7 :=
  have h := C17_assembly_independent_of_order demo_mesh demo_mesh_swapped
    demo_mesh_swapped_reordered demo_solver
  ⟨(h.1 1 1).trans (by decide), by decide, (congrFun h.2.2 1).trans (by decide)⟩

/-! ## Frame and pinning of the Dirichlet enforcement -/

theorem coeff_foldl_enforce_free (R : Bool) (F : List Nat)
    (st : SparseMatrix × Vector × Vector) (a b : Nat) (ha : a ∉ F) (hb : b ∉ F) :
    (F.foldl (enforce_fixed_dof R) st).1.coeff a b = st.1.coeff a b := by
  refine foldl_keeps (fun st1 : SparseMatrix × Vector × Vector =>
    st1.1.coeff a b = st.1.coeff a b) _ F ?_ st rfl
  intro st1 h1 f hf
  show (enforce_fixed_dof R st1 f).1.coeff a b = _
  rw [coeff_enforce_fixed_dof]
  by_cases hab : a = b
  · rw [if_pos hab, h1]
  · rw [if_neg hab, if_neg, h1]
    rintro (⟨_, hout⟩ | ⟨_, hout⟩)
    · cases R
      · simp at hout
        exact hb (hout ▸ hf)
      · simp at hout
        exact ha (hout ▸ hf)
    · cases R
      · simp at hout
        exact ha (hout ▸ hf)
      · simp at hout
        exact hb (hout ▸ hf)

theorem sum_range_single (n f : Nat) (g : Nat → Int) (h : ∀ j, j ≠ f → g j = 0)
    (hf : f < n) : ((List.range n).map g).sum = g f := by
  induction n with
  | zero => exact absurd hf (Nat.not_lt_zero f)
  | succ n ih =>
    rw [List.range_succ, List.map_append, List.sum_append, List.map_singleton,
      List.sum_singleton]
    by_cases hfn : f = n
    · subst hfn
      rw [List.sum_eq_zero, zero_add]
      intro x hx
      obtain ⟨j, hj, rfl⟩ := List.mem_map.1 hx
      exact h j (Nat.ne_of_lt (List.mem_range.1 hj))
    · rw [ih (by omega), h n (fun e => hfn e.symm), add_zero]

theorem apply_displacement_boundaries_prescribed (fem_mesh : femMesh) (load_factor : Int)
    (s : femStaticMatrix) (dof : Nat)
    (h : ∃ entry ∈ fem_mesh.dirichlet_boundary_map, ∃ dirichlet_boundary ∈ entry.2,
      dof ∈ dirichlet_boundary.dof_view) :
    ∃ entry ∈ fem_mesh.dirichlet_boundary_map, ∃ dirichlet_boundary ∈ entry.2,
      dof ∈ dirichlet_boundary.dof_view ∧
        (apply_displacement_boundaries fem_mesh load_factor s).d dof =
          s.load_factor * dirichlet_boundary.value_view := by
  rw [apply_displacement_boundaries_d]
  obtain ⟨entry, he, db, hdb, hd⟩ := h
  rcases foldl_assign_cases s.load_factor (prescribed_pairs fem_mesh) s.d dof with
    ⟨⟨dof1, v⟩, hq, hqi, hval⟩ | ⟨hnone, _⟩
  · simp only at hqi
    subst hqi
    obtain ⟨entry1, he1, db1, hdb1, hd1, rfl⟩ := (mem_prescribed_pairs fem_mesh _ v).1 hq
    exact ⟨entry1, he1, db1, hdb1, hd1, hval⟩
  · exact absurd rfl (hnone (dof, db.value_view)
      ((mem_prescribed_pairs fem_mesh dof _).2 ⟨entry, he, db, hdb, hd, rfl⟩))

/-- C21: the failing input. On the concrete collaborators started after five
updates no residual test passes, the step is reported as not converged, and the
displacement at the free DOF 1, which was 7 when the function was entered, is
82 when it returns: the ten corrections stay in `d`. -/
theorem C21_failed_step_keeps_corrections :
    (perform_equilibrium_iterations demo_collaborators 11 demo_solver 5 4).map
        (fun r => (decide (Call.update_convergence_state false ∈ r.calls),
          decide (Call.save_internal_variables false ∈ r.calls), r.solver.d 1)) =
      some (true, true, 82) ∧
    demo_solver.d 1 = 7 := by
  decide

/-- C22: let `Kt` be assembled on the pattern of `compute_sparsity_pattern` and
then enforced together with the residual `b`. Every exact solution `delta` of
the `n` by `n` system `Kt * delta = -b` is zero at every prescribed DOF `f`
below `n` whose diagonal entry `Kt(f, f)` is not zero, so `d[f] + delta[f]` is
`d[f]`; for the `d` that `apply_displacement_boundaries` left, that is the load
factor times the prescribed value of a boundary listing `f`. -/
theorem C22_enforcement_pins_prescribed_dofs (IsRowMajor : Bool) (fem_mesh : femMesh)
    (s : femStaticMatrix) (x b : Vector)
    (hs : s.is_sparsity_computed = true → PatternSymmetric s.Kt)
    (n : Nat) (delta : Vector)
    (hsol : ∀ i < n,
      row_times (enforce_dirichlet_conditions IsRowMajor fem_mesh
          (assemble_stiffness fem_mesh s) x b).1.Kt n delta i =
        - (enforce_dirichlet_conditions IsRowMajor fem_mesh
          (assemble_stiffness fem_mesh s) x b).2.2 i) :
    ∀ entry ∈ fem_mesh.dirichlet_boundary_map, ∀ dirichlet_boundary ∈ entry.2,
      ∀ f ∈ dirichlet_boundary.dof_view, f < n →
        (enforce_dirichlet_conditions IsRowMajor fem_mesh
          (assemble_stiffness fem_mesh s) x b).1.Kt.coeff f f ≠ 0 →
        delta f = 0 ∧
        (∀ d : Vector, d f + delta f = d f) ∧
        (∀ (load_factor : Int) (s0 : femStaticMatrix),
          ∃ entry1 ∈ fem_mesh.dirichlet_boundary_map, ∃ listing ∈ entry1.2,
            f ∈ listing.dof_view ∧
              (apply_displacement_boundaries fem_mesh load_factor s0).d f + delta f =
                s0.load_factor * listing.value_view) := by
  intro entry hentry dirichlet_boundary hdb f hf hfn hdiag
  have hF : f ∈ prescribed_dofs fem_mesh :=
    (mem_prescribed_dofs fem_mesh f).2 ⟨entry, hentry, dirichlet_boundary, hdb, hf⟩
  have hsym := assemble_stiffness_symmetric fem_mesh s hs
  have hrow := hsol f hfn
  rw [enforce_dirichlet_conditions_eq] at hrow hdiag
  simp only at hrow hdiag
  rw [foldl_enforce_b, if_pos hF, neg_zero] at hrow
  unfold row_times at hrow
  rw [sum_range_single n f _ ?_ hfn] at hrow
  · have hdelta : delta f = 0 := by
      rcases mul_eq_zero.1 hrow with h0 | h0
      · exact absurd h0 hdiag
      · exact h0
    refine ⟨hdelta, ?_, ?_⟩
    · intro d
      rw [hdelta, add_zero]
    · intro load_factor s0
      obtain ⟨entry1, he1, listing, hl, hfl, hval⟩ :=
        apply_displacement_boundaries_prescribed fem_mesh load_factor s0 f
          ⟨entry, hentry, dirichlet_boundary, hdb, hf⟩
      exact ⟨entry1, he1, listing, hl, hfl, by rw [hdelta, add_zero, hval]⟩
  · intro j hj
    rw [coeff_foldl_enforce_symmetric _ _ _ _ _ hsym, if_pos ⟨fun e => hj e.symm, Or.inl hF⟩,
      zero_mul]

/-- C23: `enforce_dirichlet_conditions` leaves the free part of the system as
it was, for every matrix, boundary map and storage order: the value `Kt(i, j)`
when neither `i` nor `j` is a prescribed DOF, and the entries of `x` and of `b`
at an index that is not a prescribed DOF. -/
theorem C23_enforcement_keeps_free_part (IsRowMajor : Bool) (fem_mesh : femMesh)
    (s : femStaticMatrix) (x b : Vector) :
    (∀ i j,
      (¬ ∃ entry ∈ fem_mesh.dirichlet_boundary_map, ∃ dirichlet_boundary ∈ entry.2,
        i ∈ dirichlet_boundary.dof_view) →
      (¬ ∃ entry ∈ fem_mesh.dirichlet_boundary_map, ∃ dirichlet_boundary ∈ entry.2,
        j ∈ dirichlet_boundary.dof_view) →
      (enforce_dirichlet_conditions IsRowMajor fem_mesh s x b).1.Kt.coeff i j =
        s.Kt.coeff i j) ∧
    (∀ i,
      (¬ ∃ entry ∈ fem_mesh.dirichlet_boundary_map, ∃ dirichlet_boundary ∈ entry.2,
        i ∈ dirichlet_boundary.dof_view) →
      (enforce_dirichlet_conditions IsRowMajor fem_mesh s x b).2.1 i = x i ∧
        (enforce_dirichlet_conditions IsRowMajor fem_mesh s x b).2.2 i = b i) := by
  rw [enforce_dirichlet_conditions_eq]
  simp only
  refine ⟨?_, ?_⟩
  · intro i j hi hj
    exact coeff_foldl_enforce_free IsRowMajor _ (s.Kt, x, b) i j
      (fun h => hi ((mem_prescribed_dofs fem_mesh i).1 h))
      (fun h => hj ((mem_prescribed_dofs fem_mesh j).1 h))
  · intro i hi
    have hni : i ∉ prescribed_dofs fem_mesh := fun h => hi ((mem_prescribed_dofs fem_mesh i).1 h)
    rw [foldl_enforce_x, foldl_enforce_b, if_neg hni, if_neg hni]
    exact ⟨rfl, rfl⟩

/-- C24: the result of `apply_displacement_boundaries` does not depend on its
argument: for two argument values and the same solver state the returned state,
and so the displacement vector `d`, is the same. -/
theorem C24_apply_displacement_ignores_argument (fem_mesh : femMesh)
    (load_factor1 load_factor2 : Int) (s : femStaticMatrix) :
    apply_displacement_boundaries fem_mesh load_factor1 s =
        apply_displacement_boundaries fem_mesh load_factor2 s ∧
      (apply_displacement_boundaries fem_mesh load_factor1 s).d =
        (apply_displacement_boundaries fem_mesh load_factor2 s).d :=
  ⟨rfl, rfl⟩

/-- C22 on the small mesh: with the residual 15 everywhere the enforced system
is `delta[0] = 0`, `15 * delta[1] = -15`, `14 * delta[2] = 0`; its solution is
zero at the prescribed DOF 0. -/
theorem C22_enforcement_pins_prescribed_dofs_witness :
    (∀ i < 3,
      row_times (enforce_dirichlet_conditions true demo_mesh
          (assemble_stiffness demo_mesh demo_solver) (fun _ => 1) (fun _ => 15)).1.Kt 3
          (fun i => if i = 1 then -1 else 0) i =
        - (enforce_dirichlet_conditions true demo_mesh
          (assemble_stiffness demo_mesh demo_solver) (fun _ => 1) (fun _ => 15)).2.2 i) ∧
    (fun i => if i = 1 then (-1 : Int) else 0) 0 = 0 :=
  ⟨by decide,
    (C22_enforcement_pins_prescribed_dofs true demo_mesh demo_solver (fun _ => 1)
      (fun _ => 15) (fun hc => absurd hc (by decide)) 3 (fun i => if i = 1 then -1 else 0)
      (by decide) ("fixed", [{ dof_view := [0], value_view := 0 }]) (List.mem_cons_self _ _)
      { dof_view := [0], value_view := 0 } (List.mem_cons_self _ _) 0 (List.mem_cons_self _ _)
      (by decide) (by decide)).1⟩

/-- C23 on the small mesh, whose DOF 1 is free: the entry `Kt(1, 1) = 15` and
the entries `x[1] = 1` and `b[1] = 3` are kept by the enforcement. -/
theorem C23_enforcement_keeps_free_part_witness :
    (enforce_dirichlet_conditions true demo_mesh (assemble_stiffness demo_mesh demo_solver)
        (fun _ => 1) (fun _ => 3)).1.Kt.coeff 1 1 = 15 ∧
    (enforce_dirichlet_conditions true demo_mesh (assemble_stiffness demo_mesh demo_solver)
        (fun _ => 1) (fun _ => 3)).2.1 1 = 1 ∧
    (enforce_dirichlet_conditions true demo_mesh (assemble_stiffness demo_mesh demo_solver)
        (fun _ => 1) (fun _ => 3)).2.2 1 = 3 := by
  have hfree : ¬ ∃ entry ∈ demo_mesh.dirichlet_boundary_map, ∃ dirichlet_boundary ∈ entry.2,
      1 ∈ dirichlet_boundary.dof_view := by
    rintro ⟨entry, he, db, hdb, hd⟩
    simp only [demo_mesh, List.mem_cons, List.mem_singleton, List.not_mem_nil,
      or_false] at he
    rcases he with rfl | rfl
    · simp only [List.mem_singleton] at hdb
      subst hdb
      simp at hd
    · simp only [List.mem_singleton] at hdb
      subst hdb
      simp at hd
  have h := C23_enforcement_keeps_free_part true demo_mesh
    (assemble_stiffness demo_mesh demo_solver) (fun _ => 1) (fun _ => 3)
  exact ⟨(h.1 1 1 hfree hfree).trans (by decide), (h.2 1 hfree).1, (h.2 1 hfree).2⟩

/-! ## Registration of the internal variables -/

namespace InternalVariables

theorem resize_nil {β : Type} (n : Nat) (fill : β) :
    resize ([] : List β) n fill = List.replicate n fill := by
  simp [resize]

theorem resize_replicate {β : Type} (n : Nat) (fill : β) :
    resize (List.replicate n fill) n fill = List.replicate n fill := by
  simp [resize]

theorem length_resize {β : Type} (l : List β) (n : Nat) (fill : β) :
    (resize l n fill).length = n := by
  simp only [resize, List.length_append, List.length_take, List.length_replicate]
  omega

theorem resize_entry_self {κ β : Type} [DecidableEq κ] (map : κ → Option (List β)) (name : κ)
    (n : Nat) (fill : β) :
    resize_entry map name n fill name = some (resize ((map name).getD []) n fill) := by
  simp [resize_entry]

theorem resize_entry_other {κ β : Type} [DecidableEq κ] (map : κ → Option (List β))
    (name k : κ) (n : Nat) (fill : β) (h : k ≠ name) :
    resize_entry map name n fill k = map k := by
  simp [resize_entry, h]

theorem resize_entry_added {κ β : Type} [DecidableEq κ] (map : κ → Option (List β))
    (name : κ) (n : Nat) (fill : β)
    (h : map name = some (List.replicate n fill) ∨ map name = none) :
    resize_entry map name n fill name = some (List.replicate n fill) := by
  rw [resize_entry_self]
  rcases h with h | h
  · rw [h, Option.getD_some, resize_replicate]
  · rw [h, Option.getD_none, resize_nil]

theorem added_of_construct {T M : Type} (fresh : T) (n : Nat) :
    Added fresh n (fun _ => False) (InternalVariables.construct n : InternalVariables T M) :=
  ⟨rfl, fun _ => ⟨fun h => h.elim, fun _ => ⟨rfl, rfl⟩⟩,
    fun _ => ⟨fun h => h.elim, fun _ => ⟨rfl, rfl⟩⟩⟩

theorem added_after_add_Tensor {T M : Type} (fresh : T) (n : Nat) (P : Name → Prop)
    (v : InternalVariables T M) (name : InternalVariables.Tensor) (h : Added fresh n P v) :
    Added fresh n (fun x => P x ∨ x = Name.tensor name) (InternalVariables.add_Tensor fresh v name) := by
  obtain ⟨hsize, ht, hsc⟩ := h
  have hcur : ∀ k, (v.tensors k = some (List.replicate n fresh) ∨ v.tensors k = none) ∧
      (v.tensors_old k = some (List.replicate n fresh) ∨ v.tensors_old k = none) := by
    intro k
    by_cases hp : P (Name.tensor k)
    · exact ⟨Or.inl ((ht k).1 hp).1, Or.inl ((ht k).1 hp).2⟩
    · exact ⟨Or.inr ((ht k).2 hp).1, Or.inr ((ht k).2 hp).2⟩
  refine ⟨hsize, ?_, ?_⟩
  · intro k
    by_cases hk : k = name
    · subst hk
      refine ⟨fun _ => ?_, fun hn => absurd (Or.inr rfl) hn⟩
      show resize_entry v.tensors k v.size fresh k = _ ∧
        resize_entry v.tensors_old k v.size fresh k = _
      rw [hsize]
      exact ⟨resize_entry_added _ _ _ _ (hcur k).1, resize_entry_added _ _ _ _ (hcur k).2⟩
    · have e1 : (InternalVariables.add_Tensor fresh v name).tensors k = v.tensors k :=
        resize_entry_other _ _ _ _ _ hk
      have e2 : (InternalVariables.add_Tensor fresh v name).tensors_old k = v.tensors_old k :=
        resize_entry_other _ _ _ _ _ hk
      rw [e1, e2]
      constructor
      · rintro (hp | hp)
        · exact (ht k).1 hp
        · exact absurd (Name.tensor.inj hp) hk
      · intro hn
        exact (ht k).2 (fun hp => hn (Or.inl hp))
  · intro k
    constructor
    · rintro (hp | hp)
      · exact (hsc k).1 hp
      · cases hp
    · intro hn
      exact (hsc k).2 (fun hp => hn (Or.inl hp))

theorem added_after_add_Scalar {T M : Type} (fresh : T) (n : Nat) (P : Name → Prop)
    (v : InternalVariables T M) (name : InternalVariables.Scalar) (h : Added fresh n P v) :
    Added fresh n (fun x => P x ∨ x = Name.scalar name) (InternalVariables.add_Scalar v name) := by
  obtain ⟨hsize, ht, hsc⟩ := h
  have hcur : ∀ k, (v.scalars k = some (List.replicate n 0) ∨ v.scalars k = none) ∧
      (v.scalars_old k = some (List.replicate n 0) ∨ v.scalars_old k = none) := by
    intro k
    by_cases hp : P (Name.scalar k)
    · exact ⟨Or.inl ((hsc k).1 hp).1, Or.inl ((hsc k).1 hp).2⟩
    · exact ⟨Or.inr ((hsc k).2 hp).1, Or.inr ((hsc k).2 hp).2⟩
  refine ⟨hsize, ?_, ?_⟩
  · intro k
    constructor
    · rintro (hp | hp)
      · exact (ht k).1 hp
      · cases hp
    · intro hn
      exact (ht k).2 (fun hp => hn (Or.inl hp))
  · intro k
    by_cases hk : k = name
    · subst hk
      refine ⟨fun _ => ?_, fun hn => absurd (Or.inr rfl) hn⟩
      show resize_entry v.scalars k v.size 0 k = _ ∧
        resize_entry v.scalars_old k v.size 0 k = _
      rw [hsize]
      exact ⟨resize_entry_added _ _ _ _ (hcur k).1, resize_entry_added _ _ _ _ (hcur k).2⟩
    · have e1 : (InternalVariables.add_Scalar v name).scalars k = v.scalars k :=
        resize_entry_other _ _ _ _ _ hk
      have e2 : (InternalVariables.add_Scalar v name).scalars_old k = v.scalars_old k :=
        resize_entry_other _ _ _ _ _ hk
      rw [e1, e2]
      constructor
      · rintro (hp | hp)
        · exact (hsc k).1 hp
        · exact absurd (Name.scalar.inj hp) hk
      · intro hn
        exact (hsc k).2 (fun hp => hn (Or.inl hp))

theorem added_of_iff {T M : Type} (fresh : T) (n : Nat) (P Q : Name → Prop)
    (v : InternalVariables T M) (hPQ : ∀ x, P x ↔ Q x) (h : Added fresh n P v) :
    Added fresh n Q v := by
  have hfun : P = Q := funext fun x => propext (hPQ x)
  rw [← hfun]
  exact h

theorem added_after_add {T M : Type} (fresh : T) (n : Nat) (names : List Name) (P : Name → Prop)
    (v : InternalVariables T M) (h : Added fresh n P v) :
    Added fresh n (fun x => P x ∨ x ∈ names) (InternalVariables.add fresh names v) := by
  induction names generalizing v P with
  | nil =>
    exact added_of_iff fresh n P _ v (fun x => by simp) h
  | cons name names ih =>
    show Added fresh n _ (List.foldl _ _ names)
    cases name with
    | tensor k =>
      exact added_of_iff fresh n _ _ _ (fun x => by simp only [List.mem_cons]; tauto)
        (ih _ _ (added_after_add_Tensor fresh n P v k h))
    | scalar k =>
      exact added_of_iff fresh n _ _ _ (fun x => by simp only [List.mem_cons]; tauto)
        (ih _ _ (added_after_add_Scalar fresh n P v k h))

end InternalVariables

namespace InternalVariables

theorem reachable_same_kinds {T M : Type} (fresh : T) (zero : Nat → M) (size : Nat)
    (v : InternalVariables T M) (h : Reachable fresh zero size v) :
    (∀ k, (v.tensors k).isSome = (v.tensors_old k).isSome) ∧
      (∀ k, (v.scalars k).isSome = (v.scalars_old k).isSome) := by
  induction h with
  | construct => exact ⟨fun _ => rfl, fun _ => rfl⟩
  | add_Tensor v name _ ih =>
    refine ⟨fun k => ?_, ih.2⟩
    show (resize_entry v.tensors name v.size fresh k).isSome =
      (resize_entry v.tensors_old name v.size fresh k).isSome
    by_cases hk : k = name
    · subst hk
      rw [resize_entry_self, resize_entry_self]
      rfl
    · rw [resize_entry_other _ _ _ _ _ hk, resize_entry_other _ _ _ _ _ hk]
      exact ih.1 k
  | add_Scalar v name _ ih =>
    refine ⟨ih.1, fun k => ?_⟩
    show (resize_entry v.scalars name v.size 0 k).isSome =
      (resize_entry v.scalars_old name v.size 0 k).isSome
    by_cases hk : k = name
    · subst hk
      rw [resize_entry_self, resize_entry_self]
      rfl
    · rw [resize_entry_other _ _ _ _ _ hk, resize_entry_other _ _ _ _ _ hk]
      exact ih.2 k
  | add_Matrix v name rowcol _ ih => exact ih
  | commit v _ _ => exact ⟨fun _ => rfl, fun _ => rfl⟩
  | revert v _ _ => exact ⟨fun _ => rfl, fun _ => rfl⟩
  | mutate v v1 m _ hm ih =>
    cases m with
    | tensor k g =>
      obtain ⟨xs, hxs, rfl⟩ := mutate_Tensor_eq v v1 k g hm
      refine ⟨fun k1 => ?_, ih.2⟩
      show (if k1 = k then some (g xs) else v.tensors k1).isSome = (v.tensors_old k1).isSome
      by_cases hk : k1 = k
      · subst hk
        rw [if_pos rfl, ← ih.1 k1, hxs]
        rfl
      · rw [if_neg hk]
        exact ih.1 k1
    | scalar k g =>
      obtain ⟨xs, hxs, rfl⟩ := mutate_Scalar_eq v v1 k g hm
      refine ⟨ih.1, fun k1 => ?_⟩
      show (if k1 = k then some (g xs) else v.scalars k1).isSome = (v.scalars_old k1).isSome
      by_cases hk : k1 = k
      · subst hk
        rw [if_pos rfl, ← ih.2 k1, hxs]
        rfl
      · rw [if_neg hk]
        exact ih.2 k1
    | matrix k g =>
      simp only [Mutation.apply, mutate_Matrix] at hm
      split at hm
      · cases hm
        exact ih
      · cases hm

/-- C27: in every store, after `add` of a tensor kind or of a scalar kind
`has` is true for the kind and both generations of the kind have as many
entries as the size of the store, and the other kinds are as before. In a store
built from the construction with size `n` by `add` of a list of names (one name
or several), `has` is true exactly for the added kinds, both generations of an
added kind have `n` entries, every entry of an added scalar kind is zero. -/
theorem C27_add_registers_kind {T M : Type} (fresh : T) :
    (∀ (v : InternalVariables T M) (k : InternalVariables.Tensor),
      (add_Tensor fresh v k).has_Tensor k = true ∧
      (∃ w c, (add_Tensor fresh v k).call_Tensor k = some w ∧
        (add_Tensor fresh v k).index_Tensor k = some c ∧
        w.length = v.size ∧ c.length = v.size) ∧
      (∀ k1, k1 ≠ k → (add_Tensor fresh v k).call_Tensor k1 = v.call_Tensor k1 ∧
        (add_Tensor fresh v k).index_Tensor k1 = v.index_Tensor k1) ∧
      (∀ k1, (add_Tensor fresh v k).call_Scalar k1 = v.call_Scalar k1 ∧
        (add_Tensor fresh v k).index_Scalar k1 = v.index_Scalar k1)) ∧
    (∀ (v : InternalVariables T M) (k : InternalVariables.Scalar),
      (add_Scalar v k).has_Scalar k = true ∧
      (∃ w c, (add_Scalar v k).call_Scalar k = some w ∧
        (add_Scalar v k).index_Scalar k = some c ∧
        w.length = v.size ∧ c.length = v.size) ∧
      (∀ k1, k1 ≠ k → (add_Scalar v k).call_Scalar k1 = v.call_Scalar k1 ∧
        (add_Scalar v k).index_Scalar k1 = v.index_Scalar k1) ∧
      (∀ k1, (add_Scalar v k).call_Tensor k1 = v.call_Tensor k1 ∧
        (add_Scalar v k).index_Tensor k1 = v.index_Tensor k1)) ∧
    (∀ (n : Nat) (names : List Name),
      (∀ k, (add fresh names (construct n : InternalVariables T M)).has_Tensor k = true ↔
        Name.tensor k ∈ names) ∧
      (∀ k, (add fresh names (construct n : InternalVariables T M)).has_Scalar k = true ↔
        Name.scalar k ∈ names) ∧
      (∀ k, Name.tensor k ∈ names →
        (add fresh names (construct n : InternalVariables T M)).call_Tensor k =
            some (List.replicate n fresh) ∧
          (add fresh names (construct n : InternalVariables T M)).index_Tensor k =
            some (List.replicate n fresh)) ∧
      (∀ k, Name.scalar k ∈ names →
        (add fresh names (construct n : InternalVariables T M)).call_Scalar k =
            some (List.replicate n 0) ∧
          (add fresh names (construct n : InternalVariables T M)).index_Scalar k =
            some (List.replicate n 0))) := by
  refine ⟨?_, ?_, ?_⟩
  · intro v k
    refine ⟨?_, ?_, ?_, fun _ => ⟨rfl, rfl⟩⟩
    · show (resize_entry v.tensors k v.size fresh k).isSome = true
      rw [resize_entry_self]
      rfl
    · exact ⟨_, _, resize_entry_self _ _ _ _, resize_entry_self _ _ _ _, length_resize _ _ _,
        length_resize _ _ _⟩
    · intro k1 hk
      exact ⟨resize_entry_other _ _ _ _ _ hk, resize_entry_other _ _ _ _ _ hk⟩
  · intro v k
    refine ⟨?_, ?_, ?_, fun _ => ⟨rfl, rfl⟩⟩
    · show (resize_entry v.scalars k v.size 0 k).isSome = true
      rw [resize_entry_self]
      rfl
    · exact ⟨_, _, resize_entry_self _ _ _ _, resize_entry_self _ _ _ _, length_resize _ _ _,
        length_resize _ _ _⟩
    · intro k1 hk
      exact ⟨resize_entry_other _ _ _ _ _ hk, resize_entry_other _ _ _ _ _ hk⟩
  · intro n names
    obtain ⟨_, ht, hsc⟩ := added_of_iff fresh n _ (fun x => x ∈ names) _ (fun x => by simp)
      (added_after_add fresh n names _ _
        (added_of_construct fresh n : Added fresh n _ (construct n : InternalVariables T M)))
    refine ⟨?_, ?_, fun k hk => (ht k).1 hk, fun k hk => (hsc k).1 hk⟩
    · intro k
      by_cases hk : Name.tensor k ∈ names
      · simp [has_Tensor, ((ht k).1 hk).1, hk]
      · simp [has_Tensor, ((ht k).2 hk).1, hk]
    · intro k
      by_cases hk : Name.scalar k ∈ names
      · simp [has_Scalar, ((hsc k).1 hk).1, hk]
      · simp [has_Scalar, ((hsc k).2 hk).1, hk]

/-- C28: in every store reachable from the construction by `add`, `commit`,
`revert` and writes through `operator()`, the working map and the committed map
hold the same tensor kinds and the same scalar kinds, so for every kind for
which `has` is true both `operator()` and `operator[]` find the kind. -/
theorem C28_reachable_lookups_find {T M : Type} (fresh : T) (zero : Nat → M) (size : Nat)
    (v : InternalVariables T M) (h : Reachable fresh zero size v) :
    (∀ k, (v.tensors k).isSome = (v.tensors_old k).isSome) ∧
    (∀ k, (v.scalars k).isSome = (v.scalars_old k).isSome) ∧
    (∀ k, v.has_Tensor k = true →
      (∃ w, v.call_Tensor k = some w) ∧ ∃ c, v.index_Tensor k = some c) ∧
    (∀ k, v.has_Scalar k = true →
      (∃ w, v.call_Scalar k = some w) ∧ ∃ c, v.index_Scalar k = some c) ∧
    (∀ k, v.has_Matrix k = true →
      (∃ w, v.call_Matrix k = some w) ∧ ∃ c, v.index_Matrix k = some c) := by
  obtain ⟨ht, hsc⟩ := reachable_same_kinds fresh zero size v h
  refine ⟨ht, hsc, ?_, ?_, ?_⟩
  · intro k hk
    have h1 : (v.tensors k).isSome = true := hk
    have h2 : (v.tensors_old k).isSome = true := (ht k) ▸ h1
    exact ⟨Option.isSome_iff_exists.1 h1, Option.isSome_iff_exists.1 h2⟩
  · intro k hk
    have h1 : (v.scalars k).isSome = true := hk
    have h2 : (v.scalars_old k).isSome = true := (hsc k) ▸ h1
    exact ⟨Option.isSome_iff_exists.1 h1, Option.isSome_iff_exists.1 h2⟩
  · intro k hk
    have h1 : (v.matrices k).isSome = true := hk
    exact ⟨Option.isSome_iff_exists.1 h1, Option.isSome_iff_exists.1 h1⟩

theorem demo_built_reachable : Reachable (0 : Int) (fun _ => (0 : Int)) 2 demo_built := by
  refine Reachable.commit _ ?_
  refine Reachable.mutate
    (InternalVariables.add (0 : Int)
      [Name.tensor InternalVariables.Tensor.CauchyStress,
       Name.scalar InternalVariables.Scalar.VonMisesStress] (construct 2))
    _ (Mutation.scalar InternalVariables.Scalar.VonMisesStress (fun _ => [3, 4])) ?_ rfl
  exact Reachable.add_Scalar _ _ (Reachable.add_Tensor _ _ Reachable.construct)

/-- C27 on a store of size 2 to which the Cauchy stress and the von Mises
stress are added. -/
theorem C27_add_registers_kind_witness :
    (add (0 : Int)
      [Name.tensor InternalVariables.Tensor.CauchyStress,
       Name.scalar InternalVariables.Scalar.VonMisesStress]
      (construct 2 : InternalVariables Int Int)).call_Scalar
        InternalVariables.Scalar.VonMisesStress = some [0, 0] ∧
    (add (0 : Int)
      [Name.tensor InternalVariables.Tensor.CauchyStress,
       Name.scalar InternalVariables.Scalar.VonMisesStress]
      (construct 2 : InternalVariables Int Int)).has_Scalar
        InternalVariables.Scalar.DetJ = false :=
  ⟨(((C27_add_registers_kind (0 : Int)).2.2 2 _).2.2.2
      InternalVariables.Scalar.VonMisesStress (by decide)).1,
    by decide⟩

/-- C28 on the store built with size 2: the von Mises stress, written and
committed, is found by both lookups. -/
theorem C28_reachable_lookups_find_witness :
    Reachable (0 : Int) (fun _ => (0 : Int)) 2 demo_built ∧
      demo_built.has_Scalar InternalVariables.Scalar.VonMisesStress = true ∧
      (∃ w, demo_built.call_Scalar InternalVariables.Scalar.VonMisesStress = some w) ∧
      ∃ c, demo_built.index_Scalar InternalVariables.Scalar.VonMisesStress = some c :=
  ⟨demo_built_reachable, by decide,
    ((C28_reachable_lookups_find (0 : Int) (fun _ => (0 : Int)) 2 demo_built
      demo_built_reachable).2.2.2.1 InternalVariables.Scalar.VonMisesStress (by decide))⟩

end InternalVariables

/-! ## Node ordering by tables -/

theorem reorder_by_table_eq_map (table : List Nat) (l : local_indices)
    (hall : ∀ i ∈ table, i < l.length) :
    reorder_by_table table l = table.map (fun i => l.getD i 0) := by
  induction table with
  | nil => rfl
  | cons i rest ih =>
    have hi : i < l.length := hall i (List.mem_cons_self _ _)
    have hcons : reorder_by_table (i :: rest) l = l[i] :: reorder_by_table rest l := by
      simp [reorder_by_table, List.filterMap_cons, List.getElem?_eq_getElem hi]
    rw [hcons, ih (fun j hj => hall j (List.mem_cons_of_mem _ hj)), List.map_cons,
      List.getD_eq_getElem l 0 hi]

theorem map_range_getD_eq_take (l : local_indices) (k : Nat) (hk : k ≤ l.length) :
    (List.range k).map (fun i => l.getD i 0) = l.take k := by
  induction k with
  | zero => rfl
  | succ k ih =>
    have hlt : k < l.length := hk
    rw [List.range_succ, List.map_append, ih (Nat.le_of_lt hlt), List.take_succ,
      List.getElem?_eq_getElem hlt, List.map_singleton, List.getD_eq_getElem l 0 hlt]
    rfl

theorem apply_table_eq_map (table : List Nat) (l : local_indices)
    (hall : ∀ i ∈ table, i < l.length) :
    apply_table table l = table.map (fun i => l.getD i 0) ++ l.drop table.length := by
  unfold apply_table
  rw [reorder_by_table_eq_map table l hall]

theorem apply_table_range (l : local_indices) (k : Nat) (hk : k ≤ l.length) :
    apply_table (List.range k) l = l := by
  rw [apply_table_eq_map _ _ (fun i hi => Nat.lt_of_lt_of_le (List.mem_range.1 hi) hk),
    map_range_getD_eq_take l k hk, List.length_range, List.take_append_drop]

theorem swap_at_map_append (u : List Nat) (f : Nat → Int) (d : local_indices) (i j : Nat)
    (hi : i < u.length) (hj : j < u.length) :
    swap_at (u.map f ++ d) i j = some ((swap_table u i j).map f ++ d) := by
  have hi2 : i < (u.map f).length := by rw [List.length_map]; exact hi
  have hj2 : j < (u.map f).length := by rw [List.length_map]; exact hj
  have gi : (u.map f ++ d)[i]? = some (f (u.getD i 0)) := by
    rw [List.getElem?_append_left hi2, List.getElem?_eq_getElem hi2, List.getElem_map,
      List.getD_eq_getElem u 0 hi]
  have gj : (u.map f ++ d)[j]? = some (f (u.getD j 0)) := by
    rw [List.getElem?_append_left hj2, List.getElem?_eq_getElem hj2, List.getElem_map,
      List.getD_eq_getElem u 0 hj]
  unfold swap_at
  rw [gi, gj]
  simp only
  unfold swap_table
  rw [List.map_set, List.map_set, List.set_append_left _ _ hi2,
    List.set_append_left _ _ (by rw [List.length_set]; exact hj2)]

theorem swap_table_length (u : List Nat) (i j : Nat) : (swap_table u i j).length = u.length := by
  unfold swap_table
  rw [List.length_set, List.length_set]

theorem swap_all_map_append (swaps : List (Nat × Nat)) (u : List Nat) (f : Nat → Int)
    (d : local_indices) (hS : ∀ swap ∈ swaps, swap.1 < u.length ∧ swap.2 < u.length) :
    swap_all swaps (u.map f ++ d) = some ((swap_table_all swaps u).map f ++ d) := by
  induction swaps generalizing u with
  | nil => rfl
  | cons swap swaps ih =>
    have h1 := hS swap (List.mem_cons_self _ _)
    show List.foldlM _ _ (swap :: swaps) = _
    rw [List.foldlM_cons, swap_at_map_append u f d swap.1 swap.2 h1.1 h1.2]
    exact ih (swap_table u swap.1 swap.2) (fun s hs => by
      rw [swap_table_length]
      exact hS s (List.mem_cons_of_mem _ hs))

/-- The swaps of a loop body, made on a list that a table describes, give the
list that the swapped table describes. -/
theorem swap_all_apply_table (swaps : List (Nat × Nat)) (u T : List Nat)
    (hS : ∀ swap ∈ swaps, swap.1 < u.length ∧ swap.2 < u.length)
    (hT : swap_table_all swaps u = T) (hTl : T.length = u.length)
    (hu : ∀ i ∈ u, i < u.length) (hTv : ∀ i ∈ T, i < u.length)
    (l : local_indices) (hk : u.length ≤ l.length) :
    swap_all swaps (apply_table u l) = some (apply_table T l) := by
  rw [apply_table_eq_map u l (fun i hi => Nat.lt_of_lt_of_le (hu i hi) hk),
    apply_table_eq_map T l (fun i hi => Nat.lt_of_lt_of_le (hTv i hi) hk), hTl, ← hT]
  exact swap_all_map_append swaps u _ _ hS

/-- The swaps of a loop body, made on a list with at least `k` entries, give
the list that the swapped identity table of length `k` describes. -/
theorem swap_all_eq_apply_table (swaps : List (Nat × Nat)) (k : Nat) (T : List Nat)
    (hS : ∀ swap ∈ swaps, swap.1 < k ∧ swap.2 < k)
    (hT : swap_table_all swaps (List.range k) = T) (hTl : T.length = k)
    (hTv : ∀ i ∈ T, i < k) (l : local_indices) (hk : k ≤ l.length) :
    swap_all swaps l = some (apply_table T l) := by
  have h := swap_all_apply_table swaps (List.range k) T
    (by rw [List.length_range]; exact hS) hT (by rw [List.length_range]; exact hTl)
    (fun i hi => by rw [List.length_range]; exact List.mem_range.1 hi)
    (by rw [List.length_range]; exact hTv) l (by rw [List.length_range]; exact hk)
  rw [apply_table_range l k hk] at h
  exact h

theorem length_apply_table (T : List Nat) (l : local_indices) (hTv : ∀ i ∈ T, i < T.length)
    (hk : T.length ≤ l.length) : (apply_table T l).length = l.length := by
  rw [apply_table_eq_map T l (fun i hi => Nat.lt_of_lt_of_le (hTv i hi) hk),
    List.length_append, List.length_map, List.length_drop]
  omega

theorem apply_table_perm (T : List Nat) (l : local_indices)
    (hperm : T.Perm (List.range T.length)) (hk : T.length ≤ l.length) :
    (apply_table T l).Perm l := by
  have hTv : ∀ i ∈ T, i < l.length := fun i hi =>
    Nat.lt_of_lt_of_le (List.mem_range.1 (hperm.mem_iff.1 hi)) hk
  rw [apply_table_eq_map T l hTv]
  have h1 := hperm.map (fun i => l.getD i 0)
  rw [map_range_getD_eq_take l T.length hk] at h1
  have h2 := List.Perm.append_right (l.drop T.length) h1
  rw [List.take_append_drop] at h2
  exact h2

theorem apply_table_getElem (T : List Nat) (l : local_indices) (hTv : ∀ i ∈ T, i < l.length)
    (k : Nat) (hk : k < T.length) : (apply_table T l)[k]? = l[T.getD k 0]? := by
  unfold apply_table
  have hlen : (reorder_by_table T l).length = T.length := by
    rw [reorder_by_table_eq_map T l hTv, List.length_map]
  rw [List.getElem?_append_left (by rw [hlen]; exact hk)]
  exact reorder_by_table_getElem T l hTv k hk

theorem apply_table_nil (l : local_indices) : apply_table [] l = l := rfl

theorem for_each_eq_table (swaps : List (Nat × Nat)) (k : Nat) (T : List Nat)
    (hS : ∀ swap ∈ swaps, swap.1 < k ∧ swap.2 < k)
    (hT : swap_table_all swaps (List.range k) = T) (hTl : T.length = k)
    (hTv : ∀ i ∈ T, i < k) (nodal_connectivity : List local_indices)
    (h : ∀ l ∈ nodal_connectivity, k ≤ l.length) :
    for_each_nodal_list swaps nodal_connectivity = some (convert_by_table T nodal_connectivity) :=
  mapM_eq_some_map _ _ _
    (fun l hl => swap_all_eq_apply_table swaps k T hS hT hTl hTv l (h l hl))

theorem for_each_two_eq_table (first second : List (Nat × Nat)) (k : Nat) (U T : List Nat)
    (hS1 : ∀ swap ∈ first, swap.1 < k ∧ swap.2 < k)
    (hU : swap_table_all first (List.range k) = U) (hUl : U.length = k)
    (hUv : ∀ i ∈ U, i < k)
    (hS2 : ∀ swap ∈ second, swap.1 < k ∧ swap.2 < k)
    (hT : swap_table_all second U = T) (hTl : T.length = k) (hTv : ∀ i ∈ T, i < k)
    (nodal_connectivity : List local_indices)
    (h : ∀ l ∈ nodal_connectivity, k ≤ l.length) :
    (for_each_nodal_list first nodal_connectivity).bind (for_each_nodal_list second) =
      some (convert_by_table T nodal_connectivity) := by
  rw [for_each_eq_table first k U hS1 hU hUl hUv nodal_connectivity h, Option.some_bind]
  unfold for_each_nodal_list convert_by_table
  have hmap : (nodal_connectivity.map (apply_table U)).mapM (swap_all second) =
      some ((nodal_connectivity.map (apply_table U)).map
        (fun x => (swap_all second x).getD x)) := by
    apply mapM_eq_some_map
    intro x hx
    obtain ⟨l, hl, rfl⟩ := List.mem_map.1 hx
    have hs := swap_all_apply_table second U T (by rw [hUl]; exact hS2) hT (by rw [hTl, hUl])
      (by rw [hUl]; exact hUv) (by rw [hUl]; exact hTv) l (by rw [hUl]; exact h l hl)
    rw [hs]
    rfl
  rw [hmap, List.map_map]
  congr 1
  apply List.map_congr_left
  intro l hl
  have hs := swap_all_apply_table second U T (by rw [hUl]; exact hS2) hT (by rw [hTl, hUl])
    (by rw [hUl]; exact hUv) (by rw [hUl]; exact hTv) l (by rw [hUl]; exact h l hl)
  show (swap_all second (apply_table U l)).getD (apply_table U l) = apply_table T l
  rw [hs]
  rfl

theorem convert_by_table_nil (nodal_connectivity : List local_indices) :
    convert_by_table [] nodal_connectivity = nodal_connectivity := by
  unfold convert_by_table
  have hid : apply_table [] = fun l => l := funext apply_table_nil
  rw [hid, List.map_id']

/-- The conversion from Gmsh is the table of the topology applied to every
nodal list, when every list is at least as long as the table. -/
theorem convert_from_gmsh_eq_table (topology : element_topology)
    (nodal_connectivity : List local_indices)
    (h : ∀ l ∈ nodal_connectivity, (from_gmsh_table topology).length ≤ l.length) :
    convert_from_gmsh nodal_connectivity topology =
      some (convert_by_table (from_gmsh_table topology) nodal_connectivity) := by
  cases topology with
  | tetrahedron4 =>
    exact for_each_eq_table tetrahedron4_swaps 4 _ (by decide) (by decide) (by decide)
      (by decide) nodal_connectivity h
  | tetrahedron10 =>
    exact for_each_two_eq_table tetrahedron10_swaps tetrahedron4_swaps 10
      [0, 1, 2, 3, 5, 8, 7, 4, 9, 6] _ (by decide) (by decide) (by decide) (by decide)
      (by decide) (by decide) (by decide) (by decide) nodal_connectivity h
  | prism6 =>
    exact for_each_eq_table prism6_swaps 5 _ (by decide) (by decide) (by decide)
      (by decide) nodal_connectivity h
  | prism15 =>
    exact for_each_eq_table prism15_swaps 12 _ (by decide) (by decide) (by decide)
      (by decide) nodal_connectivity h
  | hexahedron27 =>
    exact for_each_two_eq_table hexahedron27_swaps hexahedron20_swaps 26
      [0, 1, 2, 3, 4, 5, 6, 7, 8, 9, 10, 11, 12, 13, 14, 15, 16, 17, 18, 19,
        20, 25, 21, 24, 22, 23] _ (by decide) (by decide) (by decide) (by decide)
      (by decide) (by decide) (by decide) (by decide) nodal_connectivity h
  | hexahedron20 =>
    exact for_each_eq_table hexahedron20_swaps 20 _ (by decide) (by decide) (by decide)
      (by decide) nodal_connectivity h
  | line2 => exact (congrArg some (convert_by_table_nil nodal_connectivity)).symm
  | triangle3 => exact (congrArg some (convert_by_table_nil nodal_connectivity)).symm
  | quadrilateral4 => exact (congrArg some (convert_by_table_nil nodal_connectivity)).symm
  | hexahedron8 => exact (congrArg some (convert_by_table_nil nodal_connectivity)).symm
  | line3 => exact (congrArg some (convert_by_table_nil nodal_connectivity)).symm
  | triangle6 => exact (congrArg some (convert_by_table_nil nodal_connectivity)).symm
  | quadrilateral9 => exact (congrArg some (convert_by_table_nil nodal_connectivity)).symm
  | prism18 => exact (congrArg some (convert_by_table_nil nodal_connectivity)).symm
  | quadrilateral8 => exact (congrArg some (convert_by_table_nil nodal_connectivity)).symm

/-- The conversion to VTK is the table of the topology applied to every nodal
list, when every list is at least as long as the table. -/
theorem convert_to_vtk_eq_table (topology : element_topology)
    (nodal_connectivity : List local_indices)
    (h : ∀ l ∈ nodal_connectivity, (to_vtk_table topology).length ≤ l.length) :
    convert_to_vtk nodal_connectivity topology =
      some (convert_by_table (to_vtk_table topology) nodal_connectivity) := by
  cases topology with
  | tetrahedron4 =>
    exact for_each_eq_table tetrahedron4_vtk_swaps 2 _ (by decide) (by decide) (by decide)
      (by decide) nodal_connectivity h
  | tetrahedron10 =>
    exact for_each_eq_table tetrahedron10_vtk_swaps 10 _ (by decide) (by decide) (by decide)
      (by decide) nodal_connectivity h
  | hexahedron27 =>
    exact for_each_eq_table hexahedron27_vtk_swaps 26 _ (by decide) (by decide) (by decide)
      (by decide) nodal_connectivity h
  | hexahedron20 => exact (congrArg some (convert_by_table_nil nodal_connectivity)).symm
  | prism6 => exact (congrArg some (convert_by_table_nil nodal_connectivity)).symm
  | prism15 => exact (congrArg some (convert_by_table_nil nodal_connectivity)).symm
  | line2 => exact (congrArg some (convert_by_table_nil nodal_connectivity)).symm
  | triangle3 => exact (congrArg some (convert_by_table_nil nodal_connectivity)).symm
  | quadrilateral4 => exact (congrArg some (convert_by_table_nil nodal_connectivity)).symm
  | hexahedron8 => exact (congrArg some (convert_by_table_nil nodal_connectivity)).symm
  | line3 => exact (congrArg some (convert_by_table_nil nodal_connectivity)).symm
  | triangle6 => exact (congrArg some (convert_by_table_nil nodal_connectivity)).symm
  | quadrilateral9 => exact (congrArg some (convert_by_table_nil nodal_connectivity)).symm
  | prism18 => exact (congrArg some (convert_by_table_nil nodal_connectivity)).symm
  | quadrilateral8 => exact (congrArg some (convert_by_table_nil nodal_connectivity)).symm

theorem table_perm_range (topology : element_topology) :
    (from_gmsh_table topology).Perm (List.range (from_gmsh_table topology).length) ∧
      (to_vtk_table topology).Perm (List.range (to_vtk_table topology).length) := by
  cases topology <;> exact ⟨by decide, by decide⟩

theorem convert_by_table_rearranges (T : List Nat) (hperm : T.Perm (List.range T.length))
    (nodal_connectivity : List local_indices)
    (h : ∀ l ∈ nodal_connectivity, T.length ≤ l.length) :
    (convert_by_table T nodal_connectivity).length = nodal_connectivity.length ∧
      List.Forall₂ (fun l o => o.length = l.length ∧ o.Perm l ∧ o = apply_table T l)
        nodal_connectivity (convert_by_table T nodal_connectivity) := by
  unfold convert_by_table
  refine ⟨List.length_map _ _, ?_⟩
  rw [List.forall₂_map_right_iff, List.forall₂_same]
  intro l hl
  exact ⟨length_apply_table T l
      (fun i hi => List.mem_range.1 (hperm.mem_iff.1 hi)) (h l hl),
    apply_table_perm T l hperm (h l hl), rfl⟩

/-- C25: `convert_from_gmsh` is the reorder table of the topology applied to
every nodal list that is as long as the table or longer: the position `i` below
the length of the table receives the input entry at `table[i]`. The table is
`[1, 2, 3, 0]` for `tetrahedron4` and `[1, 2, 3, 0, 5, 8, 7, 4, 9, 6]` for
`tetrahedron10`, whose first four entries are those of `tetrahedron4`; a
topology without a case has the empty table, which is the identity, and its
connectivity is returned as it is. -/
theorem C25_convert_from_gmsh_is_table :
    (∀ (topology : element_topology) (nodal_connectivity : List local_indices),
      (∀ l ∈ nodal_connectivity, (from_gmsh_table topology).length ≤ l.length) →
      convert_from_gmsh nodal_connectivity topology =
        some (convert_by_table (from_gmsh_table topology) nodal_connectivity)) ∧
    from_gmsh_table element_topology.tetrahedron4 = [1, 2, 3, 0] ∧
    from_gmsh_table element_topology.tetrahedron10 = [1, 2, 3, 0, 5, 8, 7, 4, 9, 6] ∧
    (from_gmsh_table element_topology.tetrahedron10).take 4 =
      from_gmsh_table element_topology.tetrahedron4 ∧
    (∀ topology : element_topology,
      topology ∉ [element_topology.tetrahedron10, element_topology.tetrahedron4,
        element_topology.prism6, element_topology.prism15, element_topology.hexahedron27,
        element_topology.hexahedron20] →
      from_gmsh_table topology = [] ∧
        ∀ nodal_connectivity : List local_indices,
          convert_from_gmsh nodal_connectivity topology = some nodal_connectivity) ∧
    (∀ (table : List Nat) (l : local_indices), (∀ i ∈ table, i < l.length) →
      ∀ i < table.length, (apply_table table l)[i]? = l[table.getD i 0]?) ∧
    (∀ (table : List Nat) (l : local_indices), l.length = table.length →
      apply_table table l = reorder_by_table table l) ∧
    (∀ l : local_indices, apply_table (List.range l.length) l = l) := by
  refine ⟨convert_from_gmsh_eq_table, rfl, rfl, rfl, ?_, ?_, ?_, ?_⟩
  · intro topology hnot
    cases topology <;> first
      | exact absurd (by decide) hnot
      | exact ⟨rfl, fun _ => rfl⟩
  · intro table l hall i hi
    exact apply_table_getElem table l hall i hi
  · intro table l hlen
    unfold apply_table
    rw [← hlen, List.drop_length, List.append_nil]
  · intro l
    exact apply_table_range l l.length (Nat.le_refl _)

/-- C25 on one list of ten node ids `100 + i` for `tetrahedron10`. -/
theorem C25_convert_from_gmsh_is_table_witness :
    convert_from_gmsh [demo_nodal_list10] element_topology.tetrahedron10 =
      some [[101, 102, 103, 100, 105, 108, 107, 104, 109, 106]] :=
  (C25_convert_from_gmsh_is_table.1 element_topology.tetrahedron10 [demo_nodal_list10]
    (by decide)).trans (by decide)

/-- C26: for every topology and every connectivity whose nodal lists are at
least as long as the table of the topology (one more than the largest index the
case swaps), `convert_from_gmsh` and `convert_to_vtk` return as many lists as
they are given, each as long as the input list and a permutation of it, and
every list is rearranged by the one table of the topology, itself a permutation
of the positions below its length. -/
theorem C26_conversions_rearrange (topology : element_topology)
    (nodal_connectivity : List local_indices) :
    ((∀ l ∈ nodal_connectivity, (from_gmsh_table topology).length ≤ l.length) →
      ∃ out, convert_from_gmsh nodal_connectivity topology = some out ∧
        out.length = nodal_connectivity.length ∧
        List.Forall₂
          (fun l o => o.length = l.length ∧ o.Perm l ∧
            o = apply_table (from_gmsh_table topology) l)
          nodal_connectivity out) ∧
    ((∀ l ∈ nodal_connectivity, (to_vtk_table topology).length ≤ l.length) →
      ∃ out, convert_to_vtk nodal_connectivity topology = some out ∧
        out.length = nodal_connectivity.length ∧
        List.Forall₂
          (fun l o => o.length = l.length ∧ o.Perm l ∧
            o = apply_table (to_vtk_table topology) l)
          nodal_connectivity out) ∧
    (from_gmsh_table topology).Perm (List.range (from_gmsh_table topology).length) ∧
    (to_vtk_table topology).Perm (List.range (to_vtk_table topology).length) := by
  obtain ⟨hp1, hp2⟩ := table_perm_range topology
  refine ⟨?_, ?_, hp1, hp2⟩
  · intro h
    obtain ⟨hl, hf⟩ := convert_by_table_rearranges _ hp1 nodal_connectivity h
    exact ⟨_, convert_from_gmsh_eq_table topology nodal_connectivity h, hl, hf⟩
  · intro h
    obtain ⟨hl, hf⟩ := convert_by_table_rearranges _ hp2 nodal_connectivity h
    exact ⟨_, convert_to_vtk_eq_table topology nodal_connectivity h, hl, hf⟩

/-- C26 on one list of twenty-seven node ids `100 + i` for `hexahedron27`: both
conversions return one list of 27 entries. -/
theorem C26_conversions_rearrange_witness :
    (∃ out, convert_from_gmsh [demo_nodal_list27] element_topology.hexahedron27 = some out ∧
      out.length = 1 ∧
      List.Forall₂
        (fun l o => o.length = l.length ∧ o.Perm l ∧
          o = apply_table (from_gmsh_table element_topology.hexahedron27) l)
        [demo_nodal_list27] out) ∧
    convert_to_vtk [demo_nodal_list27] element_topology.hexahedron27 =
      some [[100, 101, 102, 103, 104, 105, 106, 107, 108, 109, 110, 111, 112, 113, 114, 115,
        116, 117, 118, 119, 124, 125, 122, 123, 120, 121, 126]] :=
  ⟨(C26_conversions_rearrange element_topology.hexahedron27 [demo_nodal_list27]).1
      (by decide),
    by decide⟩

end Neon
